import Mathlib

/-!
EAP-AKA attribute codec (`eap/eap_aka.go`), EAP-MD5 codec (`eap/eap_md5.go`) and
IKE payload builders (`message/build.go`)

A shallow embedding of the EAP-AKA type-data codec: the attribute map, `SetAttr`,
`GetAttr`, `Marshal`, `Unmarshal`, `initMAC` and `getAttrsKeys`; of the EAP-MD5
type-data codec: `EapMD5.Marshal`, `EapMD5.Unmarshal` and `SetChallengeValue`;
and of the builders of package `message`: the simple payload builders,
`BuildTransform`, `BuildEAP5GNAS`, `BuildNotify5G_QOS_INFO`, `BuildEapAkaAttr`
and `BuildEAPAKAEapTypeData`.  The definitions of both packages live in the one
namespace `Eap`.

Conventions of the embedding.

* Bytes, `uint8` and `uint16` values are natural numbers; every narrowing
  conversion of the source (`uint8(..)`, `uint16(..)`) is an explicit `%`.
* A Go `[]byte` or `string` is a `List Nat`; a nil slice and an empty slice are
  both `[]`.
* A Go `map[EapAkaAttrType]*EapAkaAttr` is an association list whose order stands
  for one (arbitrary) iteration order of the map; a nil map is `none`.  Go maps
  have unique keys, which is the predicate `UniqueKeys`.
* A method that mutates its receiver returns the new receiver together with
  the error, if any.
* A payload container is the list of its payloads in wire order; a pointer to
  a payload a builder has appended is the position of that payload.
-/

namespace Eap

/-- Errors returned by the codec, one constructor per error site of the source. -/
inductive Err where
  | wrongSize
  | unsupportedType
  | nilMap
  | notFound
  | invalidHex
  | nilAttr
  | insufficientBytes
  | unexpectedType
  | readReserved
  | invalidValueLen
  | invalidAttrLen
  | outOfFuel
  | md5ValueSize
  | md5ValueLength
  | md5NotEnoughData
  | md5WrongType
  | md5InsufficientData
  | md5ChallengeSize
  | nasPduEmpty
  | nasPduTooLong
  | qfiListTooLong
  | notifyDataTooLong
deriving DecidableEq, Repr

deriving instance DecidableEq for Except

/-- Modelled from the spec: the EAP method type tag `EapTypeAKA`, whose
declaration is outside the given sources; the EAP-AKA method type is 23. -/
def EapTypeAKA : Nat := 23

def AKA_AT_RAND : Nat := 1
def AKA_AT_AUTN : Nat := 2
def AKA_AT_RES : Nat := 3
def AKA_AT_AUTS : Nat := 4
def AKA_AT_MAC : Nat := 11
def AKA_AT_NOTIFICATION : Nat := 12
def AKA_AT_ANY_ID_REQ : Nat := 13
def AKA_AT_IDENTITY : Nat := 14
def AKA_AT_CLIENT_ERROR_CODE : Nat := 22

/-- The struct `EapAkaAttr`. -/
structure EapAkaAttr where
  AttrType : Nat
  Length : Nat
  Reserved : Nat
  Value : List Nat
  Identity : List Nat
  Identity_actual_len : Nat
  Padding : List Nat
deriving DecidableEq, Repr

/-- The zero value of `EapAkaAttr` with the two fields set by `new` + assignment
or by a composite literal. -/
def EapAkaAttr.zero : EapAkaAttr :=
  { AttrType := 0, Length := 0, Reserved := 0, Value := [], Identity := [],
    Identity_actual_len := 0, Padding := [] }

abbrev AttrMap := List (Nat × EapAkaAttr)

/-- The struct `EapAka`. -/
structure EapAka where
  SubType : Nat
  Reserved : Nat
  Attributes : Option AttrMap
deriving DecidableEq, Repr

/-- Map index expression `m[k]` (with presence). -/
def mapGet : AttrMap → Nat → Option EapAkaAttr
  | [], _ => none
  | (k', a) :: rest, k => if k' = k then some a else mapGet rest k

/-- Map assignment `m[k] = a`: replaces the entry of an existing key, adds the
entry otherwise. -/
def mapSet : AttrMap → Nat → EapAkaAttr → AttrMap
  | [], k, a => [(k, a)]
  | (k', a') :: rest, k, a =>
    if k' = k then (k, a) :: rest else (k', a') :: mapSet rest k a

/-- The keys of a map, in iteration order. -/
def mapKeys (m : AttrMap) : List Nat := m.map Prod.fst

/-- Go maps hold each key once. -/
def UniqueKeys (m : AttrMap) : Prop := (mapKeys m).Nodup

instance (m : AttrMap) : Decidable (UniqueKeys m) := by
  unfold UniqueKeys; infer_instance

/-- The entries of the attribute map of an `EapAka` (none for a nil map). -/
def EapAka.entries (a : EapAka) : AttrMap := a.Attributes.getD []

/-- The function `NewEapAka`. -/
def NewEapAka (subType : Nat) : EapAka :=
  { SubType := subType, Reserved := 0, Attributes := some [] }

/-- The function `binary.BigEndian.Uint16` on a slice of (at least) two bytes. -/
def beUint16 (b : List Nat) : Nat := b.getD 0 0 * 256 + b.getD 1 0

/-- The two bytes `binary.Write(.., binary.BigEndian, x)` emits for a `uint16`. -/
def putUint16 (x : Nat) : List Nat := [x / 256 % 256, x % 256]

/-- The method `SetAttr`: the receiver after the call and the returned error. -/
def EapAka.SetAttr (eapAka : EapAka) (attrType : Nat) (value : List Nat) :
    EapAka × Option Err :=
  let eapAka : EapAka :=
    match eapAka.Attributes with
    | none => { eapAka with Attributes := some [] }
    | some _ => eapAka
  let attr : EapAkaAttr := { EapAkaAttr.zero with AttrType := attrType, Value := value }
  let store (attr : EapAkaAttr) : EapAka × Option Err :=
    ({ eapAka with Attributes := some (mapSet eapAka.entries attrType attr) }, none)
  if attrType = AKA_AT_RAND ∨ attrType = AKA_AT_AUTN ∨ attrType = AKA_AT_MAC then
    if value.length ≠ 16 then (eapAka, some Err.wrongSize)
    else store { attr with Length := 5 }
  else if attrType = AKA_AT_AUTS then
    if value.length ≠ 14 then (eapAka, some Err.wrongSize)
    else store { attr with Length := 4 }
  else if attrType = AKA_AT_RES then
    let bitLen := value.length * 8
    if bitLen < 32 ∨ bitLen > 128 then (eapAka, some Err.wrongSize)
    else
      let padding := (4 - (value.length + 4) % 4) % 4
      store { attr with
        Reserved := bitLen % 65536
        Length := (value.length + 4 + padding) / 4 % 256
        Value := value ++ List.replicate padding 0 }
  else if attrType = AKA_AT_NOTIFICATION ∨ attrType = AKA_AT_CLIENT_ERROR_CODE then
    if value.length ≠ 2 then (eapAka, some Err.wrongSize)
    else store { attr with Length := 1, Reserved := beUint16 value, Value := [] }
  else if attrType = AKA_AT_IDENTITY then
    store { attr with Length := (value.length + 4 + 3) / 4 % 256 }
  else (eapAka, some Err.unsupportedType)

/-- The method `GetAttr`: a linear scan over the map for the first attribute
whose `AttrType` field is the requested type. -/
def EapAka.GetAttr (eapAka : EapAka) (attrType : Nat) : Except Err EapAkaAttr :=
  match eapAka.Attributes with
  | none => .error Err.nilMap
  | some m =>
    match m.find? (fun e => decide (e.2.AttrType = attrType)) with
    | some e => .ok e.2
    | none => .error Err.notFound

/-- The method `getAttrsKeys`: the keys collected in iteration order, then
sorted with `sort.Slice` under `<`. -/
def EapAka.getAttrsKeys (eapAka : EapAka) : List Nat :=
  (mapKeys eapAka.entries).insertionSort (fun a b => a ≤ b)

/-- Value of one hexadecimal digit given as a character code. -/
def hexVal (c : Nat) : Option Nat :=
  if 48 ≤ c ∧ c ≤ 57 then some (c - 48)
  else if 97 ≤ c ∧ c ≤ 102 then some (c - 87)
  else if 65 ≤ c ∧ c ≤ 70 then some (c - 55)
  else none

/-- The function `hex.DecodeString`: fails on an odd length or a character that is
no hexadecimal digit. -/
def hexDecodeString : List Nat → Option (List Nat)
  | [] => some []
  | [_] => none
  | p :: q :: rest =>
    match hexVal p, hexVal q, hexDecodeString rest with
    | some a, some b, some r => some ((a * 16 + b) :: r)
    | _, _, _ => none

/-- The body of the loop of `Marshal` for one attribute: the buffer after the
writes, or the error returned. -/
def marshalAttr (attr : EapAkaAttr) (buffer : List Nat) : Except Err (List Nat) :=
  let buffer := buffer ++ [attr.AttrType]
  let buffer := buffer ++ [attr.Length]
  let afterIdentity : Except Err (List Nat) :=
    if attr.AttrType = AKA_AT_IDENTITY then
      let buffer := buffer ++ putUint16 (attr.Identity.length % 65536)
      let buffer := buffer ++ attr.Identity
      if attr.Padding ≠ [] then
        match hexDecodeString attr.Padding with
        | none => .error Err.invalidHex
        | some p => .ok (buffer ++ p)
      else .ok buffer
    else .ok buffer
  match afterIdentity with
  | .error e => .error e
  | .ok buffer => .ok (buffer ++ attr.Value)

/-- The loop of `Marshal` over the sorted keys. -/
def marshalLoop (m : AttrMap) : List Nat → List Nat → Except Err (List Nat)
  | [], buffer => .ok buffer
  | key :: keys, buffer =>
    match mapGet m key with
    | none => .error Err.nilAttr
    | some attr =>
      match marshalAttr attr buffer with
      | .error e => .error e
      | .ok buffer => marshalLoop m keys buffer

/-- The method `Marshal`. -/
def EapAka.Marshal (eapAka : EapAka) : Except Err (List Nat) :=
  let buffer := [EapTypeAKA, eapAka.SubType] ++ putUint16 eapAka.Reserved
  marshalLoop eapAka.entries eapAka.getAttrsKeys buffer

/-- One iteration of the decode loop of `Unmarshal` on a non-empty remaining
buffer `t :: rest`: the decoded attribute and the bytes left, or the error. -/
def unmarshalAttr (t : Nat) (rest : List Nat) : Except Err (EapAkaAttr × List Nat) :=
  let attrType := t
  -- `l, _ := buf.ReadByte()`: zero at the end of the buffer
  let l := rest.headD 0
  let rest := rest.tail
  let attr : EapAkaAttr := { EapAkaAttr.zero with AttrType := attrType, Length := l }
  let totalLen : Int := (attr.Length : Int) * 4
  -- `buf.Read(r)` fails only at the end of the buffer; a short read leaves zeros
  let readReserved : Except Err (EapAkaAttr × Int × List Nat) :=
    if attrType ≠ AKA_AT_AUTS then
      if rest = [] then .error Err.readReserved
      else .ok ({ attr with Reserved := beUint16 (rest.take 2) }, 4, rest.drop 2)
    else .ok (attr, 2, rest)
  match readReserved with
  | .error e => .error e
  | .ok (attr, consumed, rest) =>
    let valLen : Int := totalLen - consumed
    let checked : Except Err Int :=
      if attrType = AKA_AT_RAND ∨ attrType = AKA_AT_AUTN ∨ attrType = AKA_AT_MAC then
        if valLen ≠ 16 then .error Err.invalidValueLen else .ok valLen
      else if attrType = AKA_AT_ANY_ID_REQ then
        if attr.Reserved ≠ 0 then .error Err.invalidValueLen else .ok 0
      else .ok valLen
    match checked with
    | .error e => .error e
    | .ok valLen =>
      if valLen < 0 ∨ valLen > (rest.length : Int) then .error Err.invalidAttrLen
      else if valLen > 0 then
        .ok ({ attr with Value := rest.take valLen.toNat }, rest.drop valLen.toNat)
      else .ok (attr, rest)

/-- The decode loop `for buf.Len() > 0` of `Unmarshal`, with the map built so
far; `fuel` bounds the number of iterations. -/
def unmarshalLoop : Nat → List Nat → AttrMap → AttrMap × Option Err
  | _, [], m => (m, none)
  | 0, _ :: _, m => (m, some Err.outOfFuel)
  | fuel + 1, t :: rest, m =>
    match unmarshalAttr t rest with
    | .error e => (m, some e)
    | .ok (attr, rest) => unmarshalLoop fuel rest (mapSet m t attr)

/-- The method `Unmarshal`: the receiver after the call and the returned error.
Every iteration of the loop reads at least one byte, so `rawData.length`
iterations are enough. -/
def EapAka.Unmarshal (eapAka : EapAka) (rawData : List Nat) : EapAka × Option Err :=
  if rawData.length < 4 then (eapAka, some Err.insufficientBytes)
  else
    let typeCode := rawData.headD 0
    if typeCode ≠ EapTypeAKA then (eapAka, some Err.unexpectedType)
    else
      let subtype := rawData.getD 1 0
      let reserved := (rawData.drop 2).take 2
      let r := unmarshalLoop rawData.length (rawData.drop 4) []
      ({ SubType := subtype, Reserved := beUint16 reserved, Attributes := some r.1 }, r.2)

/-- The method `initMAC`. -/
def EapAka.initMAC (eapAka : EapAka) : EapAka × Option Err :=
  eapAka.SetAttr AKA_AT_MAC (List.replicate 16 0)

/-- The attribute `SetAttr(t, v)` computes, or the error it returns: the `switch`
of `SetAttr` read as a function of the arguments alone. -/
def attrOf (t : Nat) (v : List Nat) : Except Err EapAkaAttr :=
  if t = AKA_AT_RAND ∨ t = AKA_AT_AUTN ∨ t = AKA_AT_MAC then
    if v.length = 16 then .ok { EapAkaAttr.zero with AttrType := t, Length := 5, Value := v }
    else .error Err.wrongSize
  else if t = AKA_AT_AUTS then
    if v.length = 14 then .ok { EapAkaAttr.zero with AttrType := t, Length := 4, Value := v }
    else .error Err.wrongSize
  else if t = AKA_AT_RES then
    if 4 ≤ v.length ∧ v.length ≤ 16 then
      .ok { EapAkaAttr.zero with
        AttrType := t
        Reserved := v.length * 8 % 65536
        Length := (v.length + 4 + (4 - (v.length + 4) % 4) % 4) / 4 % 256
        Value := v ++ List.replicate ((4 - (v.length + 4) % 4) % 4) 0 }
    else .error Err.wrongSize
  else if t = AKA_AT_NOTIFICATION ∨ t = AKA_AT_CLIENT_ERROR_CODE then
    if v.length = 2 then
      .ok { EapAkaAttr.zero with AttrType := t, Length := 1, Reserved := beUint16 v }
    else .error Err.wrongSize
  else if t = AKA_AT_IDENTITY then
    .ok { EapAkaAttr.zero with
      AttrType := t, Length := (v.length + 4 + 3) / 4 % 256, Value := v }
  else .error Err.unsupportedType

/-- The attribute types `SetAttr` supports. -/
def supportedAttrTypes : List Nat :=
  [AKA_AT_RAND, AKA_AT_AUTN, AKA_AT_RES, AKA_AT_AUTS, AKA_AT_MAC, AKA_AT_NOTIFICATION,
    AKA_AT_IDENTITY, AKA_AT_CLIENT_ERROR_CODE]

/-- The size a value of `n` bytes must have for attribute type `t`: 16 bytes for
RAND, AUTN and MAC, 14 for AUTS, 4 to 16 (32 to 128 bits) for RES, 2 for
NOTIFICATION and CLIENT_ERROR_CODE; IDENTITY takes any size. -/
def requiredSize (t n : Nat) : Bool :=
  if t = AKA_AT_RAND ∨ t = AKA_AT_AUTN ∨ t = AKA_AT_MAC then n = 16
  else if t = AKA_AT_AUTS then n = 14
  else if t = AKA_AT_RES then 32 ≤ 8 * n ∧ 8 * n ≤ 128
  else if t = AKA_AT_NOTIFICATION ∨ t = AKA_AT_CLIENT_ERROR_CODE then n = 2
  else true

/-- The values of `EapAka` the codec itself produces: `NewEapAka`, any `SetAttr`
call (successful or failed) on such a value, and a successful `Unmarshal` on any
receiver. -/
inductive Produced : EapAka → Prop
  | newEapAka (subType : Nat) : Produced (NewEapAka subType)
  | setAttr (a : EapAka) (t : Nat) (v : List Nat) : Produced a → Produced (a.SetAttr t v).1
  | unmarshal (a : EapAka) (rawData : List Nat) :
      (a.Unmarshal rawData).2 = none → Produced (a.Unmarshal rawData).1

/-- Every key of the map is the `AttrType` of the attribute stored under it. -/
def KeysMatch (m : AttrMap) : Prop := ∀ e ∈ m, e.1 = e.2.AttrType

/-- Direct keyed access: the attribute stored under `t`, or the not-found error. -/
def keyedLookup (a : EapAka) (t : Nat) : Except Err EapAkaAttr :=
  match mapGet a.entries t with
  | some attr => .ok attr
  | none => .error Err.notFound

/-- The bytes `Marshal` emits for the attribute stored under key `k`: what the
loop body appends to the buffer (empty when there is no such attribute or the loop
body fails). -/
def recordOf (m : AttrMap) (k : Nat) : List Nat :=
  match mapGet m k with
  | some attr =>
    match marshalAttr attr [] with
    | .ok r => r
    | .error _ => []
  | none => []

/-- The loop body of `Marshal` succeeds on the attribute stored under key `k`. -/
def Encodable (m : AttrMap) (k : Nat) : Prop :=
  ∃ attr r, mapGet m k = some attr ∧ marshalAttr attr [] = .ok r

/-- The 4-byte header `Marshal` writes first. -/
def headerOf (a : EapAka) : List Nat := [EapTypeAKA, a.SubType] ++ putUint16 a.Reserved

/-- A character code that is a hexadecimal digit. -/
def isHexDigit (c : Nat) : Bool :=
  (48 ≤ c ∧ c ≤ 57) ∨ (97 ≤ c ∧ c ≤ 102) ∨ (65 ≤ c ∧ c ≤ 70)

/-- A valid hexadecimal string: an even number of hexadecimal digits. -/
def isHexString (p : List Nat) : Bool :=
  p.length % 2 = 0 ∧ p.all isHexDigit

/-- An IDENTITY attribute with the identity `0@a` and the padding specification
`00`. -/
def identityAttrExample : EapAkaAttr :=
  { EapAkaAttr.zero with
    AttrType := 14, Length := 2, Identity := [48, 64, 97], Padding := [48, 48] }

/-- An `EapAka` of subtype Identity holding `identityAttrExample` alone. -/
def identityExample : EapAka :=
  { SubType := 5, Reserved := 0, Attributes := some [(14, identityAttrExample)] }

/-- Modelled from the spec: the EAP method type tag `EapTypeMD5`, whose
declaration is outside the given sources; the encoding of an EAP-MD5 value
starts `0x04 0x10`. -/
def EapTypeMD5 : Nat := 4

def EapMD5ChallengeSize : Nat := 16
def EapMD5HeaderLen : Nat := 2
def EapMD5MinLen : Nat := 3

/-- The struct `EapMD5`. -/
structure EapMD5 where
  ValueSize : Nat
  Value : List Nat
  Name : List Nat
deriving DecidableEq, Repr

/-- The method `EapMD5.Marshal`. -/
def EapMD5.Marshal (e : EapMD5) : Except Err (List Nat) :=
  if e.ValueSize ≠ EapMD5ChallengeSize then .error Err.md5ValueSize
  else if e.Value.length ≠ EapMD5ChallengeSize then .error Err.md5ValueLength
  else
    let data := [EapTypeMD5, e.ValueSize]
    let data := data ++ e.Value
    let data := if e.Name.length > 0 then data ++ e.Name else data
    .ok data

/-- The method `EapMD5.Unmarshal`: the receiver after the call and the returned
error.  The `ValueSize` field is assigned before it is checked. -/
def EapMD5.Unmarshal (e : EapMD5) (b : List Nat) : EapMD5 × Option Err :=
  if b.length < EapMD5MinLen then (e, some Err.md5NotEnoughData)
  else
    let actualType := b.getD 0 0
    if actualType ≠ EapTypeMD5 then (e, some Err.md5WrongType)
    else
      let e := { e with ValueSize := b.getD 1 0 }
      if e.ValueSize ≠ EapMD5ChallengeSize then (e, some Err.md5ValueSize)
      else if b.length < EapMD5HeaderLen + e.ValueSize then (e, some Err.md5InsufficientData)
      else
        let value := (b.take (EapMD5HeaderLen + EapMD5ChallengeSize)).drop EapMD5HeaderLen
        let e := { e with Value := value }
        let e :=
          if b.length > EapMD5HeaderLen + EapMD5ChallengeSize then
            { e with Name := b.drop (EapMD5HeaderLen + EapMD5ChallengeSize) }
          else { e with Name := [] }
        (e, none)

/-- The value `validEapMD5` of the tests: the challenge `01 .. 10` and the name
`testuser`. -/
def validEapMD5 : EapMD5 :=
  { ValueSize := 16,
    Value := [1, 2, 3, 4, 5, 6, 7, 8, 9, 10, 11, 12, 13, 14, 15, 16],
    Name := [116, 101, 115, 116, 117, 115, 101, 114] }

/-- The bytes `validEapMD5Bytes` of the tests. -/
def validEapMD5Bytes : List Nat :=
  [4, 16] ++ [1, 2, 3, 4, 5, 6, 7, 8, 9, 10, 11, 12, 13, 14, 15, 16] ++
    [116, 101, 115, 116, 117, 115, 101, 114]

/-- The remaining buffers on which the decode loop of `Unmarshal` starts an
iteration, in order: the attribute records the loop reaches. -/
def reachedRecords : Nat → List Nat → List (List Nat)
  | _, [] => []
  | 0, _ :: _ => []
  | fuel + 1, t :: rest =>
    (t :: rest) ::
      (match unmarshalAttr t rest with
        | .error _ => []
        | .ok (_, rest) => reachedRecords fuel rest)

/-- The attribute records the decode loop of `Unmarshal` reaches on `rawData`
(none when the header is rejected). -/
def reachedBy (rawData : List Nat) : List (List Nat) :=
  if rawData.length < 4 ∨ rawData.headD 0 ≠ EapTypeAKA then []
  else reachedRecords rawData.length (rawData.drop 4)

/-- The header bytes of an attribute record: type and length bytes, and the
reserved field for every type but AUTS. -/
def headerLen (t : Nat) : Nat := if t = AKA_AT_AUTS then 2 else 4

/-- The total length a record declares: four times its length byte. -/
def declaredLen (r : List Nat) : Nat := 4 * r.getD 1 0

/-- The attribute types the package defines constants for. -/
def definedAttrTypes : List Nat :=
  [AKA_AT_RAND, AKA_AT_AUTN, AKA_AT_RES, AKA_AT_AUTS, AKA_AT_MAC, AKA_AT_NOTIFICATION,
    AKA_AT_ANY_ID_REQ, AKA_AT_IDENTITY, AKA_AT_CLIENT_ERROR_CODE]

/-- The attribute with type `t`, length byte `L`, the reserved field `x y` read
big-endian and the `4·L − 4` bytes that follow in `tl` as value. -/
def decodedAttr (t L x y : Nat) (tl : List Nat) : EapAkaAttr :=
  { EapAkaAttr.zero with
    AttrType := t, Length := L, Reserved := x * 256 + y, Value := tl.take (4 * L - 4) }

/-- The method `EapMD5.SetChallengeValue`: the receiver after the call and the
returned error. -/
def EapMD5.SetChallengeValue (e : EapMD5) (value : List Nat) : EapMD5 × Option Err :=
  if value.length ≠ EapMD5ChallengeSize then (e, some Err.md5ChallengeSize)
  else
    let e := { e with ValueSize := EapMD5ChallengeSize }
    let e := { e with Value := value.take EapMD5ChallengeSize }
    (e, none)

/-- The method `EapMD5.SetName`. -/
def EapMD5.SetName (e : EapMD5) (name : List Nat) : EapMD5 :=
  { e with Name := name }

/-- Modelled from the spec: the EAP code `EapCodeRequest`, whose declaration is
outside the given sources (EAP code 1). -/
def EapCodeRequest : Nat := 1

/-- Modelled from the spec: the 3GPP vendor ID `VendorId3GPP` of the EAP-5G
vendor payload, whose declaration is outside the given sources. -/
def VendorId3GPP : Nat := 10415

/-- Modelled from the spec: the EAP-5G vendor type `VendorTypeEAP5G`, whose
declaration is outside the given sources. -/
def VendorTypeEAP5G : Nat := 3

def EAP5GType5GStart : Nat := 1
def EAP5GType5GNAS : Nat := 2
def EAP5GSpareValue : Nat := 0
def TypeNone : Nat := 0
def Vendor3GPPNotifyType5G_QOS_INFO : Nat := 55501
def NotifyType5G_QOS_INFOBitDSCPICheck : Nat := 1
def NotifyType5G_QOS_INFOBitDCSICheck : Nat := 2
def AttributeFormatUseTLV : Nat := 0
def AttributeFormatUseTV : Nat := 1

/-- Modelled from the spec: the struct `EapExpanded` (vendor ID, vendor type,
opaque vendor data), declared outside the given sources. -/
structure EapExpanded where
  VendorID : Nat
  VendorType : Nat
  VendorData : List Nat
deriving DecidableEq, Repr

/-- Modelled from the spec: the interface `EapTypeData`, one of EAP-MD5, EAP-AKA
and EAP-Expanded, or nil. -/
inductive EapTypeData where
  | nil
  | md5 (e : EapMD5)
  | aka (e : EapAka)
  | expanded (e : EapExpanded)
deriving DecidableEq, Repr

/-- Modelled from the spec: the struct `EAP` (code, identifier, type data),
declared outside the given sources. -/
structure EAP where
  Code : Nat
  Identifier : Nat
  EapTypeData : EapTypeData
deriving DecidableEq, Repr

/-- Modelled from the spec: the payload structs the builders fill in, declared
outside the given sources; the fields are the ones the builders assign. -/
structure Notification where
  ProtocolID : Nat
  NotifyMessageType : Nat
  SPI : List Nat
  NotificationData : List Nat
deriving DecidableEq, Repr

/-- Modelled from the spec: the struct `Certificate`. -/
structure Certificate where
  CertificateEncoding : Nat
  CertificateData : List Nat
deriving DecidableEq, Repr

/-- Modelled from the spec: the struct `KeyExchange`. -/
structure KeyExchange where
  DiffieHellmanGroup : Nat
  KeyExchangeData : List Nat
deriving DecidableEq, Repr

/-- Modelled from the spec: the struct `IdentificationInitiator`. -/
structure IdentificationInitiator where
  IDType : Nat
  IDData : List Nat
deriving DecidableEq, Repr

/-- Modelled from the spec: the struct `IdentificationResponder`. -/
structure IdentificationResponder where
  IDType : Nat
  IDData : List Nat
deriving DecidableEq, Repr

/-- Modelled from the spec: the struct `Authentication`. -/
structure Authentication where
  AuthenticationMethod : Nat
  AuthenticationData : List Nat
deriving DecidableEq, Repr

/-- Modelled from the spec: the struct `Nonce`. -/
structure Nonce where
  NonceData : List Nat
deriving DecidableEq, Repr

/-- Modelled from the spec: the struct `Delete`. -/
structure Delete where
  ProtocolID : Nat
  SPISize : Nat
  NumberOfSPI : Nat
  SPIs : List Nat
deriving DecidableEq, Repr

/-- Modelled from the spec: the struct `PayloadEap`, which embeds an `EAP`. -/
structure PayloadEap where
  EAP : EAP
deriving DecidableEq, Repr

/-- Modelled from the spec: the payload variants held by an
`IKEPayloadContainer`, restricted to the variants built by the builders
embedded here. -/
inductive IKEPayload where
  | notification (p : Notification)
  | certificate (p : Certificate)
  | keyExchange (p : KeyExchange)
  | identificationInitiator (p : IdentificationInitiator)
  | identificationResponder (p : IdentificationResponder)
  | authentication (p : Authentication)
  | nonce (p : Nonce)
  | delete (p : Delete)
  | eap (p : PayloadEap)
deriving DecidableEq, Repr

/-- The slice type `IKEPayloadContainer`: the payloads in wire order (the nil
slice is the empty list). -/
abbrev IKEPayloadContainer := List IKEPayload

/-- The method `IKEPayloadContainer.Reset`. -/
def IKEPayloadContainer.Reset (_container : IKEPayloadContainer) : IKEPayloadContainer := []

/-- The method `BuildNotification`. -/
def IKEPayloadContainer.BuildNotification (container : IKEPayloadContainer)
    (protocolID notifyMessageType : Nat) (spi notificationData : List Nat) :
    IKEPayloadContainer :=
  let notification : Notification :=
    { ProtocolID := 0, NotifyMessageType := 0, SPI := [], NotificationData := [] }
  let notification := { notification with ProtocolID := protocolID }
  let notification := { notification with NotifyMessageType := notifyMessageType }
  let notification := { notification with SPI := notification.SPI ++ spi }
  let notification :=
    { notification with NotificationData := notification.NotificationData ++ notificationData }
  container ++ [IKEPayload.notification notification]

/-- The method `BuildEAP`: the container after the call and the position of the
appended payload, which stands for the returned pointer. -/
def IKEPayloadContainer.BuildEAP (container : IKEPayloadContainer) (code identifier : Nat) :
    IKEPayloadContainer × Nat :=
  let eap : PayloadEap :=
    { EAP := { Code := code, Identifier := identifier, EapTypeData := EapTypeData.nil } }
  (container ++ [IKEPayload.eap eap], container.length)

/-- An assignment `eap.EapTypeData = data` through the pointer `BuildEAP`
returned: the payload at that position of the container is updated. -/
def assignEapTypeData : IKEPayloadContainer → Nat → EapTypeData → IKEPayloadContainer
  | [], _, _ => []
  | IKEPayload.eap p :: rest, 0, data =>
    IKEPayload.eap { EAP := { p.EAP with EapTypeData := data } } :: rest
  | p :: rest, 0, _ => p :: rest
  | p :: rest, handle + 1, data => p :: assignEapTypeData rest handle data

/-- The function `BuildEapExpanded`. -/
def BuildEapExpanded (vendorID vendorType : Nat) (vendorData : List Nat) : EapExpanded :=
  { VendorID := vendorID, VendorType := vendorType, VendorData := [] ++ vendorData }

/-- The method `BuildEAP5GNAS`: the container after the call and the returned
error. -/
def IKEPayloadContainer.BuildEAP5GNAS (container : IKEPayloadContainer) (identifier : Nat)
    (nasPDU : List Nat) : IKEPayloadContainer × Option Err :=
  if nasPDU.length = 0 then (container, some Err.nasPduEmpty)
  else
    let vendorData : List Nat := []
    let header : List Nat := List.replicate 4 0
    let header := header.set 0 EAP5GType5GNAS
    let nasPDULen := nasPDU.length
    if nasPDULen > 0xFFFF then (container, some Err.nasPduTooLong)
    else
      let header := header.take 2 ++ putUint16 (nasPDULen % 65536)
      let vendorData := vendorData ++ header
      let vendorData := vendorData ++ nasPDU
      let built := container.BuildEAP EapCodeRequest identifier
      (assignEapTypeData built.1 built.2
        (EapTypeData.expanded (BuildEapExpanded VendorId3GPP VendorTypeEAP5G vendorData)), none)

/-- The method `BuildNotify5G_QOS_INFO`: the container after the call and the
returned error. -/
def IKEPayloadContainer.BuildNotify5G_QOS_INFO (container : IKEPayloadContainer)
    (pduSessionID : Nat) (qfiList : List Nat) (isDefault isDSCPSpecified : Bool) (dscp : Nat) :
    IKEPayloadContainer × Option Err :=
  let notifyData : List Nat := List.replicate 1 0
  let notifyData := notifyData ++ [pduSessionID]
  let qfiListLen := qfiList.length
  if qfiListLen > 0xFF then (container, some Err.qfiListTooLong)
  else
    let notifyData := notifyData ++ [qfiListLen % 256]
    let notifyData := notifyData ++ qfiList
    let flags : Nat := 0
    let flags := if isDefault then flags ||| NotifyType5G_QOS_INFOBitDCSICheck else flags
    let flags := if isDSCPSpecified then flags ||| NotifyType5G_QOS_INFOBitDSCPICheck else flags
    let notifyData := notifyData ++ [flags]
    let notifyData := if isDSCPSpecified then notifyData ++ [dscp] else notifyData
    let notifyDataLen := notifyData.length
    if notifyDataLen > 0xFF then (container, some Err.notifyDataTooLong)
    else
      let notifyData := notifyData.set 0 (notifyDataLen % 256)
      (container.BuildNotification TypeNone Vendor3GPPNotifyType5G_QOS_INFO [] notifyData, none)

/-- The flags byte of the QoS-info notify body. -/
def qosFlags (isDefault isDSCPSpecified : Bool) : Nat :=
  (if isDefault then 2 else 0) ||| (if isDSCPSpecified then 1 else 0)

/-- The QoS-info notify body with its length byte `n`. -/
def qosBody (n pduSessionID : Nat) (qfiList : List Nat) (isDefault isDSCPSpecified : Bool)
    (dscp : Nat) : List Nat :=
  [n, pduSessionID, qfiList.length] ++ qfiList ++ [qosFlags isDefault isDSCPSpecified] ++
    (if isDSCPSpecified then [dscp] else [])

/-- The method `BuildCertificate`. -/
def IKEPayloadContainer.BuildCertificate (container : IKEPayloadContainer)
    (certificateEncode : Nat) (certificateData : List Nat) : IKEPayloadContainer :=
  let certificate : Certificate := { CertificateEncoding := 0, CertificateData := [] }
  let certificate := { certificate with CertificateEncoding := certificateEncode }
  let certificate :=
    { certificate with CertificateData := certificate.CertificateData ++ certificateData }
  container ++ [IKEPayload.certificate certificate]

/-- The method `BuildKeyExchange`. -/
def IKEPayloadContainer.BuildKeyExchange (container : IKEPayloadContainer)
    (diffiehellmanGroup : Nat) (keyExchangeData : List Nat) : IKEPayloadContainer :=
  let keyExchange : KeyExchange := { DiffieHellmanGroup := 0, KeyExchangeData := [] }
  let keyExchange := { keyExchange with DiffieHellmanGroup := diffiehellmanGroup }
  let keyExchange :=
    { keyExchange with KeyExchangeData := keyExchange.KeyExchangeData ++ keyExchangeData }
  container ++ [IKEPayload.keyExchange keyExchange]

/-- The method `BuildIdentificationInitiator`. -/
def IKEPayloadContainer.BuildIdentificationInitiator (container : IKEPayloadContainer)
    (idType : Nat) (idData : List Nat) : IKEPayloadContainer :=
  let identification : IdentificationInitiator := { IDType := 0, IDData := [] }
  let identification := { identification with IDType := idType }
  let identification := { identification with IDData := identification.IDData ++ idData }
  container ++ [IKEPayload.identificationInitiator identification]

/-- The method `BuildIdentificationResponder`. -/
def IKEPayloadContainer.BuildIdentificationResponder (container : IKEPayloadContainer)
    (idType : Nat) (idData : List Nat) : IKEPayloadContainer :=
  let identification : IdentificationResponder := { IDType := 0, IDData := [] }
  let identification := { identification with IDType := idType }
  let identification := { identification with IDData := identification.IDData ++ idData }
  container ++ [IKEPayload.identificationResponder identification]

/-- The method `BuildAuthentication`. -/
def IKEPayloadContainer.BuildAuthentication (container : IKEPayloadContainer)
    (authenticationMethod : Nat) (authenticationData : List Nat) : IKEPayloadContainer :=
  let authentication : Authentication := { AuthenticationMethod := 0, AuthenticationData := [] }
  let authentication := { authentication with AuthenticationMethod := authenticationMethod }
  let authentication :=
    { authentication with
      AuthenticationData := authentication.AuthenticationData ++ authenticationData }
  container ++ [IKEPayload.authentication authentication]

/-- The method `BuildNonce`. -/
def IKEPayloadContainer.BuildNonce (container : IKEPayloadContainer) (nonceData : List Nat) :
    IKEPayloadContainer :=
  let nonce : Nonce := { NonceData := [] }
  let nonce := { nonce with NonceData := nonce.NonceData ++ nonceData }
  container ++ [IKEPayload.nonce nonce]

/-- The method `BuildDeletePayload`. -/
def IKEPayloadContainer.BuildDeletePayload (container : IKEPayloadContainer)
    (protocolID spiSize numberOfSPI : Nat) (spis : List Nat) : IKEPayloadContainer :=
  let deletePayload : Delete := { ProtocolID := 0, SPISize := 0, NumberOfSPI := 0, SPIs := [] }
  let deletePayload := { deletePayload with ProtocolID := protocolID }
  let deletePayload := { deletePayload with SPISize := spiSize }
  let deletePayload := { deletePayload with NumberOfSPI := numberOfSPI }
  let deletePayload := { deletePayload with SPIs := spis }
  container ++ [IKEPayload.delete deletePayload]

/-- A call of one of the simple builders, with its arguments. -/
inductive SimpleBuild where
  | notification (protocolID notifyMessageType : Nat) (spi notificationData : List Nat)
  | certificate (certificateEncode : Nat) (certificateData : List Nat)
  | keyExchange (diffiehellmanGroup : Nat) (keyExchangeData : List Nat)
  | identificationInitiator (idType : Nat) (idData : List Nat)
  | identificationResponder (idType : Nat) (idData : List Nat)
  | authentication (authenticationMethod : Nat) (authenticationData : List Nat)
  | nonce (nonceData : List Nat)
  | deletePayload (protocolID spiSize numberOfSPI : Nat) (spis : List Nat)
deriving DecidableEq, Repr

/-- Running a call of a simple builder on a container. -/
def SimpleBuild.run (container : IKEPayloadContainer) : SimpleBuild → IKEPayloadContainer
  | .notification protocolID notifyMessageType spi notificationData =>
    container.BuildNotification protocolID notifyMessageType spi notificationData
  | .certificate certificateEncode certificateData =>
    container.BuildCertificate certificateEncode certificateData
  | .keyExchange diffiehellmanGroup keyExchangeData =>
    container.BuildKeyExchange diffiehellmanGroup keyExchangeData
  | .identificationInitiator idType idData =>
    container.BuildIdentificationInitiator idType idData
  | .identificationResponder idType idData =>
    container.BuildIdentificationResponder idType idData
  | .authentication authenticationMethod authenticationData =>
    container.BuildAuthentication authenticationMethod authenticationData
  | .nonce nonceData => container.BuildNonce nonceData
  | .deletePayload protocolID spiSize numberOfSPI spis =>
    container.BuildDeletePayload protocolID spiSize numberOfSPI spis

/-- The payload variant a call of a simple builder is to build: the variant of
the builder with field values equal to the arguments of the call. -/
def SimpleBuild.payload : SimpleBuild → IKEPayload
  | .notification protocolID notifyMessageType spi notificationData =>
    IKEPayload.notification (Notification.mk protocolID notifyMessageType spi notificationData)
  | .certificate certificateEncode certificateData =>
    IKEPayload.certificate (Certificate.mk certificateEncode certificateData)
  | .keyExchange diffiehellmanGroup keyExchangeData =>
    IKEPayload.keyExchange (KeyExchange.mk diffiehellmanGroup keyExchangeData)
  | .identificationInitiator idType idData =>
    IKEPayload.identificationInitiator (IdentificationInitiator.mk idType idData)
  | .identificationResponder idType idData =>
    IKEPayload.identificationResponder (IdentificationResponder.mk idType idData)
  | .authentication authenticationMethod authenticationData =>
    IKEPayload.authentication (Authentication.mk authenticationMethod authenticationData)
  | .nonce nonceData => IKEPayload.nonce (Nonce.mk nonceData)
  | .deletePayload protocolID spiSize numberOfSPI spis =>
    IKEPayload.delete (Delete.mk protocolID spiSize numberOfSPI spis)

/-- Modelled from the spec: the struct `Transform`, declared outside the given
sources; the fields are the ones `BuildTransform` assigns. -/
structure Transform where
  TransformType : Nat
  TransformID : Nat
  AttributePresent : Bool
  AttributeFormat : Nat
  AttributeType : Nat
  AttributeValue : Nat
  VariableLengthAttributeValue : List Nat
deriving DecidableEq, Repr

/-- The zero value of `Transform`, as `new(Transform)` returns it. -/
def Transform.zero : Transform :=
  { TransformType := 0, TransformID := 0, AttributePresent := false, AttributeFormat := 0,
    AttributeType := 0, AttributeValue := 0, VariableLengthAttributeValue := [] }

/-- The slice type `TransformContainer`. -/
abbrev TransformContainer := List Transform

/-- The method `TransformContainer.BuildTransform`; the pointer arguments
`attributeType` and `attributeValue` are options. -/
def TransformContainer.BuildTransform (container : TransformContainer)
    (transformType transformID : Nat) (attributeType attributeValue : Option Nat)
    (variableLengthAttributeValue : List Nat) : TransformContainer :=
  let transform := Transform.zero
  let transform := { transform with TransformType := transformType }
  let transform := { transform with TransformID := transformID }
  match attributeType with
  | some attributeType =>
    let transform := { transform with AttributePresent := true }
    let transform := { transform with AttributeType := attributeType }
    match attributeValue with
    | some attributeValue =>
      let transform := { transform with AttributeFormat := AttributeFormatUseTV }
      let transform := { transform with AttributeValue := attributeValue }
      container ++ [transform]
    | none =>
      if variableLengthAttributeValue.length ≠ 0 then
        let transform := { transform with AttributeFormat := AttributeFormatUseTLV }
        let transform :=
          { transform with
            VariableLengthAttributeValue :=
              transform.VariableLengthAttributeValue ++ variableLengthAttributeValue }
        container ++ [transform]
      else container
  | none =>
    let transform := { transform with AttributePresent := false }
    container ++ [transform]

/-- The function `BuildEAPAKAEapTypeData`. -/
def BuildEAPAKAEapTypeData (subtype : Nat) (attributeMap : Option AttrMap) : EapAka :=
  let eapAka : EapAka := { SubType := 0, Reserved := 0, Attributes := none }
  let eapAka := { eapAka with SubType := subtype }
  let eapAka := { eapAka with Attributes := attributeMap }
  eapAka

/-- The function `BuildEapAkaAttr`; the result is `none` for the nil pointer. -/
def BuildEapAkaAttr (attrType : Nat) (vStr : List Nat) (vBytes : List Nat) :
    Option EapAkaAttr :=
  if attrType = AKA_AT_IDENTITY then
    let idBytes := vStr
    let pad := (4 - idBytes.length % 4) % 4
    let paddedLen := idBytes.length + pad
    let l := (4 + paddedLen) / 4 % 256
    some { EapAkaAttr.zero with
      AttrType := attrType
      Length := l
      Identity_actual_len := idBytes.length % 256
      Identity := vStr
      Padding := [48, 48, 48, 48] }
  else if attrType = AKA_AT_RES then
    let resBytes := vBytes
    let val := putUint16 (resBytes.length * 8 % 65536) ++ resBytes
    let total := 2 + val.length
    let pad := (4 - total % 4) % 4
    let val := if pad > 0 then val ++ List.replicate pad 0 else val
    let total := if pad > 0 then total + pad else total
    let l := total / 4 % 256
    some { EapAkaAttr.zero with AttrType := AKA_AT_RES, Length := l, Value := val }
  else if attrType = AKA_AT_MAC then
    let val := List.replicate 2 0 ++ vBytes
    let total := 2 + val.length
    let pad := (4 - total % 4) % 4
    let val := if pad > 0 then val ++ List.replicate pad 0 else val
    let total := if pad > 0 then total + pad else total
    let l := total / 4 % 256
    some { EapAkaAttr.zero with AttrType := attrType, Length := l, Value := val }
  else none

/-! ## Properties of the attribute map -/

theorem mapGet_mapSet_self (m : AttrMap) (k : Nat) (a : EapAkaAttr) :
    mapGet (mapSet m k a) k = some a := by
  induction m with
  | nil => simp [mapSet, mapGet]
  | cons e rest ih =>
    obtain ⟨k', a'⟩ := e
    by_cases h : k' = k <;> simp [mapSet, mapGet, h, ih]

theorem mapGet_mapSet_ne (m : AttrMap) (k k' : Nat) (a : EapAkaAttr) (h : k' ≠ k) :
    mapGet (mapSet m k a) k' = mapGet m k' := by
  induction m with
  | nil => simp [mapSet, mapGet, Ne.symm h]
  | cons e rest ih =>
    obtain ⟨k₀, a₀⟩ := e
    by_cases h0 : k₀ = k
    · subst h0; simp [mapSet, mapGet, Ne.symm h]
    · by_cases h1 : k₀ = k'
      · subst h1; simp [mapSet, mapGet, h0]
      · simp [mapSet, mapGet, h0, h1, ih]

theorem mapKeys_mapSet_of_mem (m : AttrMap) (k : Nat) (a : EapAkaAttr)
    (h : k ∈ mapKeys m) : mapKeys (mapSet m k a) = mapKeys m := by
  induction m with
  | nil => simp [mapKeys] at h
  | cons e rest ih =>
    obtain ⟨k₀, a₀⟩ := e
    by_cases h0 : k₀ = k
    · subst h0; simp [mapSet, mapKeys]
    · have : k ∈ mapKeys rest := by
        simp only [mapKeys, List.map_cons, List.mem_cons] at h
        rcases h with h | h
        · exact absurd h.symm h0
        · exact h
      have ih' := ih this
      simp only [mapKeys] at ih' ⊢
      simp [mapSet, h0, ih']

theorem mapKeys_mapSet_of_not_mem (m : AttrMap) (k : Nat) (a : EapAkaAttr)
    (h : k ∉ mapKeys m) : mapKeys (mapSet m k a) = mapKeys m ++ [k] := by
  induction m with
  | nil => simp [mapSet, mapKeys]
  | cons e rest ih =>
    obtain ⟨k₀, a₀⟩ := e
    simp only [mapKeys, List.map_cons, List.mem_cons, not_or] at h
    have h0 : k₀ ≠ k := fun hh => h.1 hh.symm
    have ih' := ih h.2
    simp only [mapKeys] at ih' ⊢
    simp [mapSet, h0, ih']

theorem mem_mapKeys_mapSet (m : AttrMap) (k : Nat) (a : EapAkaAttr) :
    k ∈ mapKeys (mapSet m k a) := by
  by_cases h : k ∈ mapKeys m
  · rw [mapKeys_mapSet_of_mem m k a h]; exact h
  · rw [mapKeys_mapSet_of_not_mem m k a h]; simp

theorem uniqueKeys_mapSet (m : AttrMap) (k : Nat) (a : EapAkaAttr)
    (h : UniqueKeys m) : UniqueKeys (mapSet m k a) := by
  unfold UniqueKeys at *
  by_cases hk : k ∈ mapKeys m
  · rw [mapKeys_mapSet_of_mem m k a hk]; exact h
  · rw [mapKeys_mapSet_of_not_mem m k a hk]
    rw [List.nodup_append]
    refine ⟨h, List.nodup_singleton k, ?_⟩
    intro x hx hx'
    simp at hx'
    subst hx'
    exact hk hx

theorem mapGet_isSome_iff (m : AttrMap) (k : Nat) :
    (mapGet m k).isSome ↔ k ∈ mapKeys m := by
  induction m with
  | nil => simp [mapGet, mapKeys]
  | cons e rest ih =>
    obtain ⟨k₀, a₀⟩ := e
    by_cases h0 : k₀ = k
    · simp [mapGet, mapKeys, h0]
    · simp only [mapKeys] at ih
      simp [mapGet, mapKeys, h0, ih, Ne.symm h0]

/-- `SetAttr` stores the attribute `attrOf` computes under the key `t`, and on an
error only replaces a nil map by an empty one. -/
theorem setAttr_eq (a : EapAka) (t : Nat) (v : List Nat) :
    a.SetAttr t v =
      match attrOf t v with
      | .ok attr => ({ a with Attributes := some (mapSet a.entries t attr) }, none)
      | .error e => ({ a with Attributes := some a.entries }, some e) := by
  have hres : (v.length * 8 < 32 ∨ v.length * 8 > 128) ↔ ¬ (4 ≤ v.length ∧ v.length ≤ 16) := by
    omega
  obtain ⟨s, r, m⟩ := a
  cases m <;>
  · simp only [EapAka.SetAttr, EapAka.entries, attrOf, hres]
    split_ifs <;> simp_all [EapAkaAttr.zero]

theorem setAttr_ok (a : EapAka) (t : Nat) (v : List Nat) (attr : EapAkaAttr)
    (h : attrOf t v = .ok attr) :
    a.SetAttr t v = ({ a with Attributes := some (mapSet a.entries t attr) }, none) := by
  rw [setAttr_eq, h]

theorem setAttr_error (a : EapAka) (t : Nat) (v : List Nat) (e : Err)
    (h : attrOf t v = .error e) :
    a.SetAttr t v = ({ a with Attributes := some a.entries }, some e) := by
  rw [setAttr_eq, h]

theorem setAttr_snd_eq_none_iff (a : EapAka) (t : Nat) (v : List Nat) :
    (a.SetAttr t v).2 = none ↔ ∃ attr, attrOf t v = .ok attr := by
  rw [setAttr_eq]
  cases h : attrOf t v <;> simp

theorem attrOf_attrType (t : Nat) (v : List Nat) (attr : EapAkaAttr)
    (h : attrOf t v = .ok attr) : attr.AttrType = t := by
  unfold attrOf at h
  split_ifs at h <;> cases h <;> rfl

theorem attrOf_padding (t : Nat) (v : List Nat) (attr : EapAkaAttr)
    (h : attrOf t v = .ok attr) : attr.Padding = [] ∧ attr.Identity = [] := by
  unfold attrOf at h
  split_ifs at h <;> cases h <;> exact ⟨rfl, rfl⟩

/-- C6. For RAND, AUTN and MAC, `SetAttr` succeeds exactly on 16-byte values and
stores an attribute of `Length` 5 holding the value; for AUTS it succeeds exactly
on 14-byte values and stores an attribute of `Length` 4 holding the value. -/
theorem setAttr_fixed_size_classes (a : EapAka) (t : Nat) (v : List Nat)
    (ht : t = AKA_AT_RAND ∨ t = AKA_AT_AUTN ∨ t = AKA_AT_MAC ∨ t = AKA_AT_AUTS) :
    ((a.SetAttr t v).2 = none ↔ v.length = (if t = AKA_AT_AUTS then 14 else 16)) ∧
    (v.length = (if t = AKA_AT_AUTS then 14 else 16) →
      mapGet (a.SetAttr t v).1.entries t =
        some { EapAkaAttr.zero with
          AttrType := t, Length := (if t = AKA_AT_AUTS then 4 else 5), Value := v }) := by
  rw [setAttr_eq]
  rcases ht with h | h | h | h <;> subst h <;>
  · simp only [attrOf, AKA_AT_RAND, AKA_AT_AUTN, AKA_AT_MAC, AKA_AT_AUTS]
    by_cases hv : v.length = 16 <;> by_cases hv' : v.length = 14 <;>
      simp [hv, hv', mapGet_mapSet_self, EapAka.entries]

theorem setAttr_fixed_size_classes_witness :
    (11 = AKA_AT_RAND ∨ 11 = AKA_AT_AUTN ∨ 11 = AKA_AT_MAC ∨ 11 = AKA_AT_AUTS) ∧
    (((NewEapAka 1).SetAttr 11 (List.replicate 16 7)).2 = none ↔
      (List.replicate 16 7).length = (if 11 = AKA_AT_AUTS then 14 else 16)) ∧
    ((List.replicate 16 7).length = (if 11 = AKA_AT_AUTS then 14 else 16) →
      mapGet ((NewEapAka 1).SetAttr 11 (List.replicate 16 7)).1.entries 11 =
        some { EapAkaAttr.zero with
          AttrType := 11, Length := (if 11 = AKA_AT_AUTS then 4 else 5),
          Value := List.replicate 16 7 }) :=
  ⟨by decide, setAttr_fixed_size_classes (NewEapAka 1) 11 (List.replicate 16 7) (by decide)⟩

/-- C7. `SetAttr(RES, v)` succeeds exactly when `4 ≤ len(v) ≤ 16`; the attribute
it then stores has `Reserved = 8·len(v)`, a `Value` that is `v` followed by fewer
than four zero bytes up to a multiple of 4 bytes, and `Length = 1 + ⌈len(v)/4⌉`. -/
theorem setAttr_res (a : EapAka) (v : List Nat) :
    ((a.SetAttr AKA_AT_RES v).2 = none ↔ 4 ≤ v.length ∧ v.length ≤ 16) ∧
    (4 ≤ v.length ∧ v.length ≤ 16 →
      ∃ attr pad, mapGet (a.SetAttr AKA_AT_RES v).1.entries AKA_AT_RES = some attr ∧
        attr.AttrType = AKA_AT_RES ∧
        attr.Reserved = 8 * v.length ∧
        attr.Value = v ++ List.replicate pad 0 ∧ pad < 4 ∧ (v.length + pad) % 4 = 0 ∧
        attr.Length = 1 + (v.length + 3) / 4) := by
  rw [setAttr_eq]
  by_cases hv : 4 ≤ v.length ∧ v.length ≤ 16
  · have h : attrOf AKA_AT_RES v = .ok { EapAkaAttr.zero with
        AttrType := AKA_AT_RES
        Reserved := v.length * 8 % 65536
        Length := (v.length + 4 + (4 - (v.length + 4) % 4) % 4) / 4 % 256
        Value := v ++ List.replicate ((4 - (v.length + 4) % 4) % 4) 0 } := by
      simp [attrOf, AKA_AT_RAND, AKA_AT_AUTN, AKA_AT_MAC, AKA_AT_AUTS, AKA_AT_RES, hv]
    rw [h]
    refine ⟨by simp [hv], fun _ => ⟨{ EapAkaAttr.zero with
        AttrType := AKA_AT_RES
        Reserved := v.length * 8 % 65536
        Length := (v.length + 4 + (4 - (v.length + 4) % 4) % 4) / 4 % 256
        Value := v ++ List.replicate ((4 - (v.length + 4) % 4) % 4) 0 },
      (4 - (v.length + 4) % 4) % 4, ?_, rfl, ?_, rfl, ?_, ?_, ?_⟩⟩
    · simp only [EapAka.entries, Option.getD_some, mapGet_mapSet_self]
    · show v.length * 8 % 65536 = 8 * v.length
      omega
    · omega
    · omega
    · show (v.length + 4 + (4 - (v.length + 4) % 4) % 4) / 4 % 256 = 1 + (v.length + 3) / 4
      omega
  · have h : attrOf AKA_AT_RES v = .error Err.wrongSize := by
      simp [attrOf, AKA_AT_RAND, AKA_AT_AUTN, AKA_AT_MAC, AKA_AT_AUTS, AKA_AT_RES, hv]
    rw [h]
    simp [hv]

theorem setAttr_res_witness :
    (4 ≤ [1, 2, 3, 4, 5].length ∧ [1, 2, 3, 4, 5].length ≤ 16) ∧
    ∃ attr pad, mapGet ((NewEapAka 1).SetAttr AKA_AT_RES [1, 2, 3, 4, 5]).1.entries AKA_AT_RES
        = some attr ∧
      attr.AttrType = AKA_AT_RES ∧
      attr.Reserved = 8 * [1, 2, 3, 4, 5].length ∧
      attr.Value = [1, 2, 3, 4, 5] ++ List.replicate pad 0 ∧ pad < 4 ∧
      ([1, 2, 3, 4, 5].length + pad) % 4 = 0 ∧
      attr.Length = 1 + ([1, 2, 3, 4, 5].length + 3) / 4 :=
  ⟨by decide, (setAttr_res (NewEapAka 1) [1, 2, 3, 4, 5]).2 (by decide)⟩

/-- C8. `SetAttr` fails exactly for an unsupported attribute type or a value
outside the type's required size, and a failing `SetAttr` leaves the stored
attributes (and the header fields) as they were. -/
theorem setAttr_failure_atomic (a : EapAka) (t : Nat) (v : List Nat) :
    ((a.SetAttr t v).2 ≠ none ↔ (t ∉ supportedAttrTypes ∨ requiredSize t v.length = false)) ∧
    ((a.SetAttr t v).2 ≠ none →
      (a.SetAttr t v).1.entries = a.entries ∧ (a.SetAttr t v).1.SubType = a.SubType ∧
      (a.SetAttr t v).1.Reserved = a.Reserved ∧
      ∀ k, mapGet (a.SetAttr t v).1.entries k = mapGet a.entries k) := by
  constructor
  · rw [setAttr_eq]
    simp only [attrOf, supportedAttrTypes, requiredSize,
        AKA_AT_RAND, AKA_AT_AUTN, AKA_AT_MAC, AKA_AT_AUTS, AKA_AT_RES, AKA_AT_NOTIFICATION,
        AKA_AT_CLIENT_ERROR_CODE, AKA_AT_IDENTITY]
    split_ifs <;> simp_all <;> omega
  · rw [setAttr_eq]
    cases h : attrOf t v <;> simp [EapAka.entries]

theorem setAttr_failure_atomic_witness :
    ((NewEapAka 1).SetAttr AKA_AT_ANY_ID_REQ []).2 ≠ none ∧
    (((NewEapAka 1).SetAttr AKA_AT_ANY_ID_REQ []).1.entries = (NewEapAka 1).entries ∧
      ((NewEapAka 1).SetAttr AKA_AT_ANY_ID_REQ []).1.SubType = (NewEapAka 1).SubType ∧
      ((NewEapAka 1).SetAttr AKA_AT_ANY_ID_REQ []).1.Reserved = (NewEapAka 1).Reserved ∧
      ∀ k, mapGet ((NewEapAka 1).SetAttr AKA_AT_ANY_ID_REQ []).1.entries k =
        mapGet (NewEapAka 1).entries k) :=
  ⟨by decide, (setAttr_failure_atomic (NewEapAka 1) AKA_AT_ANY_ID_REQ []).2 (by decide)⟩

/-- C9. When `SetAttr(t, v1)` and then `SetAttr(t, v2)` both succeed, the map has
the same keys (in the same positions) as after the first call alone, entries of
other types are unchanged, and the entry for `t` is the attribute computed
from `v2`. -/
theorem setAttr_replaces (a : EapAka) (t : Nat) (v1 v2 : List Nat)
    (h1 : (a.SetAttr t v1).2 = none)
    (h2 : ((a.SetAttr t v1).1.SetAttr t v2).2 = none) :
    mapKeys ((a.SetAttr t v1).1.SetAttr t v2).1.entries = mapKeys (a.SetAttr t v1).1.entries ∧
    (∀ k, k ≠ t → mapGet ((a.SetAttr t v1).1.SetAttr t v2).1.entries k =
      mapGet (a.SetAttr t v1).1.entries k) ∧
    (∃ attr, attrOf t v2 = .ok attr ∧
      mapGet ((a.SetAttr t v1).1.SetAttr t v2).1.entries t = some attr ∧
      mapGet ((NewEapAka a.SubType).SetAttr t v2).1.entries t = some attr) := by
  obtain ⟨x1, hx1⟩ := (setAttr_snd_eq_none_iff a t v1).mp h1
  obtain ⟨x2, hx2⟩ := (setAttr_snd_eq_none_iff _ t v2).mp h2
  rw [setAttr_ok _ t v2 x2 hx2, setAttr_ok a t v1 x1 hx1, setAttr_ok _ t v2 x2 hx2]
  simp only [EapAka.entries, Option.getD_some]
  refine ⟨?_, ?_, x2, hx2, ?_, ?_⟩
  · exact mapKeys_mapSet_of_mem _ t x2 (mem_mapKeys_mapSet _ t x1)
  · intro k hk
    exact mapGet_mapSet_ne _ t k x2 hk
  · exact mapGet_mapSet_self _ t x2
  · exact mapGet_mapSet_self _ t x2

theorem setAttr_replaces_witness :
    (((NewEapAka 1).SetAttr AKA_AT_RES [1, 2, 3, 4]).2 = none ∧
      (((NewEapAka 1).SetAttr AKA_AT_RES [1, 2, 3, 4]).1.SetAttr AKA_AT_RES
        [9, 8, 7, 6, 5]).2 = none) ∧
    (mapKeys (((NewEapAka 1).SetAttr AKA_AT_RES [1, 2, 3, 4]).1.SetAttr AKA_AT_RES
        [9, 8, 7, 6, 5]).1.entries =
      mapKeys ((NewEapAka 1).SetAttr AKA_AT_RES [1, 2, 3, 4]).1.entries ∧
    (∀ k, k ≠ AKA_AT_RES →
      mapGet (((NewEapAka 1).SetAttr AKA_AT_RES [1, 2, 3, 4]).1.SetAttr AKA_AT_RES
        [9, 8, 7, 6, 5]).1.entries k =
      mapGet ((NewEapAka 1).SetAttr AKA_AT_RES [1, 2, 3, 4]).1.entries k) ∧
    (∃ attr, attrOf AKA_AT_RES [9, 8, 7, 6, 5] = .ok attr ∧
      mapGet (((NewEapAka 1).SetAttr AKA_AT_RES [1, 2, 3, 4]).1.SetAttr AKA_AT_RES
        [9, 8, 7, 6, 5]).1.entries AKA_AT_RES = some attr ∧
      mapGet ((NewEapAka (NewEapAka 1).SubType).SetAttr AKA_AT_RES
        [9, 8, 7, 6, 5]).1.entries AKA_AT_RES = some attr)) :=
  ⟨by decide, setAttr_replaces (NewEapAka 1) AKA_AT_RES [1, 2, 3, 4] [9, 8, 7, 6, 5]
    (by decide) (by decide)⟩

theorem keysMatch_mapSet (m : AttrMap) (k : Nat) (attr : EapAkaAttr)
    (hm : KeysMatch m) (hk : k = attr.AttrType) : KeysMatch (mapSet m k attr) := by
  induction m with
  | nil =>
    intro e he
    simp only [mapSet, List.mem_singleton] at he
    subst he
    exact hk
  | cons e rest ih =>
    obtain ⟨k₀, a₀⟩ := e
    have hrest : KeysMatch rest := fun e he => hm e (List.mem_cons_of_mem _ he)
    intro e he
    by_cases h0 : k₀ = k
    · simp only [mapSet, h0, if_true, List.mem_cons] at he
      rcases he with he | he
      · subst he; exact hk
      · exact hrest e he
    · simp only [mapSet, h0, if_false, List.mem_cons] at he
      rcases he with he | he
      · subst he; exact hm _ (List.mem_cons_self _ _)
      · exact ih hrest e he

theorem unmarshalAttr_attrType (t : Nat) (rest rest' : List Nat) (attr : EapAkaAttr)
    (h : unmarshalAttr t rest = .ok (attr, rest')) :
    attr.AttrType = t ∧ attr.Padding = [] ∧ attr.Identity = [] := by
  unfold unmarshalAttr at h
  simp only at h
  split at h
  · cases h
  · rename_i attr₀ consumed rest₀ hrr
    have h0 : attr₀.AttrType = t ∧ attr₀.Padding = [] ∧ attr₀.Identity = [] := by
      split_ifs at hrr <;> cases hrr <;> exact ⟨rfl, rfl, rfl⟩
    split at h
    · cases h
    · split_ifs at h <;> cases h <;> exact h0

theorem unmarshalLoop_keysMatch (fuel : Nat) (rest : List Nat) (m : AttrMap)
    (hm : KeysMatch m) : KeysMatch (unmarshalLoop fuel rest m).1 := by
  induction fuel generalizing rest m with
  | zero => cases rest <;> simpa [unmarshalLoop] using hm
  | succ n ih =>
    cases rest with
    | nil => simpa [unmarshalLoop] using hm
    | cons t rest =>
      simp only [unmarshalLoop]
      cases hu : unmarshalAttr t rest with
      | error e => simpa using hm
      | ok p =>
        obtain ⟨attr, rest'⟩ := p
        simp only
        exact ih rest' _ (keysMatch_mapSet m t attr hm (unmarshalAttr_attrType t rest rest' attr hu).1.symm)

theorem unmarshal_ok (a : EapAka) (rawData : List Nat) (h : (a.Unmarshal rawData).2 = none) :
    4 ≤ rawData.length ∧ rawData.headD 0 = EapTypeAKA ∧
    (unmarshalLoop rawData.length (rawData.drop 4) []).2 = none ∧
    (a.Unmarshal rawData).1 =
      { SubType := rawData.getD 1 0, Reserved := beUint16 ((rawData.drop 2).take 2),
        Attributes := some (unmarshalLoop rawData.length (rawData.drop 4) []).1 } := by
  unfold EapAka.Unmarshal at h ⊢
  by_cases h1 : rawData.length < 4
  · rw [if_pos h1] at h
    cases h
  · rw [if_neg h1] at h ⊢
    dsimp only at h ⊢
    by_cases h2 : rawData.headD 0 = EapTypeAKA
    · rw [if_neg (not_not.mpr h2)] at h ⊢
      exact ⟨by omega, h2, h, rfl⟩
    · rw [if_pos h2] at h
      cases h

theorem produced_keysMatch (a : EapAka) (h : Produced a) :
    KeysMatch a.entries ∧ a.Attributes ≠ none := by
  induction h with
  | newEapAka s => exact ⟨fun e he => by simp [NewEapAka, EapAka.entries] at he, by simp [NewEapAka]⟩
  | setAttr a t v _ ih =>
    rw [setAttr_eq]
    cases hx : attrOf t v with
    | error e => exact ⟨by simpa [EapAka.entries] using ih.1, by simp⟩
    | ok attr =>
      refine ⟨?_, by simp⟩
      simp only [EapAka.entries, Option.getD_some]
      exact keysMatch_mapSet _ t attr ih.1 (attrOf_attrType t v attr hx).symm
  | unmarshal a raw hok =>
    rw [(unmarshal_ok a raw hok).2.2.2]
    refine ⟨?_, by simp⟩
    simp only [EapAka.entries, Option.getD_some]
    exact unmarshalLoop_keysMatch _ _ [] (fun e he => by simp at he)

theorem find_eq_mapGet (m : AttrMap) (t : Nat) (hm : KeysMatch m) :
    (m.find? (fun e => decide (e.2.AttrType = t))).map Prod.snd = mapGet m t := by
  induction m with
  | nil => simp [mapGet]
  | cons e rest ih =>
    obtain ⟨k₀, a₀⟩ := e
    have hrest : KeysMatch rest := fun e he => hm e (List.mem_cons_of_mem _ he)
    have h0 : k₀ = a₀.AttrType := hm (k₀, a₀) (List.mem_cons_self _ _)
    by_cases hk : k₀ = t
    · have : a₀.AttrType = t := h0 ▸ hk
      simp [mapGet, hk, List.find?, this]
    · have : ¬ a₀.AttrType = t := fun hh => hk (h0.trans hh)
      simp [mapGet, hk, List.find?, this, ih hrest]

/-- C10. Every `EapAka` produced by `NewEapAka`, by `SetAttr` calls (successful
or not) or by a successful `Unmarshal` keeps each map key equal to the `AttrType`
of the attribute stored under it; on such a value the linear scan of `GetAttr`
agrees with direct keyed access (the stored attribute, or the not-found error);
and `GetAttr` on a nil map returns an error. -/
theorem getAttr_keyed_lookup (a : EapAka) (t : Nat) :
    (Produced a → KeysMatch a.entries ∧ a.GetAttr t = keyedLookup a t) ∧
    (a.Attributes = none → a.GetAttr t = .error Err.nilMap) := by
  constructor
  · intro hp
    obtain ⟨hk, hn⟩ := produced_keysMatch a hp
    refine ⟨hk, ?_⟩
    obtain ⟨s, r, m⟩ := a
    cases m with
    | none => exact absurd rfl hn
    | some m =>
      have hf := find_eq_mapGet m t hk
      simp only [EapAka.GetAttr, keyedLookup, EapAka.entries, Option.getD_some]
      rw [← hf]
      cases m.find? (fun e => decide (e.2.AttrType = t)) <;> rfl
  · intro hn
    simp [EapAka.GetAttr, hn]

theorem getAttr_keyed_lookup_witness :
    Produced ((NewEapAka 1).SetAttr AKA_AT_RES [1, 2, 3, 4]).1 ∧
    KeysMatch ((NewEapAka 1).SetAttr AKA_AT_RES [1, 2, 3, 4]).1.entries ∧
    ((NewEapAka 1).SetAttr AKA_AT_RES [1, 2, 3, 4]).1.GetAttr AKA_AT_RES =
      keyedLookup ((NewEapAka 1).SetAttr AKA_AT_RES [1, 2, 3, 4]).1 AKA_AT_RES :=
  ⟨Produced.setAttr _ _ _ (Produced.newEapAka 1),
    (getAttr_keyed_lookup ((NewEapAka 1).SetAttr AKA_AT_RES [1, 2, 3, 4]).1 AKA_AT_RES).1
      (Produced.setAttr _ _ _ (Produced.newEapAka 1))⟩

/-- The loop body of `Marshal` only appends to the buffer. -/
theorem marshalAttr_append (attr : EapAkaAttr) (buffer : List Nat) :
    marshalAttr attr buffer =
      match marshalAttr attr [] with
      | .ok r => .ok (buffer ++ r)
      | .error e => .error e := by
  unfold marshalAttr
  by_cases h1 : attr.AttrType = AKA_AT_IDENTITY
  · by_cases h2 : attr.Padding ≠ []
    · cases h3 : hexDecodeString attr.Padding <;> simp [h1, h2, h3]
    · simp [h1, h2]
  · simp [h1]

theorem marshalAttr_take_two (attr : EapAkaAttr) (r : List Nat)
    (h : marshalAttr attr [] = .ok r) : r.take 2 = [attr.AttrType, attr.Length] := by
  unfold marshalAttr at h
  by_cases h1 : attr.AttrType = AKA_AT_IDENTITY
  · by_cases h2 : attr.Padding ≠ []
    · cases h3 : hexDecodeString attr.Padding <;> simp [h1, h2, h3] at h
      subst h; simp [h1]
    · simp [h1, h2] at h
      subst h; simp [h1]
  · simp [h1] at h
    subst h; rfl

theorem recordOf_eq (m : AttrMap) (k : Nat) (attr : EapAkaAttr) (r : List Nat)
    (h1 : mapGet m k = some attr) (h2 : marshalAttr attr [] = .ok r) : recordOf m k = r := by
  simp [recordOf, h1, h2]

/-- The loop of `Marshal` succeeds exactly when its body succeeds on every key. -/
theorem marshalLoop_ok_of_encodable (m : AttrMap) (keys : List Nat) (buffer : List Nat)
    (h : ∀ k ∈ keys, Encodable m k) :
    marshalLoop m keys buffer = .ok (buffer ++ (keys.map (recordOf m)).flatten) := by
  induction keys generalizing buffer with
  | nil => simp [marshalLoop]
  | cons k keys ih =>
    obtain ⟨attr, r, h1, h2⟩ := h k (List.mem_cons_self _ _)
    have ih' := ih (buffer ++ r) (fun k' hk' => h k' (List.mem_cons_of_mem _ hk'))
    simp only [marshalLoop, h1]
    rw [marshalAttr_append, h2]
    simp only [ih', List.map_cons, List.flatten_cons, recordOf_eq m k attr r h1 h2,
      List.append_assoc]

theorem encodable_of_marshalLoop_ok (m : AttrMap) (keys : List Nat) (buffer out : List Nat)
    (h : marshalLoop m keys buffer = .ok out) : ∀ k ∈ keys, Encodable m k := by
  induction keys generalizing buffer with
  | nil => intro k hk; cases hk
  | cons k keys ih =>
    simp only [marshalLoop] at h
    cases h1 : mapGet m k with
    | none => simp [h1] at h
    | some attr =>
      simp only [h1] at h
      rw [marshalAttr_append] at h
      cases h2 : marshalAttr attr [] with
      | error e => simp [h2] at h
      | ok r =>
        simp only [h2] at h
        intro k' hk'
        rcases List.mem_cons.mp hk' with hk' | hk'
        · subst hk'; exact ⟨attr, r, h1, h2⟩
        · exact ih _ h k' hk'

theorem marshal_ok_iff (a : EapAka) (out : List Nat) :
    a.Marshal = .ok out ↔
      (∀ k ∈ a.getAttrsKeys, Encodable a.entries k) ∧
      out = headerOf a ++ (a.getAttrsKeys.map (recordOf a.entries)).flatten := by
  unfold EapAka.Marshal
  constructor
  · intro h
    have he := encodable_of_marshalLoop_ok _ _ _ _ h
    rw [marshalLoop_ok_of_encodable _ _ _ he] at h
    injection h with h
    exact ⟨he, h.symm⟩
  · rintro ⟨he, rfl⟩
    exact marshalLoop_ok_of_encodable _ _ _ he

theorem getAttrsKeys_perm (a : EapAka) : a.getAttrsKeys.Perm (mapKeys a.entries) :=
  List.perm_insertionSort _ _

theorem mem_getAttrsKeys (a : EapAka) (k : Nat) :
    k ∈ a.getAttrsKeys ↔ k ∈ mapKeys a.entries :=
  (getAttrsKeys_perm a).mem_iff

theorem getAttrsKeys_nodup (a : EapAka) (hu : UniqueKeys a.entries) : a.getAttrsKeys.Nodup :=
  (getAttrsKeys_perm a).nodup_iff.mpr hu

theorem getAttrsKeys_sorted (a : EapAka) (hu : UniqueKeys a.entries) :
    a.getAttrsKeys.Sorted (fun x y => x < y) := by
  have hs : a.getAttrsKeys.Sorted (fun x y => x ≤ y) :=
    List.sorted_insertionSort (fun x y => x ≤ y) _
  have hn := getAttrsKeys_nodup a hu
  unfold List.Sorted at hs ⊢
  rw [List.Nodup] at hn
  exact (hs.and hn).imp (fun h => lt_of_le_of_ne h.1 h.2)

theorem encodable_record (m : AttrMap) (k : Nat) (h : Encodable m k) :
    ∃ attr, mapGet m k = some attr ∧ marshalAttr attr [] = .ok (recordOf m k) ∧
      (recordOf m k).take 2 = [attr.AttrType, attr.Length] := by
  obtain ⟨attr, r, h1, h2⟩ := h
  have hr := recordOf_eq m k attr r h1 h2
  exact ⟨attr, h1, hr ▸ h2, hr ▸ marshalAttr_take_two attr r h2⟩

theorem mapGet_mem (m : AttrMap) (k : Nat) (attr : EapAkaAttr) (h : mapGet m k = some attr) :
    (k, attr) ∈ m := by
  induction m with
  | nil => simp [mapGet] at h
  | cons e rest ih =>
    obtain ⟨k₀, a₀⟩ := e
    by_cases h0 : k₀ = k
    · simp [mapGet, h0] at h
      subst h0 h
      exact List.mem_cons_self _ _
    · simp [mapGet, h0] at h
      exact List.mem_cons_of_mem _ (ih h)

/-- C3. When `Marshal` succeeds on a map with unique keys, the output is the
4-byte header followed by one record per stored attribute, the records taken in
strictly ascending order of the map keys (`getAttrsKeys` is strictly ascending
and a permutation of the keys); each record starts with the type and length
bytes of its attribute, and when every key is the type of its attribute the
emitted type bytes are strictly ascending.  In particular `SetAttr(MAC, m)`
followed by `SetAttr(RAND, r)` serialises RAND first: the byte at offset 4 is 1. -/
theorem marshal_ascending_order (a : EapAka) (out : List Nat)
    (hu : UniqueKeys a.entries) (h : a.Marshal = .ok out) :
    (out = headerOf a ++ (a.getAttrsKeys.map (recordOf a.entries)).flatten ∧
      a.getAttrsKeys.Sorted (fun x y => x < y) ∧
      a.getAttrsKeys.Perm (mapKeys a.entries) ∧
      (a.getAttrsKeys.map (recordOf a.entries)).length = a.entries.length ∧
      (∀ k ∈ a.getAttrsKeys, ∃ attr, mapGet a.entries k = some attr ∧
        marshalAttr attr [] = .ok (recordOf a.entries k) ∧
        (recordOf a.entries k).take 2 = [attr.AttrType, attr.Length]) ∧
      (KeysMatch a.entries →
        (a.getAttrsKeys.map (fun k => (recordOf a.entries k).headD 0)).Sorted
          (fun x y => x < y))) ∧
    (∀ (s : Nat) (m r : List Nat), m.length = 16 → r.length = 16 →
      ∃ out', (((NewEapAka s).SetAttr AKA_AT_MAC m).1.SetAttr AKA_AT_RAND r).1.Marshal
          = .ok out' ∧
        out' = [EapTypeAKA, s, 0, 0] ++ ([AKA_AT_RAND, 5] ++ r) ++ ([AKA_AT_MAC, 5] ++ m) ∧
        out'.getD 4 0 = AKA_AT_RAND) := by
  obtain ⟨he, hout⟩ := (marshal_ok_iff a out).mp h
  refine ⟨⟨hout, getAttrsKeys_sorted a hu, getAttrsKeys_perm a, ?_,
    fun k hk => encodable_record _ k (he k hk), ?_⟩, ?_⟩
  · rw [List.length_map, (getAttrsKeys_perm a).length_eq, mapKeys, List.length_map]
  · intro hkm
    have hmap : a.getAttrsKeys.map (fun k => (recordOf a.entries k).headD 0) =
        a.getAttrsKeys.map id := by
      apply List.map_congr_left
      intro k hk
      obtain ⟨attr, h1, _, h3⟩ := encodable_record _ k (he k hk)
      have hkey : k = attr.AttrType := hkm (k, attr) (mapGet_mem _ k attr h1)
      cases hrec : recordOf a.entries k with
      | nil => rw [hrec] at h3; simp at h3
      | cons x xs =>
        rw [hrec] at h3
        cases xs with
        | nil => simp at h3
        | cons y ys =>
          simp at h3
          simp [h3.1, hkey]
    rw [hmap, List.map_id]
    exact getAttrsKeys_sorted a hu
  · intro s m r hm hr
    have h1 : attrOf AKA_AT_MAC m =
        .ok { EapAkaAttr.zero with AttrType := AKA_AT_MAC, Length := 5, Value := m } := by
      simp [attrOf, AKA_AT_MAC, AKA_AT_RAND, AKA_AT_AUTN, hm]
    have h2 : attrOf AKA_AT_RAND r =
        .ok { EapAkaAttr.zero with AttrType := AKA_AT_RAND, Length := 5, Value := r } := by
      simp [attrOf, AKA_AT_RAND, hr]
    have hk : ([AKA_AT_MAC, AKA_AT_RAND] : List Nat).insertionSort (fun a b => a ≤ b) =
        [AKA_AT_RAND, AKA_AT_MAC] := by decide
    refine ⟨_, ?_, rfl, rfl⟩
    rw [setAttr_ok _ _ _ _ h2, setAttr_ok _ _ _ _ h1]
    simp [EapAka.Marshal, EapAka.getAttrsKeys, EapAka.entries, NewEapAka, mapSet, mapKeys,
      AKA_AT_MAC, AKA_AT_RAND, marshalLoop, mapGet, marshalAttr, putUint16, EapTypeAKA,
      AKA_AT_IDENTITY, EapAkaAttr.zero, List.insertionSort, List.orderedInsert]

theorem marshal_ascending_order_witness :
    (UniqueKeys (((NewEapAka 1).SetAttr AKA_AT_MAC (List.replicate 16 9)).1.SetAttr
        AKA_AT_AUTS (List.replicate 14 3)).1.entries ∧
      (((NewEapAka 1).SetAttr AKA_AT_MAC (List.replicate 16 9)).1.SetAttr
        AKA_AT_AUTS (List.replicate 14 3)).1.Marshal =
        .ok ([23, 1, 0, 0] ++ ([4, 4] ++ List.replicate 14 3) ++
          ([11, 5] ++ List.replicate 16 9))) ∧
    ((((NewEapAka 1).SetAttr AKA_AT_MAC (List.replicate 16 9)).1.SetAttr
        AKA_AT_AUTS (List.replicate 14 3)).1.getAttrsKeys.Sorted (fun x y => x < y)) :=
  ⟨⟨by decide, by decide⟩,
    (marshal_ascending_order
      (((NewEapAka 1).SetAttr AKA_AT_MAC (List.replicate 16 9)).1.SetAttr
        AKA_AT_AUTS (List.replicate 14 3)).1
      ([23, 1, 0, 0] ++ ([4, 4] ++ List.replicate 14 3) ++ ([11, 5] ++ List.replicate 16 9))
      (by decide) (by decide)).1.2.1⟩

/-- Two buffers that differ only in a slot of `n` bytes after a common start. -/
theorem patch_slot (P B x y : List Nat) (n : Nat) (hx : x.length = n) (hy : y.length = n) :
    (P ++ x ++ B).length = (P ++ y ++ B).length ∧
    P.length + n ≤ (P ++ x ++ B).length ∧
    ((P ++ x ++ B).drop P.length).take n = x ∧
    ((P ++ y ++ B).drop P.length).take n = y ∧
    (P ++ x ++ B).take P.length = (P ++ y ++ B).take P.length ∧
    (P ++ x ++ B).drop (P.length + n) = (P ++ y ++ B).drop (P.length + n) := by
  refine ⟨by simp [hx, hy], by simp [hx], ?_, ?_, ?_, ?_⟩
  · rw [List.append_assoc, List.drop_left, ← hx, List.take_left]
  · rw [List.append_assoc, List.drop_left, ← hy, List.take_left]
  · rw [List.append_assoc, List.append_assoc, List.take_left, List.take_left]
  · have e1 : P.length + n = (P ++ x).length := by simp [hx]
    have e2 : P.length + n = (P ++ y).length := by simp [hy]
    rw [e1, List.drop_left, ← e1, e2, List.drop_left]

theorem recordOf_mapSet_ne (m : AttrMap) (t k : Nat) (x : EapAkaAttr) (h : k ≠ t) :
    recordOf (mapSet m t x) k = recordOf m k := by
  simp only [recordOf, mapGet_mapSet_ne m t k x h]

theorem encodable_mapSet_ne (m : AttrMap) (t k : Nat) (x : EapAkaAttr) (h : k ≠ t) :
    Encodable (mapSet m t x) k ↔ Encodable m k := by
  simp only [Encodable, mapGet_mapSet_ne m t k x h]

theorem mapKeys_mapSet_congr (m : AttrMap) (t : Nat) (x y : EapAkaAttr) :
    mapKeys (mapSet m t x) = mapKeys (mapSet m t y) := by
  by_cases h : t ∈ mapKeys m
  · rw [mapKeys_mapSet_of_mem m t x h, mapKeys_mapSet_of_mem m t y h]
  · rw [mapKeys_mapSet_of_not_mem m t x h, mapKeys_mapSet_of_not_mem m t y h]

theorem mem_mapKeys_of_mapSet (m : AttrMap) (t k : Nat) (x : EapAkaAttr)
    (h : k ∈ mapKeys (mapSet m t x)) (hk : k ≠ t) : k ∈ mapKeys m := by
  by_cases ht : t ∈ mapKeys m
  · rwa [mapKeys_mapSet_of_mem m t x ht] at h
  · rw [mapKeys_mapSet_of_not_mem m t x ht, List.mem_append, List.mem_singleton] at h
    rcases h with h | h
    · exact h
    · exact absurd h hk

/-- The MAC attribute `SetAttr(MAC, v)` stores for a 16-byte `v`. -/
theorem attrOf_mac (v : List Nat) (hv : v.length = 16) :
    attrOf AKA_AT_MAC v =
      .ok { EapAkaAttr.zero with AttrType := AKA_AT_MAC, Length := 5, Value := v } := by
  simp [attrOf, AKA_AT_MAC, AKA_AT_RAND, AKA_AT_AUTN, hv]

theorem marshalAttr_mac (v : List Nat) :
    marshalAttr { EapAkaAttr.zero with AttrType := AKA_AT_MAC, Length := 5, Value := v } [] =
      .ok ([AKA_AT_MAC, 5] ++ v) := by
  simp [marshalAttr, AKA_AT_MAC, AKA_AT_IDENTITY]

/-- `Marshal` after storing a 16-byte MAC value `w` in an `EapAka` that
marshals: the records of the keys below MAC, the MAC record, the records of the
keys above. -/
theorem marshal_after_mac (a : EapAka) (out : List Nat) (hu : UniqueKeys a.entries)
    (h : a.Marshal = .ok out) :
    ∃ L1 L2 : List Nat,
      (∀ w : List Nat, w.length = 16 →
        (a.SetAttr AKA_AT_MAC w).1.Marshal =
          .ok ((headerOf a ++ (L1.map (recordOf a.entries)).flatten ++ [AKA_AT_MAC, 5]) ++ w ++
            (L2.map (recordOf a.entries)).flatten)) := by
  obtain ⟨he, -⟩ := (marshal_ok_iff a out).mp h
  -- the sorted keys after the call do not depend on the value stored
  let x : EapAkaAttr := { EapAkaAttr.zero with AttrType := AKA_AT_MAC, Length := 5 }
  let L := (mapKeys (mapSet a.entries AKA_AT_MAC x)).insertionSort (fun a b => a ≤ b)
  have hperm : L.Perm (mapKeys (mapSet a.entries AKA_AT_MAC x)) := List.perm_insertionSort _ _
  have hnd : L.Nodup := hperm.nodup_iff.mpr (uniqueKeys_mapSet _ _ _ hu)
  have hmem : AKA_AT_MAC ∈ L := hperm.mem_iff.mpr (mem_mapKeys_mapSet _ _ _)
  obtain ⟨L1, L2, hL⟩ := List.append_of_mem hmem
  have hnd' := hnd
  rw [hL, List.nodup_append] at hnd'
  obtain ⟨-, hnd2, hdisj⟩ := hnd'
  have h1 : ∀ k ∈ L1, k ≠ AKA_AT_MAC := fun k hk hkk =>
    hdisj hk (hkk ▸ List.mem_cons_self _ _)
  have h2 : ∀ k ∈ L2, k ≠ AKA_AT_MAC := fun k hk hkk =>
    (List.nodup_cons.mp hnd2).1 (hkk ▸ hk)
  refine ⟨L1, L2, fun w hw => ?_⟩
  let y : EapAkaAttr := { EapAkaAttr.zero with AttrType := AKA_AT_MAC, Length := 5, Value := w }
  rw [setAttr_ok a AKA_AT_MAC w y (attrOf_mac w hw)]
  rw [marshal_ok_iff]
  have hkeys : ({ a with Attributes := some (mapSet a.entries AKA_AT_MAC y) } : EapAka).getAttrsKeys
      = L1 ++ AKA_AT_MAC :: L2 := by
    rw [← hL]
    show (mapKeys (mapSet a.entries AKA_AT_MAC y)).insertionSort _ = L
    rw [mapKeys_mapSet_congr a.entries AKA_AT_MAC y x]
  have hrec : recordOf (mapSet a.entries AKA_AT_MAC y) AKA_AT_MAC = [AKA_AT_MAC, 5] ++ w :=
    recordOf_eq _ _ y _ (mapGet_mapSet_self _ _ _) (marshalAttr_mac w)
  rw [hkeys]
  constructor
  · intro k hk
    by_cases hkm : k = AKA_AT_MAC
    · subst hkm
      exact ⟨y, _, mapGet_mapSet_self _ _ _, marshalAttr_mac w⟩
    · show Encodable (mapSet a.entries AKA_AT_MAC y) k
      rw [encodable_mapSet_ne _ _ _ _ hkm]
      apply he
      rw [mem_getAttrsKeys]
      have hkL : k ∈ L := hL ▸ hk
      exact mem_mapKeys_of_mapSet _ _ _ x (hperm.mem_iff.mp hkL) hkm
  · show _ = headerOf a ++ _
    have hm1 : L1.map (recordOf (mapSet a.entries AKA_AT_MAC y)) = L1.map (recordOf a.entries) :=
      List.map_congr_left (fun k hk => recordOf_mapSet_ne _ _ _ _ (h1 k hk))
    have hm2 : L2.map (recordOf (mapSet a.entries AKA_AT_MAC y)) = L2.map (recordOf a.entries) :=
      List.map_congr_left (fun k hk => recordOf_mapSet_ne _ _ _ _ (h2 k hk))
    simp only [EapAka.entries, Option.getD_some] at hm1 hm2 hrec ⊢
    simp only [List.map_append, List.map_cons, List.flatten_append, List.flatten_cons, hm1, hm2,
      hrec, List.append_assoc]

/-- C5. `initMAC` always succeeds.  For an `EapAka` with unique keys on which
`Marshal` succeeds and a 16-byte `m`, `Marshal` after `initMAC()` (`z`) and
`Marshal` after `SetAttr(MAC, m)` (`p`) have the same length and there is an
offset `k` with sixteen zero bytes at `z[k..k+16)`, `m` at `p[k..k+16)`, and `z`
and `p` equal before `k` and from `k+16` on. -/
theorem mac_placeholder_stable (a : EapAka) (m : List Nat) :
    a.initMAC.2 = none ∧
    (∀ out : List Nat, UniqueKeys a.entries → a.Marshal = .ok out → m.length = 16 →
      ∃ z p k, a.initMAC.1.Marshal = .ok z ∧ (a.SetAttr AKA_AT_MAC m).1.Marshal = .ok p ∧
        z.length = p.length ∧ k + 16 ≤ z.length ∧
        (z.drop k).take 16 = List.replicate 16 0 ∧ (p.drop k).take 16 = m ∧
        z.take k = p.take k ∧ z.drop (k + 16) = p.drop (k + 16)) := by
  have hz : (List.replicate 16 0 : List Nat).length = 16 := by simp
  constructor
  · unfold EapAka.initMAC
    rw [setAttr_ok a AKA_AT_MAC _ _ (attrOf_mac _ hz)]
  · intro out hu h hm
    obtain ⟨L1, L2, hL⟩ := marshal_after_mac a out hu h
    obtain ⟨e1, e2, e3, e4, e5, e6⟩ :=
      patch_slot (headerOf a ++ (L1.map (recordOf a.entries)).flatten ++ [AKA_AT_MAC, 5])
        ((L2.map (recordOf a.entries)).flatten) (List.replicate 16 0) m 16 hz hm
    exact ⟨_, _, _, hL _ hz, hL m hm, e1, e2, e3, e4, e5, e6⟩

theorem mac_placeholder_stable_witness :
    (UniqueKeys ((NewEapAka 1).SetAttr AKA_AT_AUTS (List.replicate 14 3)).1.entries ∧
      ((NewEapAka 1).SetAttr AKA_AT_AUTS (List.replicate 14 3)).1.Marshal =
        .ok ([23, 1, 0, 0] ++ ([4, 4] ++ List.replicate 14 3)) ∧
      (List.replicate 16 7).length = 16) ∧
    ∃ z p k,
      ((NewEapAka 1).SetAttr AKA_AT_AUTS (List.replicate 14 3)).1.initMAC.1.Marshal = .ok z ∧
      (((NewEapAka 1).SetAttr AKA_AT_AUTS (List.replicate 14 3)).1.SetAttr AKA_AT_MAC
        (List.replicate 16 7)).1.Marshal = .ok p ∧
      z.length = p.length ∧ k + 16 ≤ z.length ∧
      (z.drop k).take 16 = List.replicate 16 0 ∧ (p.drop k).take 16 = List.replicate 16 7 ∧
      z.take k = p.take k ∧ z.drop (k + 16) = p.drop (k + 16) :=
  ⟨⟨by decide, by decide, by decide⟩,
    (mac_placeholder_stable ((NewEapAka 1).SetAttr AKA_AT_AUTS (List.replicate 14 3)).1
      (List.replicate 16 7)).2 ([23, 1, 0, 0] ++ ([4, 4] ++ List.replicate 14 3))
      (by decide) (by decide) (by decide)⟩

theorem mem_mapSet (m : AttrMap) (k : Nat) (attr : EapAkaAttr) (e : Nat × EapAkaAttr)
    (h : e ∈ mapSet m k attr) : e = (k, attr) ∨ e ∈ m := by
  induction m with
  | nil =>
    simp only [mapSet, List.mem_singleton] at h
    exact Or.inl h
  | cons e₀ rest ih =>
    obtain ⟨k₀, a₀⟩ := e₀
    by_cases h0 : k₀ = k
    · simp only [mapSet, h0, if_true, List.mem_cons] at h
      rcases h with h | h
      · exact Or.inl h
      · exact Or.inr (List.mem_cons_of_mem _ h)
    · simp only [mapSet, h0, if_false, List.mem_cons] at h
      rcases h with h | h
      · exact Or.inr (h ▸ List.mem_cons_self _ _)
      · rcases ih h with h | h
        · exact Or.inl h
        · exact Or.inr (List.mem_cons_of_mem _ h)

/-- Attributes decoded by `Unmarshal` carry no identity string and no padding
specification. -/
theorem unmarshalLoop_padding (fuel : Nat) (rest : List Nat) (m : AttrMap)
    (hm : ∀ e ∈ m, e.2.Padding = []) : ∀ e ∈ (unmarshalLoop fuel rest m).1, e.2.Padding = [] := by
  induction fuel generalizing rest m with
  | zero => cases rest <;> simpa [unmarshalLoop] using hm
  | succ n ih =>
    cases rest with
    | nil => simpa [unmarshalLoop] using hm
    | cons t rest =>
      simp only [unmarshalLoop]
      cases hu : unmarshalAttr t rest with
      | error e => simpa using hm
      | ok p =>
        obtain ⟨attr, rest'⟩ := p
        simp only
        apply ih rest'
        intro e he
        rcases mem_mapSet m t attr e he with he | he
        · rw [he]; exact (unmarshalAttr_attrType t rest rest' attr hu).2.1
        · exact hm e he

theorem marshalAttr_no_padding (attr : EapAkaAttr) (h : attr.Padding = []) :
    ∃ r, marshalAttr attr [] = .ok r := by
  unfold marshalAttr
  by_cases h1 : attr.AttrType = AKA_AT_IDENTITY <;> simp [h1, h]

/-- `Marshal` succeeds on every `EapAka` whose attributes have an empty padding
specification. -/
theorem marshal_ok_of_no_padding (a : EapAka) (h : ∀ e ∈ a.entries, e.2.Padding = []) :
    a.Marshal = .ok (headerOf a ++ (a.getAttrsKeys.map (recordOf a.entries)).flatten) := by
  rw [marshal_ok_iff]
  refine ⟨fun k hk => ?_, rfl⟩
  have hk' := (mapGet_isSome_iff a.entries k).mpr ((mem_getAttrsKeys a k).mp hk)
  cases hg : mapGet a.entries k with
  | none => simp [hg] at hk'
  | some attr =>
    obtain ⟨r, hr⟩ := marshalAttr_no_padding attr (h _ (mapGet_mem _ k attr hg))
    exact ⟨attr, r, hg, hr⟩

theorem putUint16_beUint16 (x y : Nat) (hx : x < 256) (hy : y < 256) :
    putUint16 (beUint16 [x, y]) = [x, y] := by
  simp only [putUint16, beUint16, List.getD_cons_zero, List.getD_cons_succ]
  have h1 : (x * 256 + y) / 256 % 256 = x := by omega
  have h2 : (x * 256 + y) % 256 = y := by omega
  rw [h1, h2]

/-- One iteration of the decode loop leaves no more bytes than it was given after
the type byte, so it consumes at least one byte of the buffer. -/
theorem unmarshalAttr_length (t : Nat) (rest rest' : List Nat) (attr : EapAkaAttr)
    (h : unmarshalAttr t rest = .ok (attr, rest')) : rest'.length ≤ rest.length := by
  unfold unmarshalAttr at h
  simp only at h
  split at h
  · cases h
  · rename_i attr₀ consumed rest₀ hrr
    have h0 : rest₀.length ≤ rest.length := by
      split_ifs at hrr <;> cases hrr <;> simp
    split at h
    · cases h
    · split_ifs at h <;> cases h <;> simp <;> omega

/-- The decode loop never runs out of fuel when given at least as much fuel as
there are bytes left. -/
theorem unmarshalLoop_fuel (fuel : Nat) (rest : List Nat) (m : AttrMap)
    (h : rest.length ≤ fuel) : (unmarshalLoop fuel rest m).2 ≠ some Err.outOfFuel := by
  induction fuel generalizing rest m with
  | zero =>
    cases rest with
    | nil => simp [unmarshalLoop]
    | cons t rest => simp at h
  | succ n ih =>
    cases rest with
    | nil => simp [unmarshalLoop]
    | cons t rest =>
      simp only [unmarshalLoop]
      cases hu : unmarshalAttr t rest with
      | error e =>
        simp only
        intro he
        injection he with he
        subst he
        unfold unmarshalAttr at hu
        simp only at hu
        split at hu
        · rename_i e' hrr
          split_ifs at hrr; cases hrr
          cases hu
        · split at hu
          · rename_i e' hc
            split_ifs at hc <;> cases hc <;> cases hu
          · split_ifs at hu; cases hu
      | ok p =>
        obtain ⟨attr, rest'⟩ := p
        simp only
        apply ih
        have := unmarshalAttr_length t rest rest' attr hu
        simp only [List.length_cons] at h
        omega

/-- The decode loop on a buffer that holds exactly one AUTS record. -/
theorem unmarshalLoop_single_auts (fuel L : Nat) (v : List Nat) (hv : v.length + 2 = 4 * L) :
    unmarshalLoop (fuel + 1) (AKA_AT_AUTS :: L :: v) [] =
      ([(AKA_AT_AUTS, { EapAkaAttr.zero with AttrType := AKA_AT_AUTS, Length := L, Value := v })],
        none) := by
  have h1 : ¬ ((L : Int) * 4 - 2 < 0 ∨ (L : Int) * 4 - 2 > (v.length : Int)) := by omega
  have h2 : (L : Int) * 4 - 2 > 0 := by omega
  have h3 : ((L : Int) * 4 - 2).toNat = v.length := by omega
  have hu : unmarshalAttr AKA_AT_AUTS (L :: v) =
      .ok ({ EapAkaAttr.zero with AttrType := AKA_AT_AUTS, Length := L, Value := v }, []) := by
    simp [unmarshalAttr, AKA_AT_AUTS, AKA_AT_RAND, AKA_AT_AUTN, AKA_AT_MAC, AKA_AT_ANY_ID_REQ,
      EapAkaAttr.zero, h1, h2, h3]
    omega
  simp only [unmarshalLoop, hu, mapSet]

/-- C2 (amended). For every byte sequence `b` on which `Unmarshal` succeeds,
`Marshal` of the decoded `EapAka` succeeds and starts with the 4-byte header of
`b`; it returns exactly `b` when `b` is the header alone or the header followed
by a single AUTS record. -/
theorem unmarshal_marshal (a : EapAka) (b : List Nat) (hb : ∀ x ∈ b, x < 256)
    (h : (a.Unmarshal b).2 = none) :
    (∃ out, (a.Unmarshal b).1.Marshal = .ok out ∧ out.take 4 = b.take 4) ∧
    ((b.length = 4 ∨ (b.getD 4 0 = AKA_AT_AUTS ∧ b.length = 4 + 4 * b.getD 5 0)) →
      (a.Unmarshal b).1.Marshal = .ok b) := by
  obtain ⟨hlen, hty, hloop, hdec⟩ := unmarshal_ok a b h
  rcases b with _ | ⟨b0, _ | ⟨b1, _ | ⟨b2, _ | ⟨b3, rest⟩⟩⟩⟩ <;>
    try (simp at hlen; done)
  have hb2 : b2 < 256 := hb b2 (by simp)
  have hb3 : b3 < 256 := hb b3 (by simp)
  simp only [List.headD_cons] at hty
  subst hty
  have hhdr : headerOf (a.Unmarshal (EapTypeAKA :: b1 :: b2 :: b3 :: rest)).1 =
      [EapTypeAKA, b1, b2, b3] := by
    rw [hdec]
    have := putUint16_beUint16 b2 b3 hb2 hb3
    simpa [headerOf] using this
  have hpad : ∀ e ∈ (a.Unmarshal (EapTypeAKA :: b1 :: b2 :: b3 :: rest)).1.entries,
      e.2.Padding = [] := by
    rw [hdec]
    exact unmarshalLoop_padding _ _ [] (fun e he => by simp at he)
  have hm := marshal_ok_of_no_padding _ hpad
  rw [hhdr] at hm
  refine ⟨⟨_, hm, by simp⟩, ?_⟩
  rintro (h4 | ⟨hauts, hl⟩)
  · have hr : rest = [] := by
      cases rest with
      | nil => rfl
      | cons x xs => simp at h4
    subst hr
    rw [hm, hdec]
    simp [unmarshalLoop, EapAka.getAttrsKeys, EapAka.entries, mapKeys]
  · rcases rest with _ | ⟨t, _ | ⟨L, v⟩⟩
    · simp [AKA_AT_AUTS] at hauts
    · simp at hl
    · simp only [List.getD_cons_succ, List.getD_cons_zero] at hauts hl
      subst hauts
      have hv : v.length + 2 = 4 * L := by
        simp only [List.length_cons] at hl
        omega
      have hl' : (EapTypeAKA :: b1 :: b2 :: b3 :: AKA_AT_AUTS :: L :: v).length =
          (v.length + 5) + 1 := by simp
      have hent : (a.Unmarshal (EapTypeAKA :: b1 :: b2 :: b3 :: AKA_AT_AUTS :: L :: v)).1.entries =
          [(AKA_AT_AUTS,
            { EapAkaAttr.zero with AttrType := AKA_AT_AUTS, Length := L, Value := v })] := by
        rw [hdec, hl']
        simp only [EapAka.entries, Option.getD_some, List.drop_succ_cons, List.drop_zero]
        rw [unmarshalLoop_single_auts (v.length + 5) L v hv]
      have hkeys : (a.Unmarshal (EapTypeAKA :: b1 :: b2 :: b3 :: AKA_AT_AUTS :: L :: v)).1.getAttrsKeys
          = [AKA_AT_AUTS] := by
        simp [EapAka.getAttrsKeys, hent, mapKeys]
      rw [hm, hkeys, hent]
      simp [recordOf, mapGet, marshalAttr, AKA_AT_AUTS, AKA_AT_IDENTITY, EapAkaAttr.zero]

theorem unmarshal_marshal_witness :
    ((∀ x ∈ [23, 1, 0, 0, 4, 1, 170, 187], x < 256) ∧
      ((NewEapAka 0).Unmarshal [23, 1, 0, 0, 4, 1, 170, 187]).2 = none) ∧
    ((NewEapAka 0).Unmarshal [23, 1, 0, 0, 4, 1, 170, 187]).1.Marshal =
      .ok [23, 1, 0, 0, 4, 1, 170, 187] :=
  ⟨⟨by decide, by decide⟩,
    (unmarshal_marshal (NewEapAka 0) [23, 1, 0, 0, 4, 1, 170, 187] (by decide) (by decide)).2
      (Or.inr (by decide))⟩

/-- C2 (counterexample). `Unmarshal` succeeds on a buffer with two AUTS records;
the map keeps the last one only, and `Marshal` of the decoded value returns a
shorter buffer than the input. -/
theorem duplicate_auts_not_reproduced :
    (∀ x ∈ [23, 1, 0, 0, 4, 1, 170, 187, 4, 1, 204, 221], x < 256) ∧
    ((NewEapAka 0).Unmarshal [23, 1, 0, 0, 4, 1, 170, 187, 4, 1, 204, 221]).2 = none ∧
    ((NewEapAka 0).Unmarshal [23, 1, 0, 0, 4, 1, 170, 187, 4, 1, 204, 221]).1.Marshal =
      .ok [23, 1, 0, 0, 4, 1, 204, 221] ∧
    ((NewEapAka 0).Unmarshal [23, 1, 0, 0, 4, 1, 170, 187, 4, 1, 204, 221]).1.Marshal ≠
      .ok [23, 1, 0, 0, 4, 1, 170, 187, 4, 1, 204, 221] := by
  decide

/-- C1 (failing input). `SetAttr(RAND, 16 zero bytes)` on `NewEapAka(1)` succeeds
and `Marshal` succeeds, emitting the type byte, the length byte 5 and the 16
value bytes without the two reserved bytes; `Unmarshal` of these 22 bytes, on any
receiver, returns the invalid-attribute-length error. -/
theorem setAttr_marshal_unmarshal_rand :
    ((NewEapAka 1).SetAttr AKA_AT_RAND (List.replicate 16 0)).2 = none ∧
    ((NewEapAka 1).SetAttr AKA_AT_RAND (List.replicate 16 0)).1.Marshal =
      .ok ([23, 1, 0, 0, 1, 5] ++ List.replicate 16 0) ∧
    ∀ a : EapAka,
      (a.Unmarshal ([23, 1, 0, 0, 1, 5] ++ List.replicate 16 0)).2 = some Err.invalidAttrLen :=
  ⟨by decide, by decide, fun _ => rfl⟩

/-- C4 (failing input). After `SetAttr(RAND, 16 zero bytes)` on `NewEapAka(1)` the
only stored attribute has `Length` 5, and `Marshal` returns 22 bytes: the record
occupies 18 bytes, not `4 × 5`. -/
theorem marshal_length_rand :
    ∃ attr out,
      ((NewEapAka 1).SetAttr AKA_AT_RAND (List.replicate 16 0)).1.entries = [(AKA_AT_RAND, attr)] ∧
      attr.Length = 5 ∧
      ((NewEapAka 1).SetAttr AKA_AT_RAND (List.replicate 16 0)).1.Marshal = .ok out ∧
      out.length = 22 ∧ out.length ≠ 4 + 4 * attr.Length :=
  ⟨{ EapAkaAttr.zero with AttrType := 1, Length := 5, Value := List.replicate 16 0 },
    [23, 1, 0, 0, 1, 5] ++ List.replicate 16 0, by decide, rfl, by decide, by decide, by decide⟩

theorem hexVal_isSome_iff (c : Nat) : (hexVal c).isSome = isHexDigit c := by
  unfold hexVal isHexDigit
  split_ifs <;> simp_all

theorem isHexString_cons_cons (c q : Nat) (rest : List Nat) :
    isHexString (c :: q :: rest) = (isHexDigit c && (isHexDigit q && isHexString rest)) := by
  have h : (rest.length + 1 + 1) % 2 = rest.length % 2 := by omega
  rw [Bool.eq_iff_iff]
  simp only [isHexString, List.length_cons, h, List.all_cons, Bool.and_eq_true,
    decide_eq_true_eq, Bool.decide_and]
  tauto

theorem hexDecodeString_isSome_aux (n : Nat) :
    ∀ p : List Nat, p.length ≤ n → (hexDecodeString p).isSome = isHexString p := by
  induction n with
  | zero =>
    intro p hp
    cases p with
    | nil => rfl
    | cons c r => simp at hp
  | succ n ih =>
    intro p hp
    rcases p with _ | ⟨c, _ | ⟨q, rest⟩⟩
    · rfl
    · simp [hexDecodeString, isHexString]
    · have hr := ih rest (by simp only [List.length_cons] at hp; omega)
      rw [isHexString_cons_cons, ← hexVal_isSome_iff c, ← hexVal_isSome_iff q, ← hr]
      simp only [hexDecodeString]
      cases hexVal c <;> cases hexVal q <;> cases hexDecodeString rest <;> rfl

/-- `hex.DecodeString` succeeds exactly on the valid hexadecimal strings. -/
theorem hexDecodeString_isSome_iff (p : List Nat) :
    (hexDecodeString p).isSome = isHexString p :=
  hexDecodeString_isSome_aux p.length p (Nat.le_refl _)

/-- C11. For NOTIFICATION and CLIENT_ERROR_CODE, `SetAttr` succeeds exactly on
2-byte values and stores an attribute of `Length` 1 whose `Reserved` is the
big-endian value `256·v[0] + v[1]` and whose `Value` is empty. -/
theorem setAttr_notification (a : EapAka) (t : Nat) (v : List Nat)
    (ht : t = AKA_AT_NOTIFICATION ∨ t = AKA_AT_CLIENT_ERROR_CODE) :
    ((a.SetAttr t v).2 = none ↔ v.length = 2) ∧
    (v.length = 2 →
      mapGet (a.SetAttr t v).1.entries t =
        some { EapAkaAttr.zero with
          AttrType := t, Length := 1, Reserved := 256 * v.getD 0 0 + v.getD 1 0, Value := [] }) := by
  rw [setAttr_eq]
  rcases ht with h | h <;> subst h <;>
  · simp only [attrOf, AKA_AT_RAND, AKA_AT_AUTN, AKA_AT_MAC, AKA_AT_AUTS, AKA_AT_RES,
      AKA_AT_NOTIFICATION, AKA_AT_CLIENT_ERROR_CODE]
    by_cases hv : v.length = 2
    · simp [hv, mapGet_mapSet_self, EapAka.entries, beUint16, EapAkaAttr.zero, Nat.mul_comm]
    · simp [hv]

theorem setAttr_notification_witness :
    (12 = AKA_AT_NOTIFICATION ∨ 12 = AKA_AT_CLIENT_ERROR_CODE) ∧
    (((NewEapAka 1).SetAttr 12 [64, 1]).2 = none ↔ [64, 1].length = 2) ∧
    ([64, 1].length = 2 →
      mapGet ((NewEapAka 1).SetAttr 12 [64, 1]).1.entries 12 =
        some { EapAkaAttr.zero with
          AttrType := 12, Length := 1,
          Reserved := 256 * [64, 1].getD 0 0 + [64, 1].getD 1 0, Value := [] }) :=
  ⟨by decide, setAttr_notification (NewEapAka 1) 12 [64, 1] (by decide)⟩

/-- C12. For an `EapAka` whose only attribute is an IDENTITY attribute with an
identity string `s` shorter than 65536 bytes, an empty `Value` and a padding
specification `p`: when `p` is a valid hexadecimal string `Marshal` returns the
header, the bytes `14`, `Length`, `hi(len s)`, `lo(len s)`, the bytes of `s` and
the bytes `p` decodes to; when `p` is non-empty and not a valid hexadecimal
string `Marshal` returns an error. -/
theorem marshal_identity_layout (a : EapAka) (k : Nat) (attr : EapAkaAttr)
    (hent : a.entries = [(k, attr)]) (ht : attr.AttrType = AKA_AT_IDENTITY)
    (hv : attr.Value = []) (hs : attr.Identity.length < 65536) :
    (isHexString attr.Padding = true →
      ∃ d, hexDecodeString attr.Padding = some d ∧
        a.Marshal = .ok ([EapTypeAKA, a.SubType, a.Reserved / 256 % 256, a.Reserved % 256,
          14, attr.Length, attr.Identity.length / 256, attr.Identity.length % 256]
          ++ attr.Identity ++ d)) ∧
    (attr.Padding ≠ [] → isHexString attr.Padding = false → ∃ e, a.Marshal = .error e) := by
  have hkeys : a.getAttrsKeys = [k] := by
    simp [EapAka.getAttrsKeys, hent, mapKeys]
  have hlen : attr.Identity.length % 65536 = attr.Identity.length := Nat.mod_eq_of_lt hs
  have hhi : attr.Identity.length / 256 % 256 = attr.Identity.length / 256 := by omega
  constructor
  · intro hp
    rw [← hexDecodeString_isSome_iff] at hp
    obtain ⟨d, hd⟩ := Option.isSome_iff_exists.mp hp
    refine ⟨d, hd, ?_⟩
    by_cases hne : attr.Padding = []
    · have hd' : d = [] := by
        rw [hne] at hd
        simpa [hexDecodeString] using hd.symm
      subst hd'
      simp [EapAka.Marshal, hkeys, hent, marshalLoop, mapGet, marshalAttr, ht, hv, hne,
        putUint16, hlen, hhi, AKA_AT_IDENTITY]
    · simp [EapAka.Marshal, hkeys, hent, marshalLoop, mapGet, marshalAttr, ht, hv, hne, hd,
        putUint16, hlen, hhi, AKA_AT_IDENTITY]
  · intro hne hp
    rw [← hexDecodeString_isSome_iff] at hp
    have hd : hexDecodeString attr.Padding = none := by
      cases h : hexDecodeString attr.Padding with
      | none => rfl
      | some d => simp [h] at hp
    exact ⟨Err.invalidHex, by
      simp [EapAka.Marshal, hkeys, hent, marshalLoop, mapGet, marshalAttr, ht, hne, hd]⟩

theorem marshal_identity_layout_witness :
    (identityExample.entries = [(14, identityAttrExample)] ∧
      identityAttrExample.AttrType = AKA_AT_IDENTITY ∧ identityAttrExample.Value = [] ∧
      identityAttrExample.Identity.length < 65536 ∧
      isHexString identityAttrExample.Padding = true) ∧
    ∃ d, hexDecodeString identityAttrExample.Padding = some d ∧
      identityExample.Marshal =
        .ok ([EapTypeAKA, identityExample.SubType, identityExample.Reserved / 256 % 256,
          identityExample.Reserved % 256, 14, identityAttrExample.Length,
          identityAttrExample.Identity.length / 256, identityAttrExample.Identity.length % 256]
          ++ identityAttrExample.Identity ++ d) :=
  ⟨⟨rfl, rfl, rfl, by decide, by decide⟩,
    (marshal_identity_layout identityExample 14 identityAttrExample rfl rfl rfl
      (by decide)).1 (by decide)⟩

theorem md5_marshal_eq (e : EapMD5) :
    e.Marshal =
      if e.ValueSize ≠ 16 then .error Err.md5ValueSize
      else if e.Value.length ≠ 16 then .error Err.md5ValueLength
      else .ok ([4, 16] ++ e.Value ++ e.Name) := by
  unfold EapMD5.Marshal
  by_cases h1 : e.ValueSize = 16
  · by_cases h2 : e.Value.length = 16
    · cases hn : e.Name with
      | nil => simp [h1, h2, EapMD5ChallengeSize, EapTypeMD5]
      | cons c cs => simp [h1, h2, EapMD5ChallengeSize, EapTypeMD5]
    · simp [h1, h2, EapMD5ChallengeSize]
  · simp [h1, EapMD5ChallengeSize]

/-- C18. `EapMD5.Marshal` succeeds exactly when `ValueSize = 16` and the value
has 16 bytes, and then returns `[0x04, 0x10]`, the value and the bytes of the
name; `ValueSize` 15 with 15 bytes and `ValueSize` 16 with 15 bytes both fail. -/
theorem md5_marshal (e : EapMD5) :
    ((∃ out, e.Marshal = .ok out) ↔ (e.ValueSize = 16 ∧ e.Value.length = 16)) ∧
    (e.Marshal = .ok ([4, 16] ++ e.Value ++ e.Name) ↔
      (e.ValueSize = 16 ∧ e.Value.length = 16)) ∧
    (∃ err, ({ ValueSize := 15, Value := List.replicate 15 0, Name := [] } : EapMD5).Marshal
      = .error err) ∧
    (∃ err, ({ ValueSize := 16, Value := List.replicate 15 0, Name := [] } : EapMD5).Marshal
      = .error err) := by
  rw [md5_marshal_eq]
  refine ⟨?_, ?_, ⟨_, rfl⟩, ⟨_, rfl⟩⟩
  · by_cases h1 : e.ValueSize = 16 <;> by_cases h2 : e.Value.length = 16 <;> simp [h1, h2]
  · by_cases h1 : e.ValueSize = 16 <;> by_cases h2 : e.Value.length = 16 <;> simp [h1, h2]

theorem md5_unmarshal_eq (e : EapMD5) (b : List Nat) :
    e.Unmarshal b =
      if b.length < 3 then (e, some Err.md5NotEnoughData)
      else if b.getD 0 0 ≠ 4 then (e, some Err.md5WrongType)
      else if b.getD 1 0 ≠ 16 then ({ e with ValueSize := b.getD 1 0 }, some Err.md5ValueSize)
      else if b.length < 18 then ({ e with ValueSize := 16 }, some Err.md5InsufficientData)
      else ({ ValueSize := 16, Value := (b.take 18).drop 2, Name := b.drop 18 }, none) := by
  unfold EapMD5.Unmarshal
  simp only [EapMD5MinLen, EapTypeMD5, EapMD5ChallengeSize, EapMD5HeaderLen]
  by_cases h0 : b.length < 3
  · rw [if_pos h0, if_pos h0]
  · rw [if_neg h0, if_neg h0]
    by_cases h1 : b.getD 0 0 ≠ 4
    · rw [if_pos h1, if_pos h1]
    · rw [if_neg h1, if_neg h1]
      by_cases h2 : b.getD 1 0 ≠ 16
      · rw [if_pos h2, if_pos h2]
      · rw [if_neg h2, if_neg h2]
        have h2' : b.getD 1 0 = 16 := not_not.mp h2
        simp only [h2']
        by_cases h3 : b.length < 2 + 16
        · rw [if_pos h3, if_pos (show b.length < 18 from h3)]
        · rw [if_neg h3, if_neg (show ¬ b.length < 18 from h3)]
          by_cases h4 : b.length > 2 + 16
          · rw [if_pos h4]
          · rw [if_neg h4]
            have : b.drop 18 = [] := List.drop_eq_nil_of_le (by omega)
            rw [this]

theorem md5_unmarshal_ok_iff (e : EapMD5) (b : List Nat) :
    (e.Unmarshal b).2 = none ↔ (18 ≤ b.length ∧ b.getD 0 0 = 4 ∧ b.getD 1 0 = 16) := by
  rw [md5_unmarshal_eq]
  split_ifs with h0 h1 h2 h3
  · constructor
    · intro h; cases h
    · intro h; omega
  · constructor
    · intro h; cases h
    · intro h; exact absurd h.2.1 h1
  · constructor
    · intro h; cases h
    · intro h; exact absurd h.2.2 h2
  · constructor
    · intro h; cases h
    · intro h; omega
  · constructor
    · intro _; exact ⟨by omega, not_not.mp h1, not_not.mp h2⟩
    · intro _; rfl

theorem md5_unmarshal_ok (e : EapMD5) (b : List Nat) (h : (e.Unmarshal b).2 = none) :
    e.Unmarshal b =
      ({ ValueSize := 16, Value := (b.take 18).drop 2, Name := b.drop 18 }, none) := by
  obtain ⟨h0, h1, h2⟩ := (md5_unmarshal_ok_iff e b).mp h
  rw [md5_unmarshal_eq, if_neg (by omega), if_neg (not_not.mpr h1), if_neg (not_not.mpr h2),
    if_neg (by omega)]

theorem getD_eq_iff_getElem? (b : List Nat) (i x : Nat) (hi : i < b.length) :
    b.getD i 0 = x ↔ b[i]? = some x := by
  rw [List.getD_eq_getElem?_getD, List.getElem?_eq_getElem hi]
  simp

/-- C19. `EapMD5.Unmarshal` succeeds exactly when the buffer has at least 18
bytes, starts with the MD5 type tag 4 and has 16 as second byte; it then sets
`ValueSize = 16`, `Value = b[2..18)` (16 bytes) and `Name = b[18..)`, which is
empty when the buffer has 18 bytes. -/
theorem md5_unmarshal (e : EapMD5) (b : List Nat) :
    ((e.Unmarshal b).2 = none ↔ (18 ≤ b.length ∧ b[0]? = some 4 ∧ b[1]? = some 16)) ∧
    ((e.Unmarshal b).2 = none →
      (e.Unmarshal b).1 = { ValueSize := 16, Value := (b.take 18).drop 2, Name := b.drop 18 } ∧
      (e.Unmarshal b).1.Value.length = 16 ∧
      (b.length = 18 → (e.Unmarshal b).1.Name = [])) := by
  constructor
  · rw [md5_unmarshal_ok_iff]
    constructor
    · rintro ⟨h0, h1, h2⟩
      exact ⟨h0, (getD_eq_iff_getElem? b 0 4 (by omega)).mp h1,
        (getD_eq_iff_getElem? b 1 16 (by omega)).mp h2⟩
    · rintro ⟨h0, h1, h2⟩
      exact ⟨h0, (getD_eq_iff_getElem? b 0 4 (by omega)).mpr h1,
        (getD_eq_iff_getElem? b 1 16 (by omega)).mpr h2⟩
  · intro h
    have h0 := ((md5_unmarshal_ok_iff e b).mp h).1
    rw [md5_unmarshal_ok e b h]
    refine ⟨rfl, ?_, ?_⟩
    · simp only [List.length_drop, List.length_take]
      omega
    · intro h18
      exact List.drop_eq_nil_of_le (by omega)

theorem md5_unmarshal_witness :
    (({ ValueSize := 0, Value := [], Name := [] } : EapMD5).Unmarshal
        ([4, 16] ++ List.replicate 16 7 ++ [97, 108])).2 = none ∧
    (({ ValueSize := 0, Value := [], Name := [] } : EapMD5).Unmarshal
        ([4, 16] ++ List.replicate 16 7 ++ [97, 108])).1 =
      { ValueSize := 16, Value := List.replicate 16 7, Name := [97, 108] } :=
  ⟨by decide,
    ((md5_unmarshal { ValueSize := 0, Value := [], Name := [] }
      ([4, 16] ++ List.replicate 16 7 ++ [97, 108])).2 (by decide)).1⟩

/-- C20. An `EapMD5` with `ValueSize = 16` and a 16-byte value marshals to bytes
from which `Unmarshal` (on any receiver) succeeds and recovers the same
`ValueSize`, `Value` and `Name`; and `Marshal` of the value decoded from any
buffer on which `Unmarshal` succeeds returns that buffer. -/
theorem md5_roundtrip :
    (∀ e : EapMD5, e.ValueSize = 16 → e.Value.length = 16 →
      ∃ out, e.Marshal = .ok out ∧ ∀ e0 : EapMD5, e0.Unmarshal out = (e, none)) ∧
    (∀ (e0 : EapMD5) (b : List Nat), (e0.Unmarshal b).2 = none →
      (e0.Unmarshal b).1.Marshal = .ok b) := by
  constructor
  · intro e h1 h2
    refine ⟨[4, 16] ++ e.Value ++ e.Name, ?_, fun e0 => ?_⟩
    · rw [md5_marshal_eq, if_neg (not_not.mpr h1), if_neg (not_not.mpr h2)]
    · have hok : (e0.Unmarshal ([4, 16] ++ e.Value ++ e.Name)).2 = none := by
        rw [md5_unmarshal_ok_iff]
        refine ⟨?_, rfl, rfl⟩
        simp only [List.length_append, List.length_cons, List.length_nil, h2]
        omega
      rw [md5_unmarshal_ok _ _ hok]
      have ht : (([4, 16] ++ e.Value ++ e.Name).take 18).drop 2 = e.Value := by
        have : ([4, 16] ++ e.Value ++ e.Name).take 18 = [4, 16] ++ e.Value :=
          List.take_left' (by simp [h2])
        rw [this]
        rfl
      have hd : ([4, 16] ++ e.Value ++ e.Name).drop 18 = e.Name :=
        List.drop_left' (by simp [h2])
      rw [ht, hd]
      obtain ⟨vs, v, n⟩ := e
      simp only at h1
      rw [h1]
  · intro e0 b h
    obtain ⟨h0, h1, h2⟩ := (md5_unmarshal_ok_iff e0 b).mp h
    rw [md5_unmarshal_ok e0 b h, md5_marshal_eq]
    have hl : ((b.take 18).drop 2).length = 16 := by
      simp only [List.length_drop, List.length_take]
      omega
    rw [if_neg (by simp), if_neg (not_not.mpr hl)]
    rcases b with _ | ⟨b0, _ | ⟨b1, r⟩⟩
    · simp at h0
    · simp at h0
    · simp only [List.getD_cons_zero, List.getD_cons_succ] at h1 h2
      subst h1 h2
      have : (List.take 18 (4 :: 16 :: r)).drop 2 ++ List.drop 18 (4 :: 16 :: r) = r := by
        show List.take 16 r ++ List.drop 16 r = r
        exact List.take_append_drop 16 r
      simp only [List.append_assoc, this, List.cons_append, List.nil_append]

theorem md5_roundtrip_witness :
    (validEapMD5.ValueSize = 16 ∧ validEapMD5.Value.length = 16 ∧
      (validEapMD5.Unmarshal validEapMD5Bytes).2 = none) ∧
    (∃ out, validEapMD5.Marshal = .ok out ∧
      ∀ e0 : EapMD5, e0.Unmarshal out = (validEapMD5, none)) ∧
    (validEapMD5.Unmarshal validEapMD5Bytes).1.Marshal = .ok validEapMD5Bytes :=
  ⟨⟨rfl, rfl, by decide⟩, md5_roundtrip.1 validEapMD5 rfl rfl,
    md5_roundtrip.2 validEapMD5 validEapMD5Bytes (by decide)⟩

/-- One iteration of the decode loop on a record of a type other than AUTS,
RAND, AUTN, MAC and ANY_ID_REQ whose reserved field is present: the declared
length is checked against the remaining bytes and the value is cut out. -/
theorem unmarshalAttr_plain (t l x y : Nat) (tl : List Nat)
    (h4 : t ≠ AKA_AT_AUTS) (h1 : t ≠ AKA_AT_RAND) (h2 : t ≠ AKA_AT_AUTN)
    (h11 : t ≠ AKA_AT_MAC) (h13 : t ≠ AKA_AT_ANY_ID_REQ) :
    unmarshalAttr t (l :: x :: y :: tl) =
      if l = 0 ∨ tl.length + 4 < 4 * l then .error Err.invalidAttrLen
      else .ok ({ EapAkaAttr.zero with
        AttrType := t, Length := l, Reserved := x * 256 + y, Value := tl.take (4 * l - 4) },
        tl.drop (4 * l - 4)) := by
  by_cases hbad : l = 0 ∨ tl.length + 4 < 4 * l
  · rw [if_pos hbad]
    have hb : (l : Int) * 4 - 4 < 0 ∨ (l : Int) * 4 - 4 > (tl.length : Int) := by omega
    simp [unmarshalAttr, h4, h1, h2, h11, h13, beUint16]
    intro ha hc
    omega
  · rw [if_neg hbad]
    have hb : ¬ ((l : Int) * 4 - 4 < 0 ∨ (l : Int) * 4 - 4 > (tl.length : Int)) := by omega
    have hn : ((l : Int) * 4 - 4).toNat = 4 * l - 4 := by omega
    by_cases hpos : (l : Int) * 4 - 4 > 0
    · simp [unmarshalAttr, h4, h1, h2, h11, h13, beUint16, hb, hpos, hn, EapAkaAttr.zero]
      omega
    · have hz : 4 * l - 4 = 0 := by omega
      simp [unmarshalAttr, h4, h1, h2, h11, h13, beUint16, hb, hpos, hz, EapAkaAttr.zero]
      omega

/-- One iteration of the decode loop on a RAND, AUTN or MAC record whose reserved
field is present: the length byte must be 5 and 16 value bytes must remain. -/
theorem unmarshalAttr_fixed (t l x y : Nat) (tl : List Nat)
    (ht : t = AKA_AT_RAND ∨ t = AKA_AT_AUTN ∨ t = AKA_AT_MAC) :
    unmarshalAttr t (l :: x :: y :: tl) =
      if l ≠ 5 then .error Err.invalidValueLen
      else if tl.length < 16 then .error Err.invalidAttrLen
      else .ok ({ EapAkaAttr.zero with
        AttrType := t, Length := l, Reserved := x * 256 + y, Value := tl.take 16 },
        tl.drop 16) := by
  have h4 : t ≠ AKA_AT_AUTS := by
    rcases ht with h | h | h <;> subst h <;> decide
  by_cases hl : l = 5
  · subst hl
    by_cases h16 : tl.length < 16
    · simp [unmarshalAttr, h4, ht, beUint16, h16]
    · simp [unmarshalAttr, h4, ht, beUint16, h16, EapAkaAttr.zero]
  · have hv : ¬ ((l : Int) * 4 - 4 = 16) := by omega
    simp [unmarshalAttr, h4, ht, beUint16, hl, hv]

/-- One iteration of the decode loop on an ANY_ID_REQ record whose reserved field
is present: the reserved field must be zero, the length byte is not looked at
and no value is read. -/
theorem unmarshalAttr_any_id_req (l x y : Nat) (tl : List Nat) :
    unmarshalAttr AKA_AT_ANY_ID_REQ (l :: x :: y :: tl) =
      if x * 256 + y ≠ 0 then .error Err.invalidValueLen
      else .ok ({ EapAkaAttr.zero with
        AttrType := AKA_AT_ANY_ID_REQ, Length := l, Reserved := x * 256 + y }, tl) := by
  by_cases hr : x * 256 + y = 0
  · have hx : x = 0 := by omega
    have hy : y = 0 := by omega
    subst hx hy
    simp [unmarshalAttr, AKA_AT_ANY_ID_REQ, AKA_AT_AUTS, AKA_AT_RAND, AKA_AT_AUTN, AKA_AT_MAC,
      beUint16, EapAkaAttr.zero]
  · have hr' : ¬ (x = 0 ∧ y = 0) := by omega
    simp [unmarshalAttr, AKA_AT_ANY_ID_REQ, AKA_AT_AUTS, AKA_AT_RAND, AKA_AT_AUTN, AKA_AT_MAC,
      beUint16, hr, hr']

/-- One iteration of the decode loop on an AUTS record: no reserved field is
read. -/
theorem unmarshalAttr_auts (l : Nat) (tl : List Nat) :
    unmarshalAttr AKA_AT_AUTS (l :: tl) =
      if l = 0 ∨ tl.length + 2 < 4 * l then .error Err.invalidAttrLen
      else .ok ({ EapAkaAttr.zero with
        AttrType := AKA_AT_AUTS, Length := l, Value := tl.take (4 * l - 2) },
        tl.drop (4 * l - 2)) := by
  by_cases hbad : l = 0 ∨ tl.length + 2 < 4 * l
  · rw [if_pos hbad]
    simp [unmarshalAttr, AKA_AT_AUTS, AKA_AT_RAND, AKA_AT_AUTN, AKA_AT_MAC, AKA_AT_ANY_ID_REQ]
    intro ha hc
    omega
  · rw [if_neg hbad]
    have hn : ((l : Int) * 4 - 2).toNat = 4 * l - 2 := by omega
    have hpos : (l : Int) * 4 - 2 > 0 := by omega
    simp [unmarshalAttr, AKA_AT_AUTS, AKA_AT_RAND, AKA_AT_AUTN, AKA_AT_MAC, AKA_AT_ANY_ID_REQ,
      hpos, hn, EapAkaAttr.zero]
    omega

/-- The decode loop fails on a record that ends before its reserved field, and on
an AUTS record that ends after the type byte. -/
theorem unmarshalAttr_short (t : Nat) (rest : List Nat) (h : rest.length ≤ 1)
    (h' : t = AKA_AT_AUTS → rest = []) : ∃ e, unmarshalAttr t rest = .error e := by
  by_cases h4 : t = AKA_AT_AUTS
  · rw [h' h4, h4]
    exact ⟨Err.invalidAttrLen, by
      simp [unmarshalAttr, AKA_AT_AUTS, AKA_AT_RAND, AKA_AT_AUTN, AKA_AT_MAC,
        AKA_AT_ANY_ID_REQ]⟩
  · rcases rest with _ | ⟨l, _ | ⟨x, tl⟩⟩
    · exact ⟨Err.readReserved, by simp [unmarshalAttr, h4]⟩
    · exact ⟨Err.readReserved, by simp [unmarshalAttr, h4]⟩
    · simp at h

/-- An error in an iteration the decode loop reaches is the result of the loop. -/
theorem unmarshalLoop_error_of_reached (fuel : Nat) (rest0 : List Nat) (m : AttrMap)
    (t : Nat) (rest : List Nat) (hr : (t :: rest) ∈ reachedRecords fuel rest0)
    (he : ∃ e, unmarshalAttr t rest = .error e) :
    (unmarshalLoop fuel rest0 m).2 ≠ none := by
  induction fuel generalizing rest0 m with
  | zero => cases rest0 <;> simp [reachedRecords] at hr
  | succ n ih =>
    cases rest0 with
    | nil => simp [reachedRecords] at hr
    | cons t0 r0 =>
      simp only [reachedRecords, List.mem_cons] at hr
      simp only [unmarshalLoop]
      rcases hr with hr | hr
      · injection hr with h1 h2
        subst h1 h2
        obtain ⟨e, he⟩ := he
        simp [he]
      · cases hu : unmarshalAttr t0 r0 with
        | error e => simp
        | ok p =>
          obtain ⟨attr, rest'⟩ := p
          rw [hu] at hr
          exact ih rest' _ hr

theorem unmarshal_error_of_reached (a : EapAka) (b : List Nat) (t : Nat) (rest : List Nat)
    (hr : (t :: rest) ∈ reachedBy b) (he : ∃ e, unmarshalAttr t rest = .error e) :
    (a.Unmarshal b).2 ≠ none := by
  unfold reachedBy at hr
  by_cases hh : b.length < 4 ∨ b.headD 0 ≠ EapTypeAKA
  · rw [if_pos hh] at hr
    cases hr
  · rw [if_neg hh] at hr
    have h1 : ¬ b.length < 4 := fun h => hh (Or.inl h)
    have h2 : ¬ b.headD 0 ≠ EapTypeAKA := fun h => hh (Or.inr h)
    unfold EapAka.Unmarshal
    rw [if_neg h1]
    dsimp only
    rw [if_neg h2]
    exact unmarshalLoop_error_of_reached _ _ [] t rest hr he

theorem reachedRecords_ne_nil (fuel : Nat) (rest0 r : List Nat)
    (hr : r ∈ reachedRecords fuel rest0) : r ≠ [] := by
  induction fuel generalizing rest0 with
  | zero => cases rest0 <;> simp [reachedRecords] at hr
  | succ n ih =>
    cases rest0 with
    | nil => simp [reachedRecords] at hr
    | cons t0 r0 =>
      simp only [reachedRecords, List.mem_cons] at hr
      rcases hr with hr | hr
      · rw [hr]; simp
      · cases hu : unmarshalAttr t0 r0 with
        | error e => rw [hu] at hr; cases hr
        | ok p =>
          obtain ⟨attr, rest'⟩ := p
          rw [hu] at hr
          exact ih rest' hr

theorem reachedBy_ne_nil (b r : List Nat) (hr : r ∈ reachedBy b) : r ≠ [] := by
  unfold reachedBy at hr
  split_ifs at hr
  · cases hr
  · exact reachedRecords_ne_nil _ _ r hr

/-- The decode loop fails on a RAND, AUTN or MAC record whose length byte is not
5 (or is missing). -/
theorem unmarshalAttr_fixed_length (t : Nat) (rest : List Nat)
    (ht : t = AKA_AT_RAND ∨ t = AKA_AT_AUTN ∨ t = AKA_AT_MAC) (hl : rest.headD 0 ≠ 5) :
    ∃ e, unmarshalAttr t rest = .error e := by
  have h4 : t ≠ AKA_AT_AUTS := by
    rcases ht with h | h | h <;> subst h <;> decide
  rcases rest with _ | ⟨l, _ | ⟨x, _ | ⟨y, tl⟩⟩⟩
  · exact unmarshalAttr_short t [] (by simp) (fun _ => rfl)
  · exact unmarshalAttr_short t [l] (by simp) (fun h => absurd h h4)
  · simp only [List.headD_cons] at hl
    have hv : ¬ ((l : Int) * 4 - 4 = 16) := by omega
    exact ⟨Err.invalidValueLen, by simp [unmarshalAttr, h4, ht, beUint16, hv]⟩
  · simp only [List.headD_cons] at hl
    rw [unmarshalAttr_fixed t l x y tl ht, if_pos hl]
    exact ⟨_, rfl⟩

/-- The decode loop fails on a record of a type other than ANY_ID_REQ, with its
reserved field not cut short, that declares less than its header or more than
the bytes left from its start. -/
theorem unmarshalAttr_declared (t : Nat) (rest : List Nat)
    (h13 : t ≠ AKA_AT_ANY_ID_REQ) (hs : ¬ (t ≠ AKA_AT_AUTS ∧ rest.length = 2))
    (hd : 4 * rest.headD 0 < headerLen t ∨ rest.length + 1 < 4 * rest.headD 0) :
    ∃ e, unmarshalAttr t rest = .error e := by
  by_cases h4 : t = AKA_AT_AUTS
  · subst h4
    rcases rest with _ | ⟨l, tl⟩
    · exact unmarshalAttr_short _ [] (by simp) (fun _ => rfl)
    · simp only [List.headD_cons, headerLen, if_true, List.length_cons] at hd
      rw [unmarshalAttr_auts, if_pos (by omega)]
      exact ⟨_, rfl⟩
  · rcases rest with _ | ⟨l, _ | ⟨x, _ | ⟨y, tl⟩⟩⟩
    · exact unmarshalAttr_short t [] (by simp) (fun h => absurd h h4)
    · exact unmarshalAttr_short t [l] (by simp) (fun h => absurd h h4)
    · exact absurd ⟨h4, rfl⟩ hs
    · simp only [List.headD_cons, headerLen, h4, if_false, List.length_cons] at hd
      by_cases hf : t = AKA_AT_RAND ∨ t = AKA_AT_AUTN ∨ t = AKA_AT_MAC
      · rw [unmarshalAttr_fixed t l x y tl hf]
        by_cases hl : l = 5
        · subst hl
          rw [if_neg (by simp), if_pos (by omega)]
          exact ⟨_, rfl⟩
        · rw [if_pos hl]
          exact ⟨_, rfl⟩
      · rw [unmarshalAttr_plain t l x y tl h4 (fun h => hf (Or.inl h))
          (fun h => hf (Or.inr (Or.inl h))) (fun h => hf (Or.inr (Or.inr h))) h13,
          if_pos (by omega)]
        exact ⟨_, rfl⟩

/-- A successful iteration of the decode loop takes the value out of the bytes
it was given and leaves a suffix of them. -/
theorem unmarshalAttr_slices (t : Nat) (rest rest' : List Nat) (attr : EapAkaAttr)
    (h : unmarshalAttr t rest = .ok (attr, rest')) :
    attr.Value <:+: rest ∧ rest' <:+ rest := by
  unfold unmarshalAttr at h
  simp only at h
  split at h
  · cases h
  · rename_i attr₀ consumed rest₀ hrr
    have h0 : rest₀ <:+ rest ∧ attr₀.Value = [] := by
      split_ifs at hrr <;> cases hrr
      · exact ⟨(List.drop_suffix 2 _).trans (List.tail_suffix rest), rfl⟩
      · exact ⟨List.tail_suffix rest, rfl⟩
    split at h
    · cases h
    · split_ifs at h <;> cases h
      · exact ⟨((List.take_prefix _ rest₀).isInfix).trans h0.1.isInfix,
          (List.drop_suffix _ rest₀).trans h0.1⟩
      · exact ⟨by rw [h0.2]; exact List.nil_infix, h0.1⟩

/-- A RAND, AUTN or MAC record that the decode loop accepts has the length byte 5
and a 16-byte value. -/
theorem unmarshalAttr_fixed_ok (t : Nat) (rest rest' : List Nat) (attr : EapAkaAttr)
    (ht : t = AKA_AT_RAND ∨ t = AKA_AT_AUTN ∨ t = AKA_AT_MAC)
    (h : unmarshalAttr t rest = .ok (attr, rest')) :
    attr.Length = 5 ∧ attr.Value.length = 16 := by
  have hl : rest.headD 0 = 5 := by
    by_contra hne
    obtain ⟨e, he⟩ := unmarshalAttr_fixed_length t rest ht hne
    rw [he] at h
    cases h
  have h4 : t ≠ AKA_AT_AUTS := by
    rcases ht with h | h | h <;> subst h <;> decide
  rcases rest with _ | ⟨l, _ | ⟨x, _ | ⟨y, tl⟩⟩⟩
  · simp at hl
  · obtain ⟨e, he⟩ := unmarshalAttr_short t [l] (by simp) (fun h => absurd h h4)
    rw [he] at h
    cases h
  · simp only [List.headD_cons] at hl
    subst hl
    simp [unmarshalAttr, h4, ht, beUint16] at h
  · simp only [List.headD_cons] at hl
    subst hl
    rw [unmarshalAttr_fixed t 5 x y tl ht, if_neg (by simp)] at h
    by_cases h16 : tl.length < 16
    · rw [if_pos h16] at h
      cases h
    · rw [if_neg h16] at h
      injection h with h
      injection h with h1 h2
      subst h1
      refine ⟨rfl, ?_⟩
      simp only [List.length_take]
      omega

/-- A property that every successful iteration on a suffix of `input` gives to
the decoded attribute holds for every entry of the map the decode loop builds. -/
theorem unmarshalLoop_entries (input : List Nat) (Q : Nat × EapAkaAttr → Prop)
    (hQ : ∀ t rest attr rest', (t :: rest) <:+ input →
      unmarshalAttr t rest = .ok (attr, rest') → Q (t, attr))
    (fuel : Nat) (rest : List Nat) (m : AttrMap) (hs : rest <:+ input)
    (hm : ∀ e ∈ m, Q e) : ∀ e ∈ (unmarshalLoop fuel rest m).1, Q e := by
  induction fuel generalizing rest m with
  | zero => cases rest <;> simpa [unmarshalLoop] using hm
  | succ n ih =>
    cases rest with
    | nil => simpa [unmarshalLoop] using hm
    | cons t rest =>
      simp only [unmarshalLoop]
      cases hu : unmarshalAttr t rest with
      | error e => simpa using hm
      | ok p =>
        obtain ⟨attr, rest'⟩ := p
        simp only
        apply ih rest'
        · exact ((unmarshalAttr_slices t rest rest' attr hu).2.trans
            (List.suffix_cons t rest)).trans hs
        · intro e he
          rcases mem_mapSet m t attr e he with he | he
          · rw [he]; exact hQ t rest attr rest' hs hu
          · exact hm e he

/-- What `Unmarshal` guarantees of every attribute it decodes. -/
theorem unmarshal_entries (a : EapAka) (b : List Nat) (h : (a.Unmarshal b).2 = none) :
    ∀ e ∈ (a.Unmarshal b).1.entries,
      e.1 = e.2.AttrType ∧ e.2.Value <:+: b.drop 4 ∧
      ((e.1 = AKA_AT_RAND ∨ e.1 = AKA_AT_AUTN ∨ e.1 = AKA_AT_MAC) →
        e.2.Length = 5 ∧ e.2.Value.length = 16) := by
  obtain ⟨-, -, -, hdec⟩ := unmarshal_ok a b h
  rw [hdec]
  simp only [EapAka.entries, Option.getD_some]
  refine unmarshalLoop_entries (b.drop 4)
    (fun e => e.1 = e.2.AttrType ∧ e.2.Value <:+: b.drop 4 ∧
      ((e.1 = AKA_AT_RAND ∨ e.1 = AKA_AT_AUTN ∨ e.1 = AKA_AT_MAC) →
        e.2.Length = 5 ∧ e.2.Value.length = 16))
    ?_ b.length (b.drop 4) [] (List.suffix_refl _) ?_
  · intro t rest attr rest' hs hu
    refine ⟨(unmarshalAttr_attrType t rest rest' attr hu).1.symm, ?_, ?_⟩
    · exact (unmarshalAttr_slices t rest rest' attr hu).1.trans
        (((List.suffix_cons t rest).trans hs).isInfix)
    · intro ht
      exact unmarshalAttr_fixed_ok t rest rest' attr ht hu
  · intro e he
    cases he

theorem reachedRecords_suffix (fuel : Nat) (rest0 r : List Nat)
    (hr : r ∈ reachedRecords fuel rest0) : r <:+ rest0 := by
  induction fuel generalizing rest0 with
  | zero => cases rest0 <;> simp [reachedRecords] at hr
  | succ n ih =>
    cases rest0 with
    | nil => simp [reachedRecords] at hr
    | cons t0 r0 =>
      simp only [reachedRecords, List.mem_cons] at hr
      rcases hr with hr | hr
      · rw [hr]
      · cases hu : unmarshalAttr t0 r0 with
        | error e => rw [hu] at hr; cases hr
        | ok p =>
          obtain ⟨attr, rest'⟩ := p
          rw [hu] at hr
          exact ((ih rest' hr).trans (unmarshalAttr_slices t0 r0 rest' attr hu).2).trans
            (List.suffix_cons t0 r0)

/-- The decode loop runs at most one iteration per byte it is given. -/
theorem reachedRecords_length (fuel : Nat) (rest0 : List Nat) :
    (reachedRecords fuel rest0).length ≤ rest0.length := by
  induction fuel generalizing rest0 with
  | zero => cases rest0 <;> simp [reachedRecords]
  | succ n ih =>
    cases rest0 with
    | nil => simp [reachedRecords]
    | cons t0 r0 =>
      simp only [reachedRecords, List.length_cons]
      cases hu : unmarshalAttr t0 r0 with
      | error e => simp
      | ok p =>
        obtain ⟨attr, rest'⟩ := p
        have h1 := ih rest'
        have h2 := unmarshalAttr_length t0 r0 rest' attr hu
        simp only
        omega

theorem reachedBy_bounds (b r : List Nat) (hr : r ∈ reachedBy b) :
    r <:+ b.drop 4 ∧ r ≠ [] := by
  refine ⟨?_, reachedBy_ne_nil b r hr⟩
  unfold reachedBy at hr
  split_ifs at hr
  · cases hr
  · exact reachedRecords_suffix _ _ r hr

theorem reachedBy_length (b : List Nat) : (reachedBy b).length ≤ b.length - 4 := by
  unfold reachedBy
  split_ifs
  · simp
  · have := reachedRecords_length b.length (b.drop 4)
    simpa using this

theorem unmarshal_ne_outOfFuel (a : EapAka) (b : List Nat) :
    (a.Unmarshal b).2 ≠ some Err.outOfFuel := by
  unfold EapAka.Unmarshal
  by_cases h1 : b.length < 4
  · rw [if_pos h1]
    simp
  · rw [if_neg h1]
    dsimp only
    by_cases h2 : b.headD 0 ≠ EapTypeAKA
    · rw [if_pos h2]
      simp
    · rw [if_neg h2]
      exact unmarshalLoop_fuel _ _ [] (by simp)

/-- C13 (amended). When a record reached by the decode loop, of a type other than
ANY_ID_REQ and with its reserved field not cut short to one byte, declares a
total length `4 × Length` smaller than its header (2 bytes for AUTS, 4
otherwise) or larger than the bytes remaining from its start, `Unmarshal`
returns an error. -/
theorem unmarshal_declared_length (a : EapAka) (b r : List Nat)
    (hr : r ∈ reachedBy b) (h13 : r.headD 0 ≠ AKA_AT_ANY_ID_REQ)
    (hs : ¬ (r.headD 0 ≠ AKA_AT_AUTS ∧ r.length = 3))
    (hd : declaredLen r < headerLen (r.headD 0) ∨ r.length < declaredLen r) :
    (a.Unmarshal b).2 ≠ none := by
  cases r with
  | nil => exact absurd rfl (reachedBy_ne_nil b [] hr)
  | cons t rest =>
    simp only [List.headD_cons, List.length_cons] at h13 hs hd
    have hdl : declaredLen (t :: rest) = 4 * rest.headD 0 := by
      cases rest <;> rfl
    rw [hdl] at hd
    exact unmarshal_error_of_reached a b t rest hr
      (unmarshalAttr_declared t rest h13 (fun h => hs ⟨h.1, by omega⟩) hd)

theorem unmarshal_declared_length_witness :
    ([3, 9, 0, 32, 1, 2, 3, 4] ∈ reachedBy [23, 1, 0, 0, 3, 9, 0, 32, 1, 2, 3, 4] ∧
      [3, 9, 0, 32, 1, 2, 3, 4].headD 0 ≠ AKA_AT_ANY_ID_REQ ∧
      ¬ ([3, 9, 0, 32, 1, 2, 3, 4].headD 0 ≠ AKA_AT_AUTS ∧
        [3, 9, 0, 32, 1, 2, 3, 4].length = 3) ∧
      [3, 9, 0, 32, 1, 2, 3, 4].length < declaredLen [3, 9, 0, 32, 1, 2, 3, 4]) ∧
    ((NewEapAka 0).Unmarshal [23, 1, 0, 0, 3, 9, 0, 32, 1, 2, 3, 4]).2 ≠ none :=
  ⟨⟨by decide, by decide, by decide, by decide⟩,
    unmarshal_declared_length (NewEapAka 0) [23, 1, 0, 0, 3, 9, 0, 32, 1, 2, 3, 4]
      [3, 9, 0, 32, 1, 2, 3, 4] (by decide) (by decide) (by decide) (Or.inr (by decide))⟩

/-- C13 (counterexample). The decode loop reaches an ANY_ID_REQ record that
declares 800 bytes with 4 bytes remaining, and `Unmarshal` succeeds. -/
theorem any_id_req_overlong_accepted :
    [13, 200, 0, 0] ∈ reachedBy [23, 1, 0, 0, 13, 200, 0, 0] ∧
    [13, 200, 0, 0].length < declaredLen [13, 200, 0, 0] ∧
    ((NewEapAka 0).Unmarshal [23, 1, 0, 0, 13, 200, 0, 0]).2 = none := by
  decide

/-- C14 (amended). An ANY_ID_REQ record reached by the decode loop with a
non-zero reserved field makes `Unmarshal` return an error; with a zero reserved
field the record is accepted whatever its length byte `L`: the attribute is
stored with `Length = L`, `Reserved = 0` and no value, and decoding continues
right after the reserved field. -/
theorem unmarshal_any_id_req (a : EapAka) (b : List Nat) (L x y : Nat) (tl : List Nat)
    (hr : (AKA_AT_ANY_ID_REQ :: L :: x :: y :: tl) ∈ reachedBy b) :
    ((x ≠ 0 ∨ y ≠ 0) → (a.Unmarshal b).2 ≠ none) ∧
    ((x = 0 ∧ y = 0) →
      unmarshalAttr AKA_AT_ANY_ID_REQ (L :: x :: y :: tl) =
        .ok ({ EapAkaAttr.zero with AttrType := AKA_AT_ANY_ID_REQ, Length := L }, tl) ∧
      ∀ (fuel : Nat) (m : AttrMap),
        unmarshalLoop (fuel + 1) (AKA_AT_ANY_ID_REQ :: L :: x :: y :: tl) m =
          unmarshalLoop fuel tl
            (mapSet m AKA_AT_ANY_ID_REQ
              { EapAkaAttr.zero with AttrType := AKA_AT_ANY_ID_REQ, Length := L })) := by
  constructor
  · intro hxy
    apply unmarshal_error_of_reached a b _ _ hr
    rw [unmarshalAttr_any_id_req, if_pos (by omega)]
    exact ⟨_, rfl⟩
  · rintro ⟨hx, hy⟩
    subst hx hy
    have hu : unmarshalAttr AKA_AT_ANY_ID_REQ (L :: 0 :: 0 :: tl) =
        .ok ({ EapAkaAttr.zero with AttrType := AKA_AT_ANY_ID_REQ, Length := L }, tl) := by
      rw [unmarshalAttr_any_id_req, if_neg (by simp)]
      rfl
    refine ⟨hu, fun fuel m => ?_⟩
    simp only [unmarshalLoop, hu]

theorem unmarshal_any_id_req_witness :
    ([13, 1, 0, 5, 4, 1, 7, 7] ∈ reachedBy [23, 5, 0, 0, 13, 1, 0, 5, 4, 1, 7, 7] ∧
      ((0 : Nat) ≠ 0 ∨ (5 : Nat) ≠ 0)) ∧
    ((NewEapAka 0).Unmarshal [23, 5, 0, 0, 13, 1, 0, 5, 4, 1, 7, 7]).2 ≠ none :=
  ⟨⟨by decide, by decide⟩,
    (unmarshal_any_id_req (NewEapAka 0) [23, 5, 0, 0, 13, 1, 0, 5, 4, 1, 7, 7] 1 0 5
      [4, 1, 7, 7] (by decide)).1 (by decide)⟩

/-- C14 (counterexample). `Unmarshal` accepts an ANY_ID_REQ record whose length
byte is 2: it stores the attribute with `Length` 2 and no value. -/
theorem any_id_req_length_two_accepted :
    ((NewEapAka 0).Unmarshal [23, 5, 0, 0, 13, 2, 0, 0]).2 = none ∧
    mapGet ((NewEapAka 0).Unmarshal [23, 5, 0, 0, 13, 2, 0, 0]).1.entries AKA_AT_ANY_ID_REQ =
      some { EapAkaAttr.zero with AttrType := AKA_AT_ANY_ID_REQ, Length := 2 } := by
  decide

/-- C15. When the decode loop reaches a RAND, AUTN or MAC record whose length
byte is not 5, `Unmarshal` returns an error; and when `Unmarshal` succeeds every
decoded RAND, AUTN and MAC attribute has `Length = 5` and a 16-byte `Value` that
is a contiguous slice of the input. -/
theorem unmarshal_fixed_size (a : EapAka) (b : List Nat) :
    (∀ r ∈ reachedBy b,
      (r.headD 0 = AKA_AT_RAND ∨ r.headD 0 = AKA_AT_AUTN ∨ r.headD 0 = AKA_AT_MAC) →
      r.getD 1 0 ≠ 5 → (a.Unmarshal b).2 ≠ none) ∧
    ((a.Unmarshal b).2 = none →
      ∀ e ∈ (a.Unmarshal b).1.entries,
        (e.2.AttrType = AKA_AT_RAND ∨ e.2.AttrType = AKA_AT_AUTN ∨ e.2.AttrType = AKA_AT_MAC) →
        e.2.Length = 5 ∧ e.2.Value.length = 16 ∧ e.2.Value <:+: b) := by
  constructor
  · intro r hr ht hl
    cases r with
    | nil => exact absurd rfl (reachedBy_ne_nil b [] hr)
    | cons t rest =>
      simp only [List.headD_cons] at ht
      have hl' : rest.headD 0 ≠ 5 := by
        cases rest with
        | nil => simp
        | cons l tl => simpa using hl
      exact unmarshal_error_of_reached a b t rest hr (unmarshalAttr_fixed_length t rest ht hl')
  · intro h e he ht
    obtain ⟨hk, hv, hf⟩ := unmarshal_entries a b h e he
    rw [← hk] at ht
    exact ⟨(hf ht).1, (hf ht).2, hv.trans (List.drop_suffix 4 b).isInfix⟩

theorem unmarshal_fixed_size_witness :
    ((NewEapAka 0).Unmarshal ([23, 1, 0, 0, 1, 5, 0, 0] ++ List.replicate 16 9)).2 = none ∧
    ∀ e ∈ ((NewEapAka 0).Unmarshal
        ([23, 1, 0, 0, 1, 5, 0, 0] ++ List.replicate 16 9)).1.entries,
      (e.2.AttrType = AKA_AT_RAND ∨ e.2.AttrType = AKA_AT_AUTN ∨ e.2.AttrType = AKA_AT_MAC) →
      e.2.Length = 5 ∧ e.2.Value.length = 16 ∧
        e.2.Value <:+: ([23, 1, 0, 0, 1, 5, 0, 0] ++ List.replicate 16 9) :=
  ⟨by decide,
    (unmarshal_fixed_size (NewEapAka 0)
      ([23, 1, 0, 0, 1, 5, 0, 0] ++ List.replicate 16 9)).2 (by decide)⟩

/-- C16. `Unmarshal` returns a result on every byte sequence: a buffer shorter
than 4 bytes is rejected, and the decode loop never exhausts the iteration bound
`len(input)`, because it runs at most `len(input) − 4` iterations, each starting
on a non-empty suffix of the input and, when it succeeds, leaving a strictly
shorter suffix and a value cut out of the bytes it was given.  On success every
decoded `Value` is a contiguous slice of the input of length at most
`len(input) − 4`. -/
theorem unmarshal_total_bounded (a : EapAka) (b : List Nat) :
    (a.Unmarshal b).2 ≠ some Err.outOfFuel ∧
    (b.length < 4 → a.Unmarshal b = (a, some Err.insufficientBytes)) ∧
    (reachedBy b).length ≤ b.length - 4 ∧
    (∀ r ∈ reachedBy b, r ≠ [] ∧ r <:+ b) ∧
    (∀ (t : Nat) (rest rest' : List Nat) (attr : EapAkaAttr),
      unmarshalAttr t rest = .ok (attr, rest') →
        rest'.length < (t :: rest).length ∧ rest' <:+ t :: rest ∧ attr.Value <:+: rest) ∧
    ((a.Unmarshal b).2 = none →
      ∀ e ∈ (a.Unmarshal b).1.entries,
        e.2.Value <:+: b ∧ e.2.Value.length ≤ b.length - 4) := by
  refine ⟨unmarshal_ne_outOfFuel a b, ?_, reachedBy_length b, ?_, ?_, ?_⟩
  · intro h
    unfold EapAka.Unmarshal
    rw [if_pos h]
  · intro r hr
    obtain ⟨h1, h2⟩ := reachedBy_bounds b r hr
    exact ⟨h2, h1.trans (List.drop_suffix 4 b)⟩
  · intro t rest rest' attr hu
    obtain ⟨h1, h2⟩ := unmarshalAttr_slices t rest rest' attr hu
    have h3 := unmarshalAttr_length t rest rest' attr hu
    refine ⟨?_, h2.trans (List.suffix_cons t rest), h1⟩
    simp only [List.length_cons]
    omega
  · intro h e he
    obtain ⟨-, hv, -⟩ := unmarshal_entries a b h e he
    refine ⟨hv.trans (List.drop_suffix 4 b).isInfix, ?_⟩
    have := hv.length_le
    simpa using this

theorem unmarshal_total_bounded_witness :
    ((NewEapAka 0).Unmarshal [23, 1, 0, 0, 4, 1, 170, 187]).2 = none ∧
    ∀ e ∈ ((NewEapAka 0).Unmarshal [23, 1, 0, 0, 4, 1, 170, 187]).1.entries,
      e.2.Value <:+: [23, 1, 0, 0, 4, 1, 170, 187] ∧
        e.2.Value.length ≤ [23, 1, 0, 0, 4, 1, 170, 187].length - 4 :=
  ⟨by decide,
    (unmarshal_total_bounded (NewEapAka 0) [23, 1, 0, 0, 4, 1, 170, 187]).2.2.2.2.2
      (by decide)⟩

/-- One iteration of the decode loop on a record of a type that is none of the
defined attribute constants, with length byte `L ≥ 1` and at least `4·L` bytes
from its start: the iteration succeeds, the map is assigned the decoded
attribute under the type and the loop goes on with the bytes after the value. -/
theorem unmarshalLoop_unknown_type (t L x y : Nat) (tl : List Nat)
    (ht : t ∉ definedAttrTypes) (hL : 1 ≤ L)
    (hlen : 4 * L ≤ (t :: L :: x :: y :: tl).length) :
    unmarshalAttr t (L :: x :: y :: tl) =
      .ok (decodedAttr t L x y tl, tl.drop (4 * L - 4)) ∧
    (decodedAttr t L x y tl).Value.length = 4 * L - 4 ∧
    (∀ (fuel : Nat) (m : AttrMap),
      unmarshalLoop (fuel + 1) (t :: L :: x :: y :: tl) m =
        unmarshalLoop fuel (tl.drop (4 * L - 4)) (mapSet m t (decodedAttr t L x y tl)) ∧
      mapGet (mapSet m t (decodedAttr t L x y tl)) t = some (decodedAttr t L x y tl) ∧
      reachedRecords (fuel + 1) (t :: L :: x :: y :: tl) =
        (t :: L :: x :: y :: tl) :: reachedRecords fuel (tl.drop (4 * L - 4))) := by
  simp only [definedAttrTypes, List.mem_cons, List.mem_singleton, not_or, List.not_mem_nil,
    not_false_eq_true, and_true] at ht
  obtain ⟨h1, h2, -, h4, h11, -, h13, -, -⟩ := ht
  simp only [List.length_cons] at hlen
  have hu : unmarshalAttr t (L :: x :: y :: tl) =
      .ok (decodedAttr t L x y tl, tl.drop (4 * L - 4)) := by
    rw [unmarshalAttr_plain t L x y tl h4 h1 h2 h11 h13, if_neg (by omega)]
    rfl
  refine ⟨hu, ?_, fun fuel m => ⟨?_, mapGet_mapSet_self _ _ _, ?_⟩⟩
  · simp only [decodedAttr, List.length_take]
    omega
  · simp only [unmarshalLoop, hu]
  · simp only [reachedRecords, hu]

theorem md5_setChallengeValue_eq (e : EapMD5) (v : List Nat) :
    e.SetChallengeValue v =
      if v.length = 16 then ({ ValueSize := 16, Value := v, Name := e.Name }, none)
      else (e, some Err.md5ChallengeSize) := by
  unfold EapMD5.SetChallengeValue
  simp only [EapMD5ChallengeSize]
  by_cases h : v.length = 16
  · rw [if_neg (not_not.mpr h), if_pos h, List.take_of_length_le (by omega)]
  · rw [if_pos h, if_neg h]

/-- C21. `SetChallengeValue(v)` succeeds exactly when `v` has 16 bytes; on
success `ValueSize = 16`, `Value = v` and `Name` is unchanged, so that `Marshal`
then succeeds; on failure the receiver is unchanged. -/
theorem md5_setChallengeValue (e : EapMD5) (v : List Nat) :
    ((e.SetChallengeValue v).2 = none ↔ v.length = 16) ∧
    (v.length = 16 →
      (e.SetChallengeValue v).1 = { ValueSize := 16, Value := v, Name := e.Name } ∧
      (e.SetChallengeValue v).1.Marshal = .ok ([4, 16] ++ v ++ e.Name)) ∧
    (v.length ≠ 16 → (e.SetChallengeValue v).1 = e) := by
  rw [md5_setChallengeValue_eq]
  by_cases h : v.length = 16
  · rw [if_pos h]
    refine ⟨⟨fun _ => h, fun _ => rfl⟩, fun _ => ⟨rfl, ?_⟩, fun hne => absurd h hne⟩
    rw [md5_marshal_eq, if_neg (by simp), if_neg (not_not.mpr h)]
  · rw [if_neg h]
    refine ⟨⟨fun hh => ?_, fun hh => absurd hh h⟩, fun hh => absurd hh h, fun _ => rfl⟩
    cases hh

theorem md5_setChallengeValue_witness :
    (List.replicate 16 0).length = 16 ∧
    (validEapMD5.SetChallengeValue (List.replicate 16 0)).1 =
      { ValueSize := 16, Value := List.replicate 16 0, Name := validEapMD5.Name } ∧
    (validEapMD5.SetChallengeValue (List.replicate 16 0)).1.Marshal =
      .ok ([4, 16] ++ List.replicate 16 0 ++ validEapMD5.Name) :=
  ⟨by decide, (md5_setChallengeValue validEapMD5 (List.replicate 16 0)).2.1 (by decide)⟩

theorem assignEapTypeData_last (container : IKEPayloadContainer) (p : PayloadEap)
    (data : EapTypeData) :
    assignEapTypeData (container ++ [IKEPayload.eap p]) container.length data =
      container ++ [IKEPayload.eap { EAP := { p.EAP with EapTypeData := data } }] := by
  induction container with
  | nil => rfl
  | cons x xs ih =>
    simp only [List.cons_append, List.length_cons, assignEapTypeData, ih]

theorem buildEAP5GNAS_eq (container : IKEPayloadContainer) (identifier : Nat)
    (nasPDU : List Nat) :
    container.BuildEAP5GNAS identifier nasPDU =
      if nasPDU.length = 0 then (container, some Err.nasPduEmpty)
      else if nasPDU.length > 65535 then (container, some Err.nasPduTooLong)
      else
        (container ++ [IKEPayload.eap (PayloadEap.mk (EAP.mk EapCodeRequest identifier
          (EapTypeData.expanded (EapExpanded.mk VendorId3GPP VendorTypeEAP5G
            ([2, 0, nasPDU.length / 256, nasPDU.length % 256] ++ nasPDU)))))], none) := by
  unfold IKEPayloadContainer.BuildEAP5GNAS
  by_cases h0 : nasPDU.length = 0
  · rw [if_pos h0, if_pos h0]
  · rw [if_neg h0, if_neg h0]
    dsimp only
    by_cases h1 : nasPDU.length > 65535
    · rw [if_pos h1, if_pos h1]
    · rw [if_neg h1, if_neg h1]
      have hm : nasPDU.length % 65536 = nasPDU.length := Nat.mod_eq_of_lt (by omega)
      have hhi : nasPDU.length / 256 % 256 = nasPDU.length / 256 := by omega
      simp only [IKEPayloadContainer.BuildEAP, assignEapTypeData_last, BuildEapExpanded,
        putUint16, hm, hhi, EAP5GType5GNAS]
      rfl

/-- C22. `BuildEAP5GNAS` fails exactly when the NAS PDU is empty or longer than
65535 bytes, and then leaves the container unchanged; otherwise it appends one
EAP payload with code Request, the given identifier and EAP-Expanded type data
(3GPP vendor ID, EAP-5G vendor type) whose vendor data is
`[0x02, 0x00, hi(L), lo(L)] ++ PDU`. -/
theorem buildEAP5GNAS (container : IKEPayloadContainer) (identifier : Nat) (nasPDU : List Nat) :
    ((container.BuildEAP5GNAS identifier nasPDU).2 ≠ none ↔
      (nasPDU.length = 0 ∨ nasPDU.length > 65535)) ∧
    ((container.BuildEAP5GNAS identifier nasPDU).2 ≠ none →
      (container.BuildEAP5GNAS identifier nasPDU).1 = container) ∧
    ((container.BuildEAP5GNAS identifier nasPDU).2 = none →
      (container.BuildEAP5GNAS identifier nasPDU).1 =
        container ++ [IKEPayload.eap (PayloadEap.mk (EAP.mk EapCodeRequest identifier
          (EapTypeData.expanded (EapExpanded.mk VendorId3GPP VendorTypeEAP5G
            ([2, 0, nasPDU.length / 256, nasPDU.length % 256] ++ nasPDU)))))]) := by
  rw [buildEAP5GNAS_eq]
  by_cases h0 : nasPDU.length = 0
  · rw [if_pos h0]
    exact ⟨⟨fun _ => Or.inl h0, fun _ => by simp⟩, fun _ => rfl, fun h => by cases h⟩
  · rw [if_neg h0]
    by_cases h1 : nasPDU.length > 65535
    · rw [if_pos h1]
      exact ⟨⟨fun _ => Or.inr h1, fun _ => by simp⟩, fun _ => rfl, fun h => by cases h⟩
    · rw [if_neg h1]
      refine ⟨⟨fun h => absurd rfl h, fun h => ?_⟩, fun h => absurd rfl h, fun _ => rfl⟩
      rcases h with h | h
      · exact absurd h h0
      · exact absurd h h1

theorem buildEAP5GNAS_witness :
    (IKEPayloadContainer.BuildEAP5GNAS [] 7 [9, 8, 7]).2 = none ∧
    (IKEPayloadContainer.BuildEAP5GNAS [] 7 [9, 8, 7]).1 =
      [] ++ [IKEPayload.eap (PayloadEap.mk (EAP.mk EapCodeRequest 7
        (EapTypeData.expanded (EapExpanded.mk VendorId3GPP VendorTypeEAP5G
          ([2, 0, [9, 8, 7].length / 256, [9, 8, 7].length % 256] ++ [9, 8, 7])))))] :=
  ⟨by decide, (buildEAP5GNAS [] 7 [9, 8, 7]).2.2 (by decide)⟩

theorem buildNotify5G_QOS_INFO_eq (container : IKEPayloadContainer) (pduSessionID : Nat)
    (qfiList : List Nat) (isDefault isDSCPSpecified : Bool) (dscp : Nat) :
    container.BuildNotify5G_QOS_INFO pduSessionID qfiList isDefault isDSCPSpecified dscp =
      if qfiList.length > 255 then (container, some Err.qfiListTooLong)
      else if 4 + qfiList.length + (if isDSCPSpecified then 1 else 0) > 255 then
        (container, some Err.notifyDataTooLong)
      else
        (container ++ [IKEPayload.notification (Notification.mk 0 55501 []
          (qosBody (4 + qfiList.length + (if isDSCPSpecified then 1 else 0)) pduSessionID qfiList
            isDefault isDSCPSpecified dscp))], none) := by
  unfold IKEPayloadContainer.BuildNotify5G_QOS_INFO
  by_cases h0 : qfiList.length > 255
  · rw [if_pos h0, if_pos h0]
  · rw [if_neg h0, if_neg h0]
    have hm : qfiList.length % 256 = qfiList.length := Nat.mod_eq_of_lt (by omega)
    cases isDefault <;> cases isDSCPSpecified <;>
    · simp only [List.length_append, List.length_cons, List.length_nil, List.length_replicate,
        if_true, if_false, Bool.false_eq_true]
      split_ifs with h1 h2 h2
      · rfl
      · omega
      · omega
      · have hn : (1 + 1 + 1 + qfiList.length + 1) % 256 = 4 + qfiList.length + 0 ∨
            (1 + 1 + 1 + qfiList.length + 1 + 1) % 256 = 4 + qfiList.length + 1 := by omega
        simp [IKEPayloadContainer.BuildNotification, qosBody, qosFlags, hm, TypeNone,
          Vendor3GPPNotifyType5G_QOS_INFO, NotifyType5G_QOS_INFOBitDCSICheck,
          NotifyType5G_QOS_INFOBitDSCPICheck]
        omega


/-- C23. `BuildNotify5G_QOS_INFO` fails exactly when
`4 + len(q) + (1 if isDSCPSpecified)` exceeds 255, and then leaves the container
unchanged; otherwise it appends one Notification with protocol ID 0, notify type
55501, an empty SPI and the data
`[n, pduSessionID, len(q)] ++ q ++ [flags] ++ ([dscp] if isDSCPSpecified)`, where
`n` is the length of the data and `flags` is `0x02` for `isDefault` or-ed with
`0x01` for `isDSCPSpecified`; for `pduSessionID = 5`, `q = [1, 2]`,
`isDefault = true`, `isDSCPSpecified = false` the data is `[6, 5, 2, 1, 2, 2]`. -/
theorem buildNotify5G_QOS_INFO (container : IKEPayloadContainer) (pduSessionID : Nat)
    (qfiList : List Nat) (isDefault isDSCPSpecified : Bool) (dscp : Nat) :
    ((container.BuildNotify5G_QOS_INFO pduSessionID qfiList isDefault isDSCPSpecified dscp).2
        ≠ none ↔ 4 + qfiList.length + (if isDSCPSpecified then 1 else 0) > 255) ∧
    ((container.BuildNotify5G_QOS_INFO pduSessionID qfiList isDefault isDSCPSpecified dscp).2
        ≠ none →
      (container.BuildNotify5G_QOS_INFO pduSessionID qfiList isDefault isDSCPSpecified dscp).1
        = container) ∧
    ((container.BuildNotify5G_QOS_INFO pduSessionID qfiList isDefault isDSCPSpecified dscp).2
        = none →
      ∃ n, (container.BuildNotify5G_QOS_INFO pduSessionID qfiList isDefault isDSCPSpecified
          dscp).1 =
        container ++ [IKEPayload.notification (Notification.mk 0 55501 []
          (qosBody n pduSessionID qfiList isDefault isDSCPSpecified dscp))] ∧
        n = (qosBody n pduSessionID qfiList isDefault isDSCPSpecified dscp).length) ∧
    (IKEPayloadContainer.BuildNotify5G_QOS_INFO [] 5 [1, 2] true false 0 =
      ([IKEPayload.notification (Notification.mk 0 55501 [] [6, 5, 2, 1, 2, 2])], none)) := by
  have hlen : (qosBody (4 + qfiList.length + (if isDSCPSpecified then 1 else 0)) pduSessionID
      qfiList isDefault isDSCPSpecified dscp).length =
      4 + qfiList.length + (if isDSCPSpecified then 1 else 0) := by
    cases isDSCPSpecified <;> simp [qosBody] <;> omega
  rw [buildNotify5G_QOS_INFO_eq]
  generalize (if isDSCPSpecified = true then 1 else 0) = d at hlen ⊢
  by_cases h0 : qfiList.length > 255
  · rw [if_pos h0]
    exact ⟨⟨fun _ => by omega, fun _ => by simp⟩, fun _ => rfl, fun h => (by cases h), by decide⟩
  · rw [if_neg h0]
    by_cases h1 : 4 + qfiList.length + d > 255
    · rw [if_pos h1]
      exact ⟨⟨fun _ => h1, fun _ => by simp⟩, fun _ => rfl, fun h => (by cases h), by decide⟩
    · rw [if_neg h1]
      exact ⟨⟨fun h => absurd rfl h, fun h => absurd h h1⟩, fun h => absurd rfl h,
        fun _ => ⟨_, rfl, hlen.symm⟩, by decide⟩

theorem buildNotify5G_QOS_INFO_witness :
    (IKEPayloadContainer.BuildNotify5G_QOS_INFO [] 9 [1, 2, 3] false true 46).2 = none ∧
    ∃ n, (IKEPayloadContainer.BuildNotify5G_QOS_INFO [] 9 [1, 2, 3] false true 46).1 =
        [] ++ [IKEPayload.notification (Notification.mk 0 55501 []
          (qosBody n 9 [1, 2, 3] false true 46))] ∧
      n = (qosBody n 9 [1, 2, 3] false true 46).length :=
  ⟨by decide, (buildNotify5G_QOS_INFO [] 9 [1, 2, 3] false true 46).2.2.1 (by decide)⟩

/-- Every simple builder appends the payload of its call. -/
theorem simpleBuild_run (container : IKEPayloadContainer) (call : SimpleBuild) :
    call.run container = container ++ [call.payload] := by
  cases call <;> rfl

theorem simpleBuild_foldl (container : IKEPayloadContainer) (calls : List SimpleBuild) :
    calls.foldl SimpleBuild.run container = container ++ calls.map SimpleBuild.payload := by
  induction calls generalizing container with
  | nil => simp
  | cons call calls ih =>
    simp only [List.foldl_cons, ih, simpleBuild_run, List.map_cons, List.append_assoc,
      List.singleton_append]

/-- C24. `Reset` followed by `n` calls of the simple builders yields a container
of exactly `n` payloads, the `i`-th being the variant of the `i`-th call with
field values equal to its arguments; and each call appends one payload at the
end of the container it is given, leaving the earlier payloads and their order
unchanged. -/
theorem container_insertion_order (container : IKEPayloadContainer) (calls : List SimpleBuild) :
    (calls.foldl SimpleBuild.run container.Reset).length = calls.length ∧
    calls.foldl SimpleBuild.run container.Reset = calls.map SimpleBuild.payload ∧
    (∀ i (h : i < calls.length),
      (calls.foldl SimpleBuild.run container.Reset)[i]? = some (calls.get ⟨i, h⟩).payload) ∧
    (∀ call : SimpleBuild,
      call.run container = container ++ [call.payload] ∧
      (call.run container).length = container.length + 1 ∧
      (call.run container).take container.length = container) := by
  have hf : calls.foldl SimpleBuild.run container.Reset = calls.map SimpleBuild.payload := by
    rw [simpleBuild_foldl]
    rfl
  refine ⟨by rw [hf, List.length_map], hf, ?_, fun call => ?_⟩
  · intro i h
    rw [hf, List.getElem?_map, List.getElem?_eq_getElem h]
    rfl
  · rw [simpleBuild_run]
    refine ⟨rfl, by simp, ?_⟩
    rw [List.take_left]

theorem container_insertion_order_witness :
    (1 < [SimpleBuild.nonce [1, 2], SimpleBuild.notification 0 16384 [] [],
        SimpleBuild.deletePayload 3 4 1 [7]].length) ∧
    ([SimpleBuild.nonce [1, 2], SimpleBuild.notification 0 16384 [] [],
        SimpleBuild.deletePayload 3 4 1 [7]].foldl SimpleBuild.run
        (IKEPayloadContainer.Reset [IKEPayload.nonce (Nonce.mk [9])]))[1]? =
      some (IKEPayload.notification (Notification.mk 0 16384 [] [])) :=
  ⟨by decide,
    (container_insertion_order [IKEPayload.nonce (Nonce.mk [9])]
      [SimpleBuild.nonce [1, 2], SimpleBuild.notification 0 16384 [] [],
        SimpleBuild.deletePayload 3 4 1 [7]]).2.2.1 1 (by decide)⟩

/-- C25 (amended). `BuildTransform` called with an attribute type but with
neither a fixed attribute value nor a non-empty variable-length value does not
fail (it has no error result) and returns before appending: the container is
left unchanged, so the whole Transform is omitted. -/
theorem buildTransform_no_value (container : TransformContainer)
    (transformType transformID attributeType : Nat) :
    container.BuildTransform transformType transformID (some attributeType) none [] = container ∧
    (container.BuildTransform transformType transformID (some attributeType) none []).length =
      container.length := by
  constructor <;> rfl

/-- C25 (counterexample). Called on an empty container with an attribute type and
no attribute value, `BuildTransform` appends nothing: no Transform with the given
transform type and ID is in the container. -/
theorem buildTransform_no_value_not_appended :
    TransformContainer.BuildTransform [] 1 12 (some 14) none [] = [] ∧
    ¬ ∃ t : Transform, t ∈ TransformContainer.BuildTransform [] 1 12 (some 14) none [] ∧
      t.TransformType = 1 ∧ t.TransformID = 12 := by
  refine ⟨rfl, ?_⟩
  rintro ⟨t, ht, -⟩
  cases ht

/-- C26. Without an attribute type `BuildTransform` appends one Transform with
`AttributePresent = false`; with an attribute type and a fixed value it appends
one Transform with `AttributePresent = true`, format Type-Value and that value,
whatever variable-length value is supplied (the Transform's own stays empty);
with an attribute type, no fixed value and a non-empty variable-length value it
appends one Transform with format Type-Length-Value carrying that value. -/
theorem buildTransform_encoding (container : TransformContainer)
    (transformType transformID : Nat) (attributeValue : Option Nat) (v : List Nat) :
    (container.BuildTransform transformType transformID none attributeValue v =
      container ++ [{ Transform.zero with
        TransformType := transformType, TransformID := transformID,
        AttributePresent := false }]) ∧
    (∀ attributeType fixed : Nat,
      container.BuildTransform transformType transformID (some attributeType) (some fixed) v =
        container ++ [{ Transform.zero with
          TransformType := transformType, TransformID := transformID,
          AttributePresent := true, AttributeType := attributeType,
          AttributeFormat := AttributeFormatUseTV, AttributeValue := fixed,
          VariableLengthAttributeValue := [] }]) ∧
    (∀ attributeType : Nat, v ≠ [] →
      container.BuildTransform transformType transformID (some attributeType) none v =
        container ++ [{ Transform.zero with
          TransformType := transformType, TransformID := transformID,
          AttributePresent := true, AttributeType := attributeType,
          AttributeFormat := AttributeFormatUseTLV, VariableLengthAttributeValue := v }]) := by
  refine ⟨rfl, fun _ _ => rfl, fun attributeType hv => ?_⟩
  have hl : v.length ≠ 0 := fun h => hv (List.length_eq_zero.mp h)
  simp only [TransformContainer.BuildTransform, hl, ne_eq, not_false_eq_true, if_true,
    Transform.zero, List.nil_append]

theorem buildTransform_encoding_witness :
    ([0, 128] : List Nat) ≠ [] ∧
    TransformContainer.BuildTransform [] 1 12 (some 14) none [0, 128] =
      [] ++ [{ Transform.zero with
        TransformType := 1, TransformID := 12,
        AttributePresent := true, AttributeType := 14,
        AttributeFormat := AttributeFormatUseTLV, VariableLengthAttributeValue := [0, 128] }] :=
  ⟨by decide, (buildTransform_encoding [] 1 12 none [0, 128]).2.2 14 (by decide)⟩

/-- C27 (failing input). For the 4-byte identity `abcd`, `BuildEapAkaAttr` returns
an IDENTITY attribute with `Length` 2, and the record `Marshal` emits for it has
10 bytes: type, length, the 2-byte identity length, the 4 identity bytes and the
2 bytes decoded from the fixed padding `0000`. -/
theorem buildEapAkaAttr_identity_abcd :
    ∃ attr r, BuildEapAkaAttr AKA_AT_IDENTITY [97, 98, 99, 100] [] = some attr ∧
      attr.Length = 2 ∧ attr.Padding = [48, 48, 48, 48] ∧
      marshalAttr attr [] = .ok r ∧
      r = [14, 2, 0, 4, 97, 98, 99, 100, 0, 0] ∧ r.length ≠ 4 * attr.Length :=
  ⟨{ EapAkaAttr.zero with
      AttrType := 14
      Length := 2
      Identity_actual_len := 4
      Identity := [97, 98, 99, 100]
      Padding := [48, 48, 48, 48] },
    [14, 2, 0, 4, 97, 98, 99, 100, 0, 0], by decide, rfl, rfl, by decide, rfl, by decide⟩

/-- The record of an IDENTITY attribute built by `BuildEapAkaAttr` has
`len(s) + 6` bytes, while its `Length` stands for `len(s)` rounded up to a
multiple of 4, plus 4: the two agree exactly when `len(s) % 4 = 2`. -/
theorem buildEapAkaAttr_identity_record (s vBytes : List Nat) (hs : s.length ≤ 255) :
    ∃ attr r, BuildEapAkaAttr AKA_AT_IDENTITY s vBytes = some attr ∧
      marshalAttr attr [] = .ok r ∧ r.length = s.length + 6 ∧
      4 * attr.Length = s.length + (4 - s.length % 4) % 4 + 4 ∧
      (r.length = 4 * attr.Length ↔ s.length % 4 = 2) := by
  have hd : hexDecodeString [48, 48, 48, 48] = some [0, 0] := by decide
  have hm : marshalAttr { EapAkaAttr.zero with
      AttrType := AKA_AT_IDENTITY
      Length := (4 + (s.length + (4 - s.length % 4) % 4)) / 4 % 256
      Identity_actual_len := s.length % 256
      Identity := s
      Padding := [48, 48, 48, 48] } [] =
      .ok ([14, (4 + (s.length + (4 - s.length % 4) % 4)) / 4 % 256] ++
        putUint16 (s.length % 65536) ++ s ++ [0, 0]) := by
    simp [marshalAttr, AKA_AT_IDENTITY, hd, EapAkaAttr.zero]
  refine ⟨_, _, by simp only [BuildEapAkaAttr, if_true], hm, ?_, ?_, ?_⟩
  · simp [putUint16]
  · show 4 * ((4 + (s.length + (4 - s.length % 4) % 4)) / 4 % 256) = _
    omega
  · simp only [List.length_append, List.length_cons, List.length_nil, putUint16]
    show _ = 4 * ((4 + (s.length + (4 - s.length % 4) % 4)) / 4 % 256) ↔ _
    omega

/-- `Unmarshal` of a header followed by one record that the decode loop accepts
and that uses up the buffer. -/
theorem unmarshal_single_record (a : EapAka) (s r0 r1 t : Nat) (rest : List Nat)
    (attr : EapAkaAttr) (h : unmarshalAttr t rest = .ok (attr, [])) :
    a.Unmarshal (EapTypeAKA :: s :: r0 :: r1 :: t :: rest) =
      ({ SubType := s, Reserved := beUint16 [r0, r1], Attributes := some [(t, attr)] }, none) := by
  unfold EapAka.Unmarshal
  rw [if_neg (by simp only [List.length_cons]; omega)]
  dsimp only
  rw [if_neg (by simp)]
  have hl : (EapTypeAKA :: s :: r0 :: r1 :: t :: rest).length = (rest.length + 4) + 1 := by
    simp only [List.length_cons]
  rw [hl]
  simp only [List.drop_succ_cons, List.drop_zero, unmarshalLoop, h, mapSet, List.getD_cons_succ,
    List.getD_cons_zero, List.take_succ_cons, List.take_zero]

theorem buildEapAkaAttr_res_eq (vStr r : List Nat) :
    BuildEapAkaAttr AKA_AT_RES vStr r =
      some { EapAkaAttr.zero with
        AttrType := AKA_AT_RES
        Length := (4 + r.length + (4 - r.length % 4) % 4) / 4 % 256
        Value := putUint16 (r.length * 8 % 65536) ++ r ++
          List.replicate ((4 - r.length % 4) % 4) 0 } := by
  have ht : 2 + (putUint16 (r.length * 8 % 65536) ++ r).length = 4 + r.length := by
    simp [putUint16]
    omega
  have e : (4 + r.length) % 4 = r.length % 4 := by omega
  simp only [BuildEapAkaAttr, AKA_AT_RES, AKA_AT_IDENTITY, ht, e]
  by_cases hp : (4 - r.length % 4) % 4 > 0
  · simp [hp]
  · have h0 : (4 - r.length % 4) % 4 = 0 := by omega
    simp [h0]

theorem buildEapAkaAttr_mac_eq (vStr m : List Nat) (hm : m.length = 16) :
    BuildEapAkaAttr AKA_AT_MAC vStr m =
      some { EapAkaAttr.zero with AttrType := AKA_AT_MAC, Length := 5, Value := [0, 0] ++ m } := by
  simp [BuildEapAkaAttr, AKA_AT_MAC, AKA_AT_RES, AKA_AT_IDENTITY, hm]

theorem marshal_single_plain (subtype k : Nat) (attr : EapAkaAttr)
    (ht : attr.AttrType ≠ AKA_AT_IDENTITY) :
    (BuildEAPAKAEapTypeData subtype (some [(k, attr)])).Marshal =
      .ok ([EapTypeAKA, subtype, 0, 0] ++ ([attr.AttrType, attr.Length] ++ attr.Value)) := by
  simp [BuildEAPAKAEapTypeData, EapAka.Marshal, EapAka.getAttrsKeys, EapAka.entries, mapKeys,
    marshalLoop, mapGet, marshalAttr, ht, putUint16]

/-- C28. For a RES byte string `r` of at most 1016 bytes, the `EapAka` built by
`BuildEAPAKAEapTypeData` around the attribute `BuildEapAkaAttr(AKA_AT_RES, _, r)`
marshals to the header followed by `[3, L, hi(8·len r), lo(8·len r)] ++ r` and
zero padding, a record of exactly `4·L` bytes, and `Unmarshal` of these bytes
succeeds with a RES attribute of `Reserved = 8·len(r)` and `Value` = `r`
zero-padded to a multiple of 4 bytes.  For a 16-byte `m` the attribute
`BuildEapAkaAttr(AKA_AT_MAC, _, m)` marshals to the record `[11, 5, 0, 0] ++ m`,
which `Unmarshal` decodes to a MAC attribute with `Reserved = 0` and
`Value = m`. -/
theorem buildEapAkaAttr_res_mac_wire (subtype : Nat) (vStr : List Nat) :
    (∀ r : List Nat, r.length ≤ 1016 →
      ∃ attr pad L, BuildEapAkaAttr AKA_AT_RES vStr r = some attr ∧ attr.Length = L ∧
        pad < 4 ∧ (r.length + pad) % 4 = 0 ∧
        (BuildEAPAKAEapTypeData subtype (some [(AKA_AT_RES, attr)])).Marshal =
          .ok ([EapTypeAKA, subtype, 0, 0] ++
            ([3, L, 8 * r.length / 256, 8 * r.length % 256] ++ r ++ List.replicate pad 0)) ∧
        ([3, L, 8 * r.length / 256, 8 * r.length % 256] ++ r ++ List.replicate pad 0).length
          = 4 * L ∧
        ∀ a : EapAka,
          (a.Unmarshal ([EapTypeAKA, subtype, 0, 0] ++
            ([3, L, 8 * r.length / 256, 8 * r.length % 256] ++ r ++
              List.replicate pad 0))).2 = none ∧
          (a.Unmarshal ([EapTypeAKA, subtype, 0, 0] ++
            ([3, L, 8 * r.length / 256, 8 * r.length % 256] ++ r ++
              List.replicate pad 0))).1.entries =
            [(AKA_AT_RES, { EapAkaAttr.zero with
              AttrType := AKA_AT_RES, Length := L, Reserved := 8 * r.length,
              Value := r ++ List.replicate pad 0 })]) ∧
    (∀ m : List Nat, m.length = 16 →
      ∃ attr, BuildEapAkaAttr AKA_AT_MAC vStr m = some attr ∧
        (BuildEAPAKAEapTypeData subtype (some [(AKA_AT_MAC, attr)])).Marshal =
          .ok ([EapTypeAKA, subtype, 0, 0] ++ ([11, 5, 0, 0] ++ m)) ∧
        ∀ a : EapAka,
          (a.Unmarshal ([EapTypeAKA, subtype, 0, 0] ++ ([11, 5, 0, 0] ++ m))).2 = none ∧
          (a.Unmarshal ([EapTypeAKA, subtype, 0, 0] ++ ([11, 5, 0, 0] ++ m))).1.entries =
            [(AKA_AT_MAC, { EapAkaAttr.zero with
              AttrType := AKA_AT_MAC, Length := 5, Reserved := 0, Value := m })]) := by
  constructor
  · intro r hr
    have hL : (4 + r.length + (4 - r.length % 4) % 4) / 4 % 256 =
        (4 + r.length + (4 - r.length % 4) % 4) / 4 := by omega
    have hhi : r.length * 8 % 65536 / 256 % 256 = 8 * r.length / 256 := by omega
    have hlo : r.length * 8 % 65536 % 256 = 8 * r.length % 256 := by omega
    have hput : putUint16 (r.length * 8 % 65536) =
        [8 * r.length / 256, 8 * r.length % 256] := by
      simp only [putUint16, hhi, hlo]
    have hrec : ([3, (4 + r.length + (4 - r.length % 4) % 4) / 4,
        8 * r.length / 256, 8 * r.length % 256] ++ r ++
        List.replicate ((4 - r.length % 4) % 4) 0).length =
        4 * ((4 + r.length + (4 - r.length % 4) % 4) / 4) := by
      simp only [List.length_append, List.length_cons, List.length_nil, List.length_replicate]
      omega
    refine ⟨_, (4 - r.length % 4) % 4, (4 + r.length + (4 - r.length % 4) % 4) / 4,
      buildEapAkaAttr_res_eq vStr r, hL, by omega, by omega, ?_, hrec, fun a => ?_⟩
    · refine (marshal_single_plain _ _ _ ?_).trans ?_
      · show AKA_AT_RES ≠ AKA_AT_IDENTITY
        decide
      · simp only [hL, hput, AKA_AT_RES, List.append_assoc, List.cons_append, List.nil_append]
    · have hu : unmarshalAttr AKA_AT_RES
          ((4 + r.length + (4 - r.length % 4) % 4) / 4 :: 8 * r.length / 256 ::
            8 * r.length % 256 :: (r ++ List.replicate ((4 - r.length % 4) % 4) 0)) =
          .ok ({ EapAkaAttr.zero with
            AttrType := AKA_AT_RES
            Length := (4 + r.length + (4 - r.length % 4) % 4) / 4
            Reserved := 8 * r.length
            Value := r ++ List.replicate ((4 - r.length % 4) % 4) 0 }, []) := by
        have hlen : (r ++ List.replicate ((4 - r.length % 4) % 4) 0).length =
            4 * ((4 + r.length + (4 - r.length % 4) % 4) / 4) - 4 := by
          simp only [List.length_append, List.length_replicate]
          omega
        rw [unmarshalAttr_plain _ _ _ _ _ (by decide) (by decide) (by decide) (by decide)
          (by decide), if_neg (by rw [hlen]; omega), ← hlen, List.take_length, List.drop_length]
        have hres : 8 * r.length / 256 * 256 + 8 * r.length % 256 = 8 * r.length := by omega
        rw [hres]
      have h3 : a.Unmarshal ([EapTypeAKA, subtype, 0, 0] ++
          ([3, (4 + r.length + (4 - r.length % 4) % 4) / 4, 8 * r.length / 256,
            8 * r.length % 256] ++ r ++ List.replicate ((4 - r.length % 4) % 4) 0)) = _ :=
        unmarshal_single_record a subtype 0 0 AKA_AT_RES _ _ hu
      rw [h3]
      exact ⟨rfl, rfl⟩
  · intro m hm
    refine ⟨_, buildEapAkaAttr_mac_eq vStr m hm, ?_, fun a => ?_⟩
    · refine (marshal_single_plain _ _ _ ?_).trans ?_
      · show AKA_AT_MAC ≠ AKA_AT_IDENTITY
        decide
      · rfl
    · have hu : unmarshalAttr AKA_AT_MAC (5 :: 0 :: 0 :: m) =
          .ok ({ EapAkaAttr.zero with
            AttrType := AKA_AT_MAC, Length := 5, Reserved := 0, Value := m }, []) := by
        rw [unmarshalAttr_fixed _ _ _ _ _ (Or.inr (Or.inr rfl)), if_neg (by simp),
          if_neg (by omega), List.take_of_length_le (by omega),
          List.drop_eq_nil_of_le (by omega)]
      have h11 : a.Unmarshal ([EapTypeAKA, subtype, 0, 0] ++ ([11, 5, 0, 0] ++ m)) = _ :=
        unmarshal_single_record a subtype 0 0 AKA_AT_MAC _ _ hu
      rw [h11]
      exact ⟨rfl, rfl⟩

theorem buildEapAkaAttr_res_mac_wire_witness :
    ([1, 2, 3, 4, 5].length ≤ 1016) ∧
    ∃ attr pad L, BuildEapAkaAttr AKA_AT_RES [] [1, 2, 3, 4, 5] = some attr ∧ attr.Length = L ∧
      pad < 4 ∧ ([1, 2, 3, 4, 5].length + pad) % 4 = 0 ∧
      (BuildEAPAKAEapTypeData 1 (some [(AKA_AT_RES, attr)])).Marshal =
        .ok ([EapTypeAKA, 1, 0, 0] ++
          ([3, L, 8 * [1, 2, 3, 4, 5].length / 256, 8 * [1, 2, 3, 4, 5].length % 256] ++
            [1, 2, 3, 4, 5] ++ List.replicate pad 0)) ∧
      ([3, L, 8 * [1, 2, 3, 4, 5].length / 256, 8 * [1, 2, 3, 4, 5].length % 256] ++
        [1, 2, 3, 4, 5] ++ List.replicate pad 0).length = 4 * L ∧
      ∀ a : EapAka,
        (a.Unmarshal ([EapTypeAKA, 1, 0, 0] ++
          ([3, L, 8 * [1, 2, 3, 4, 5].length / 256, 8 * [1, 2, 3, 4, 5].length % 256] ++
            [1, 2, 3, 4, 5] ++ List.replicate pad 0))).2 = none ∧
        (a.Unmarshal ([EapTypeAKA, 1, 0, 0] ++
          ([3, L, 8 * [1, 2, 3, 4, 5].length / 256, 8 * [1, 2, 3, 4, 5].length % 256] ++
            [1, 2, 3, 4, 5] ++ List.replicate pad 0))).1.entries =
          [(AKA_AT_RES, { EapAkaAttr.zero with
            AttrType := AKA_AT_RES, Length := L, Reserved := 8 * [1, 2, 3, 4, 5].length,
            Value := [1, 2, 3, 4, 5] ++ List.replicate pad 0 })] :=
  ⟨by decide, (buildEapAkaAttr_res_mac_wire 1 []).1 [1, 2, 3, 4, 5] (by decide)⟩

/-- `Unmarshal` on a buffer whose header is accepted: the receiver is given the
header fields and the map the decode loop builds, and the error of the loop is
returned. -/
theorem unmarshal_of_header (a : EapAka) (b : List Nat) (h1 : ¬ b.length < 4)
    (h2 : b.headD 0 = EapTypeAKA) :
    a.Unmarshal b =
      ({ SubType := b.getD 1 0, Reserved := beUint16 ((b.drop 2).take 2),
         Attributes := some (unmarshalLoop b.length (b.drop 4) []).1 },
        (unmarshalLoop b.length (b.drop 4) []).2) := by
  unfold EapAka.Unmarshal
  rw [if_neg h1]
  dsimp only
  rw [if_neg (not_not.mpr h2)]

/-- The decode loop, when it reaches a record, runs from that record on with
enough fuel and some map built from the records before it. -/
theorem unmarshalLoop_at_reached (fuel : Nat) (rest0 : List Nat) (m : AttrMap) (r : List Nat)
    (hr : r ∈ reachedRecords fuel rest0) (hf : rest0.length ≤ fuel) :
    ∃ fuel' m', r.length ≤ fuel' ∧
      unmarshalLoop fuel rest0 m = unmarshalLoop fuel' r m' ∧
      ∀ r', r' ∈ reachedRecords fuel' r → r' ∈ reachedRecords fuel rest0 := by
  induction fuel generalizing rest0 m with
  | zero => cases rest0 <;> simp [reachedRecords] at hr
  | succ n ih =>
    cases rest0 with
    | nil => simp [reachedRecords] at hr
    | cons t0 r0 =>
      simp only [reachedRecords, List.mem_cons] at hr
      rcases hr with hr | hr
      · subst hr
        exact ⟨n + 1, m, hf, rfl, fun r' h => h⟩
      · cases hu : unmarshalAttr t0 r0 with
        | error e => rw [hu] at hr; cases hr
        | ok p =>
          obtain ⟨attr, rest1⟩ := p
          rw [hu] at hr
          have hl := unmarshalAttr_length t0 r0 rest1 attr hu
          simp only [List.length_cons] at hf
          obtain ⟨fuel', m', h1, h2, h3⟩ := ih rest1 (mapSet m t0 attr) hr (by omega)
          refine ⟨fuel', m', h1, ?_, fun r' h => ?_⟩
          · simp only [unmarshalLoop, hu, h2]
          · simp only [reachedRecords, hu, List.mem_cons]
            exact Or.inr (h3 r' h)

/-- A key of the map the decode loop starts from is a key of the map it ends
with. -/
theorem unmarshalLoop_keeps_key (fuel : Nat) (rest : List Nat) (m : AttrMap) (k : Nat)
    (h : ∃ attr, mapGet m k = some attr) :
    ∃ attr, mapGet (unmarshalLoop fuel rest m).1 k = some attr := by
  induction fuel generalizing rest m with
  | zero => cases rest <;> simpa [unmarshalLoop] using h
  | succ n ih =>
    cases rest with
    | nil => simpa [unmarshalLoop] using h
    | cons t rest =>
      simp only [unmarshalLoop]
      cases hu : unmarshalAttr t rest with
      | error e => simpa using h
      | ok p =>
        obtain ⟨attr, rest'⟩ := p
        simp only
        apply ih
        by_cases hk : k = t
        · subst hk
          exact ⟨attr, mapGet_mapSet_self _ _ _⟩
        · rw [mapGet_mapSet_ne m t k attr hk]
          exact h

/-- The entry of a type is left alone by the decode loop when no record it
reaches has that type. -/
theorem unmarshalLoop_other_types (fuel : Nat) (rest : List Nat) (m : AttrMap) (k : Nat)
    (h : ∀ r' ∈ reachedRecords fuel rest, r'.headD 0 ≠ k) :
    mapGet (unmarshalLoop fuel rest m).1 k = mapGet m k := by
  induction fuel generalizing rest m with
  | zero => cases rest <;> simp [unmarshalLoop]
  | succ n ih =>
    cases rest with
    | nil => simp [unmarshalLoop]
    | cons t rest =>
      have ht : t ≠ k := by
        have := h (t :: rest) (by simp [reachedRecords])
        simpa using this
      simp only [unmarshalLoop]
      cases hu : unmarshalAttr t rest with
      | error e => rfl
      | ok p =>
        obtain ⟨attr, rest'⟩ := p
        simp only
        rw [ih rest' (mapSet m t attr) (fun r' hr' => h r' (by
          simp only [reachedRecords, hu, List.mem_cons]
          exact Or.inr hr')), mapGet_mapSet_ne m t k attr (Ne.symm ht)]

/-- When the decode loop returns an error, one of the records it reached is
rejected by its iteration. -/
theorem unmarshalLoop_error_at (fuel : Nat) (rest : List Nat) (m : AttrMap)
    (hf : rest.length ≤ fuel) (he : (unmarshalLoop fuel rest m).2 ≠ none) :
    ∃ t' rest', (t' :: rest') ∈ reachedRecords fuel rest ∧
      ∃ e, unmarshalAttr t' rest' = .error e := by
  induction fuel generalizing rest m with
  | zero =>
    cases rest with
    | nil => simp [unmarshalLoop] at he
    | cons t rest => simp at hf
  | succ n ih =>
    cases rest with
    | nil => simp [unmarshalLoop] at he
    | cons t rest =>
      simp only [unmarshalLoop] at he
      cases hu : unmarshalAttr t rest with
      | error e => exact ⟨t, rest, by simp [reachedRecords], e, hu⟩
      | ok p =>
        obtain ⟨attr, rest'⟩ := p
        rw [hu] at he
        have hl := unmarshalAttr_length t rest rest' attr hu
        simp only [List.length_cons] at hf
        obtain ⟨t', r', h1, h2⟩ := ih rest' (mapSet m t attr) (by omega) he
        refine ⟨t', r', ?_, h2⟩
        simp only [reachedRecords, hu, List.mem_cons]
        exact Or.inr h1

theorem reachedBy_header (b r : List Nat) (hr : r ∈ reachedBy b) :
    ¬ b.length < 4 ∧ b.headD 0 = EapTypeAKA ∧ r ∈ reachedRecords b.length (b.drop 4) := by
  unfold reachedBy at hr
  by_cases hh : b.length < 4 ∨ b.headD 0 ≠ EapTypeAKA
  · rw [if_pos hh] at hr
    cases hr
  · rw [if_neg hh] at hr
    exact ⟨fun h => hh (Or.inl h), not_not.mp (fun h => hh (Or.inr h)), hr⟩

theorem reachedBy_of_header (b r : List Nat) (h1 : ¬ b.length < 4)
    (h2 : b.headD 0 = EapTypeAKA) (hr : r ∈ reachedRecords b.length (b.drop 4)) :
    r ∈ reachedBy b := by
  unfold reachedBy
  rw [if_neg (by
    rintro (h | h)
    · exact h1 h
    · exact h h2)]
  exact hr

/-- C17. Let the decode loop of `Unmarshal` on `b` reach a record whose type
`t` is none of the defined attribute constants, with length byte `L ≥ 1` and at
least `4·L` bytes from its start.  The iteration on the record succeeds with the
attribute of type `t`, `Length = L`, the big-endian value of the two bytes after
the length byte as `Reserved` and the following `4·L − 4` bytes as `Value`.
`Unmarshal` does not fail on that record: an error it returns comes from a
record reached later, in the bytes after the value.  `Unmarshal` stores the
attribute: the map of the receiver has an entry for `t`, and it is this
attribute unless a later record of type `t` replaces it.  And decoding continues
at the byte after the value: the bytes left there, if any, are the next record
reached; if none are left `Unmarshal` succeeds. -/
theorem unmarshal_unknown_type (a : EapAka) (b : List Nat) (t L x y : Nat) (tl : List Nat)
    (hr : (t :: L :: x :: y :: tl) ∈ reachedBy b)
    (ht : t ∉ definedAttrTypes) (hL : 1 ≤ L)
    (hlen : 4 * L ≤ (t :: L :: x :: y :: tl).length) :
    (unmarshalAttr t (L :: x :: y :: tl) =
        .ok (decodedAttr t L x y tl, tl.drop (4 * L - 4)) ∧
      (decodedAttr t L x y tl).Value.length = 4 * L - 4) ∧
    ((a.Unmarshal b).2 ≠ none →
      ∃ t' rest', (t' :: rest') ∈ reachedBy b ∧ (t' :: rest') <:+ tl.drop (4 * L - 4) ∧
        ∃ e, unmarshalAttr t' rest' = .error e) ∧
    (∃ attr, mapGet (a.Unmarshal b).1.entries t = some attr) ∧
    ((∀ r' ∈ reachedBy b, r' <:+ tl.drop (4 * L - 4) → r'.headD 0 ≠ t) →
      mapGet (a.Unmarshal b).1.entries t = some (decodedAttr t L x y tl)) ∧
    (tl.drop (4 * L - 4) ≠ [] → tl.drop (4 * L - 4) ∈ reachedBy b) ∧
    (tl.drop (4 * L - 4) = [] →
      (a.Unmarshal b).2 = none ∧
      mapGet (a.Unmarshal b).1.entries t = some (decodedAttr t L x y tl)) := by
  obtain ⟨h1, h2, hrr⟩ := reachedBy_header b _ hr
  obtain ⟨hu, hvl, hstep⟩ := unmarshalLoop_unknown_type t L x y tl ht hL hlen
  obtain ⟨fuel', m', hfl, hloop, hsub⟩ :=
    unmarshalLoop_at_reached b.length (b.drop 4) [] _ hrr (by simp)
  cases fuel' with
  | zero => simp at hfl
  | succ f =>
    obtain ⟨hs1, hs2, hs3⟩ := hstep f m'
    rw [hs1] at hloop
    have hfr : (tl.drop (4 * L - 4)).length ≤ f := by
      simp only [List.length_cons] at hfl
      simp only [List.length_drop]
      omega
    have hlater : ∀ r', r' ∈ reachedRecords f (tl.drop (4 * L - 4)) →
        r' ∈ reachedBy b ∧ r' <:+ tl.drop (4 * L - 4) := by
      intro r' hr'
      refine ⟨reachedBy_of_header b r' h1 h2 (hsub r' ?_), reachedRecords_suffix _ _ r' hr'⟩
      rw [hs3]
      exact List.mem_cons_of_mem _ hr'
    rw [unmarshal_of_header a b h1 h2, hloop]
    simp only [EapAka.entries, Option.getD_some]
    refine ⟨⟨hu, hvl⟩, ?_, ?_, ?_, ?_, ?_⟩
    · intro he
      obtain ⟨t', rest', hm, e, hee⟩ := unmarshalLoop_error_at f _ _ hfr he
      exact ⟨t', rest', (hlater _ hm).1, (hlater _ hm).2, e, hee⟩
    · exact unmarshalLoop_keeps_key f _ _ t ⟨_, hs2⟩
    · intro hno
      rw [unmarshalLoop_other_types f _ _ t
        (fun r' hr' => hno r' (hlater r' hr').1 (hlater r' hr').2), hs2]
    · intro hne
      cases hd : tl.drop (4 * L - 4) with
      | nil => exact absurd hd hne
      | cons t1 r1 =>
        rw [hd] at hfr hlater
        cases f with
        | zero => simp at hfr
        | succ f0 => exact (hlater (t1 :: r1) (by simp [reachedRecords])).1
    · intro hnil
      rw [hnil]
      have : unmarshalLoop f [] (mapSet m' t (decodedAttr t L x y tl)) =
          (mapSet m' t (decodedAttr t L x y tl), none) := by
        cases f <;> rfl
      rw [this]
      exact ⟨rfl, hs2⟩

theorem unmarshal_unknown_type_witness :
    ([9, 2, 1, 2, 3, 4, 5, 6, 4, 1, 7, 7] ∈
        reachedBy [23, 1, 0, 0, 9, 2, 1, 2, 3, 4, 5, 6, 4, 1, 7, 7] ∧
      9 ∉ definedAttrTypes ∧ 1 ≤ 2 ∧ 4 * 2 ≤ [9, 2, 1, 2, 3, 4, 5, 6, 4, 1, 7, 7].length ∧
      (∀ r' ∈ reachedBy [23, 1, 0, 0, 9, 2, 1, 2, 3, 4, 5, 6, 4, 1, 7, 7],
        r' <:+ [3, 4, 5, 6, 4, 1, 7, 7].drop (4 * 2 - 4) → r'.headD 0 ≠ 9) ∧
      [3, 4, 5, 6, 4, 1, 7, 7].drop (4 * 2 - 4) ≠ []) ∧
    mapGet ((NewEapAka 0).Unmarshal
        [23, 1, 0, 0, 9, 2, 1, 2, 3, 4, 5, 6, 4, 1, 7, 7]).1.entries 9 =
      some (decodedAttr 9 2 1 2 [3, 4, 5, 6, 4, 1, 7, 7]) ∧
    [3, 4, 5, 6, 4, 1, 7, 7].drop (4 * 2 - 4) ∈
      reachedBy [23, 1, 0, 0, 9, 2, 1, 2, 3, 4, 5, 6, 4, 1, 7, 7] :=
  ⟨⟨by decide, by decide, by decide, by decide, by decide, by decide⟩,
    (unmarshal_unknown_type (NewEapAka 0) [23, 1, 0, 0, 9, 2, 1, 2, 3, 4, 5, 6, 4, 1, 7, 7]
      9 2 1 2 [3, 4, 5, 6, 4, 1, 7, 7] (by decide) (by decide) (by decide)
      (by decide)).2.2.2.1 (by decide),
    (unmarshal_unknown_type (NewEapAka 0) [23, 1, 0, 0, 9, 2, 1, 2, 3, 4, 5, 6, 4, 1, 7, 7]
      9 2 1 2 [3, 4, 5, 6, 4, 1, 7, 7] (by decide) (by decide) (by decide)
      (by decide)).2.2.2.2.1 (by decide)⟩

end Eap
